import Mathlib

/-!
# Unix V6 file-system reader: inode, file, directory and pathname layers

A shallow embedding of `diskimg.c`, `inode.c`, `file.c`, `directory.c`,
`pathname.c` and of the walks over the blocks of a file in `chksumfile.c`.

* C `int` values are exact integers; every `int` operation that can leave the
  32-bit range is wrapped with `wrapInt32` (two's complement).
* C `/` and `%` on `int` are `Int.tdiv` and `Int.tmod` (truncation toward zero).
* Memory of a buffer is a function from byte offsets to bytes; 16-bit fields are
  read little-endian, as on the hosts the V6 image format is decoded on.
* A function result is `none` when execution reaches an array access outside the
  array; otherwise it carries the returned value, the contents of the output
  parameters after the call, and the list of sector numbers passed to
  `diskimg_readsector`, in call order.
* A loop whose bound is not a count is a recursion on a number of iterations
  allowed, chosen above the number the loop can make.
-/

namespace UnixV6

/-! ## Machine integers and memory -/

/-- Unsigned 8-bit value (`uint8_t`, `char` of a sector). -/
abbrev U8 := Fin 256

/-- Unsigned 16-bit value (`uint16_t`). -/
abbrev U16 := Fin 65536

/-- Memory of a buffer, by byte offset from its start. -/
abbrev Buffer := Nat → U8

/-- The value a 32-bit two's-complement `int` holds for an exact integer result. -/
def wrapInt32 (x : Int) : Int :=
  (x + 2147483648) % 4294967296 - 2147483648

/-- Little-endian 16-bit value made of two consecutive bytes. -/
def u16le (lo hi : U8) : U16 :=
  ⟨lo.val + 256 * hi.val, by have h1 := lo.isLt; have h2 := hi.isLt; omega⟩

/-- The `uint16_t` stored at byte offset `off` of a buffer. -/
def u16At (buf : Buffer) (off : Nat) : U16 :=
  u16le (buf off) (buf (off + 1))

/-- Memory after `bs` has been stored at the start of `buf`: the bytes past
`bs.length` keep what they held before. -/
def store (bs : List U8) (buf : Buffer) : Buffer :=
  fun k => if h : k < bs.length then bs.get ⟨k, h⟩ else buf k

/-! ## diskimg.h / diskimg.c -/

/-- Size of a disk sector in bytes (`diskimg.h`). -/
def DISKIMG_SECTOR_SIZE : Nat := 512

/-- The open image descriptor `dfd`, given by what the operating system answers
to the two calls `diskimg_readsector` makes on it. -/
structure Dfd where
  /-- Result of `lseek(dfd, off, SEEK_SET)`: `-1` on failure. -/
  lseek : Int → Int
  /-- Result of `read(dfd, buf, 512)` once the offset is `off`: `none` when it
  returns `-1`, else the bytes it delivers (at most 512 of them are stored). -/
  read : Int → Option (List U8)

/-- `diskimg_readsector(dfd, sectorNum, buf)`: the returned byte count (or `-1`)
and the buffer after the call. -/
def diskimg_readsector (dfd : Dfd) (sectorNum : Int) (buf : Buffer) : Int × Buffer :=
  let off := wrapInt32 (sectorNum * (DISKIMG_SECTOR_SIZE : Int))
  if dfd.lseek off = -1 then (-1, buf)
  else
    match dfd.read off with
    | none => (-1, buf)
    | some bs =>
      let got := bs.take DISKIMG_SECTOR_SIZE
      ((got.length : Int), store got buf)

/-! ## unixfilesystem.h, ino.h (declarations used by the layers) -/

/-- Modelled from the spec: `struct unixfilesystem` is declared in
`unixfilesystem.h`, which is not among the sources. The session object owns the
device handle (`fs->dfd`, the only field the layers read) and the superblock, of
which the spec names the count of sectors allocated to the inode table
(`fs->superblock.s_isize` in the test driver). -/
structure unixfilesystem where
  dfd : Dfd
  s_isize : Nat

/-- Modelled from the spec: `struct inode` is declared in `ino.h`, which is not
among the sources. The on-disk layout contract lists the record as: mode flags,
link count, owner id, group id, size-high (8 bits), size-low (16 bits), 8
block-pointer entries (16 bits each), two 2-field timestamps; the widths of the
remaining fields are those that give the 32-byte record of which a 512-byte
sector holds 16. -/
structure inode where
  i_mode : U16
  i_nlink : U8
  i_uid : U8
  i_gid : U8
  i_size0 : U8
  i_size1 : U16
  i_addr : Fin 8 → U16
  i_atime : Fin 2 → U16
  i_mtime : Fin 2 → U16

/-- The value of `sizeof(struct inode)`. -/
def sizeof_inode : Nat := 32

/-- The `struct inode` held in slot `k` of a buffer viewed as `struct inode buf[]`. -/
def inodeAt (buf : Buffer) (k : Nat) : inode :=
  let b := sizeof_inode * k
  { i_mode := u16At buf b
    i_nlink := buf (b + 2)
    i_uid := buf (b + 3)
    i_gid := buf (b + 4)
    i_size0 := buf (b + 5)
    i_size1 := u16At buf (b + 6)
    i_addr := fun j => u16At buf (b + 8 + 2 * j.val)
    i_atime := fun j => u16At buf (b + 24 + 2 * j.val)
    i_mtime := fun j => u16At buf (b + 28 + 2 * j.val) }

/-- The buffer that holds exactly the bytes `bs` (zero elsewhere): the contents
of a sector taken on its own. -/
def sectorBuffer (bs : List U8) : Buffer :=
  fun k => bs.getD k 0

/-! ## inode.c -/

def INODE_BLOCK : Int := 2

def NUM_SGL_INDIR_BLOCKS : Int := 7

/-- `DISKIMG_SECTOR_SIZE / sizeof(struct inode)`. -/
def INODES_PER_BLOCK : Int := ((DISKIMG_SECTOR_SIZE / sizeof_inode : Nat) : Int)

/-- `DISKIMG_SECTOR_SIZE / sizeof(uint16_t)`. -/
def BLOCKNUMS_PER_BLOCK : Int := ((DISKIMG_SECTOR_SIZE / 2 : Nat) : Int)

/-- `7 * (DISKIMG_SECTOR_SIZE / sizeof(uint16_t)) * DISKIMG_SECTOR_SIZE`. -/
def SINGLY_INDIRECT_BYTES : Int := ((7 * (DISKIMG_SECTOR_SIZE / 2) * DISKIMG_SECTOR_SIZE : Nat) : Int)

/-- `inode_getsize`: `(i_size0 << 16) | i_size1`, both operands promoted to `int`. -/
def inode_getsize (inp : inode) : Int :=
  (((inp.i_size0.val <<< 16) ||| inp.i_size1.val : Nat) : Int)

/-- `inode_iget(fs, inumber, inp)`: return value, `*inp` after the call, sectors
read. `inp` is `*inp` before the call and `junk` what the local array `buf`
holds before the read. -/
def inode_iget (fs : unixfilesystem) (inumber : Int) (inp : inode) (junk : Buffer) :
    Option (Int × inode × List Int) :=
  let sectorNum := wrapInt32 (INODE_BLOCK + (wrapInt32 (inumber - 1)).tdiv INODES_PER_BLOCK)
  let r := diskimg_readsector fs.dfd sectorNum junk
  if r.1 = -1 then some (-1, inp, [sectorNum])
  else
    let indexInBlock := (wrapInt32 (inumber - 1)).tmod INODES_PER_BLOCK
    if 0 ≤ indexInBlock ∧ indexInBlock < INODES_PER_BLOCK then
      some (0, inodeAt r.2 indexInBlock.toNat, [sectorNum])
    else none

/-- The element `inp->i_addr[k]`, when `k` is inside the 8-entry table. -/
def i_addr_at (inp : inode) (k : Int) : Option U16 :=
  if h : 0 ≤ k ∧ k < 8 then some (inp.i_addr ⟨k.toNat, by omega⟩) else none

/-- The element `buf[k]` of a buffer declared `uint16_t buf[BLOCKNUMS_PER_BLOCK]`,
when `k` is inside the array. -/
def blocknum_at (buf : Buffer) (k : Int) : Option U16 :=
  if 0 ≤ k ∧ k < BLOCKNUMS_PER_BLOCK then some (u16At buf (2 * k.toNat)) else none

/-- `inode_indexlookup(fs, inp, fileBlockIndex)`: return value and sectors read.
`ILARG` is the large-file mask of `ino.h` (not among the sources) and `junk`
what the local array `buf` holds before the first read. -/
def inode_indexlookup (ILARG : Nat) (fs : unixfilesystem) (inp : inode)
    (fileBlockIndex : Int) (junk : Buffer) : Option (Int × List Int) :=
  let fileSize := inode_getsize inp
  if wrapInt32 (fileBlockIndex * (DISKIMG_SECTOR_SIZE : Int)) > fileSize ∨ fileBlockIndex < 0 then
    some (-1, [])
  else if inp.i_mode.val &&& ILARG = 0 then
    -- small mode
    match i_addr_at inp fileBlockIndex with
    | none => none
    | some a => some ((a.val : Int), [])
  else
    -- large mode
    let blockNum := fileBlockIndex.tdiv BLOCKNUMS_PER_BLOCK
    let iaddrIndex := if blockNum > NUM_SGL_INDIR_BLOCKS then NUM_SGL_INDIR_BLOCKS else blockNum
    match i_addr_at inp iaddrIndex with
    | none => none
    | some indirectBlock =>
      let r := diskimg_readsector fs.dfd (indirectBlock.val : Int) junk
      if r.1 = -1 then some (-1, [(indirectBlock.val : Int)])
      else if inode_getsize inp ≤ SINGLY_INDIRECT_BYTES ∨ blockNum < NUM_SGL_INDIR_BLOCKS then
        -- singly indirect block
        match blocknum_at r.2 (fileBlockIndex.tmod BLOCKNUMS_PER_BLOCK) with
        | none => none
        | some e => some ((e.val : Int), [(indirectBlock.val : Int)])
      else
        -- doubly indirect block
        let secondIndex := wrapInt32 (blockNum - NUM_SGL_INDIR_BLOCKS)
        match blocknum_at r.2 secondIndex with
        | none => none
        | some second =>
          let r2 := diskimg_readsector fs.dfd (second.val : Int) r.2
          if r2.1 = -1 then some (-1, [(indirectBlock.val : Int), (second.val : Int)])
          else
            match blocknum_at r2.2 (fileBlockIndex.tmod BLOCKNUMS_PER_BLOCK) with
            | none => none
            | some e => some ((e.val : Int), [(indirectBlock.val : Int), (second.val : Int)])

/-! ## file.c -/

/-- `file_getblock(fs, inumber, fileBlockIndex, buf)`: return value, the caller's
buffer after the call, sectors read. `inp0`, `junkI` and `junkL` are what the
uninitialised local `inp` and the local arrays of `inode_iget` and
`inode_indexlookup` hold on entry. -/
def file_getblock (ILARG : Nat) (fs : unixfilesystem) (inumber fileBlockIndex : Int)
    (buf : Buffer) (inp0 : inode) (junkI junkL : Buffer) :
    Option (Int × Buffer × List Int) :=
  match inode_iget fs inumber inp0 junkI with
  | none => none
  | some (st, inp, reads1) =>
    if st ≠ 0 then some (-1, buf, reads1)
    else
      match inode_indexlookup ILARG fs inp fileBlockIndex junkL with
      | none => none
      | some (blockNum, reads2) =>
        if blockNum = -1 then some (-1, buf, reads1 ++ reads2)
        else
          let fileSize := inode_getsize inp
          let r := diskimg_readsector fs.dfd blockNum buf
          if r.1 = -1 then some (-1, r.2, reads1 ++ reads2 ++ [blockNum])
          else if fileSize.tdiv (DISKIMG_SECTOR_SIZE : Int) = fileBlockIndex then
            some (fileSize.tmod (DISKIMG_SECTOR_SIZE : Int), r.2, reads1 ++ reads2 ++ [blockNum])
          else some (r.1, r.2, reads1 ++ reads2 ++ [blockNum])

/-! ## direntv6.h, directory.c -/

/-- Modelled from the spec: `MAX_COMPONENT_LENGTH` is defined in `direntv6.h`,
which is not among the sources; the name field of a directory entry is 14 bytes
wide. -/
def MAX_COMPONENT_LENGTH : Nat := 14

/-- Modelled from the spec: `struct direntv6` is declared in `direntv6.h`, which
is not among the sources. A directory entry record is a 16-bit inode identifier
followed by a 14-byte name field with no terminator; `d_name` lists the 14 bytes
of the field. -/
structure direntv6 where
  d_inumber : U16
  d_name : List U8
deriving DecidableEq

/-- The value of `sizeof(struct direntv6)`. -/
def sizeof_direntv6 : Nat := 16

/-- The `struct direntv6` held in slot `j` of a buffer viewed as
`struct direntv6 buf[]`. -/
def direntAt (buf : Buffer) (j : Nat) : direntv6 :=
  { d_inumber := u16At buf (sizeof_direntv6 * j)
    d_name := (List.range MAX_COMPONENT_LENGTH).map fun k => buf (sizeof_direntv6 * j + 2 + k) }

/-- `DISKIMG_SECTOR_SIZE / sizeof(struct direntv6)`. -/
def DIRENTS_PER_BLOCK : Nat := DISKIMG_SECTOR_SIZE / sizeof_direntv6

/-- `strncmp(s1, s2, n)` of the C library. A string is given by the bytes it
holds, byte `k` being `s.getD k 0`: the bytes of a C string are followed by its
terminating NUL. The result is 0 when the strings agree up to the first NUL or
up to `n` bytes, and otherwise the difference of the first two bytes that
differ, compared as `unsigned char`. -/
def strncmp : List U8 → List U8 → Nat → Int
  | _, _, 0 => 0
  | s1, s2, n + 1 =>
    if s1.headD 0 ≠ s2.headD 0 then ((s1.headD 0).val : Int) - ((s2.headD 0).val : Int)
    else if s1.headD 0 = 0 then 0
    else strncmp s1.tail s2.tail n

/-- The value `blockSize / sizeof(struct direntv6)` stored in `int numDir`: the
division is done in `size_t` (64 bits), to which `blockSize` is converted. -/
def numDirOf (blockSize : Int) : Int :=
  wrapInt32 (blockSize % 18446744073709551616 / (sizeof_direntv6 : Int))

/-- The slot loop `for (j = 0; j < numDir; j++)` of `directory_findname` from
slot `j` on, with `n = numDir - j` iterations left: the entry found, if any;
`none` when a slot outside the array `buf[DIRENTS_PER_BLOCK]` is reached. -/
def findname_slots (name : List U8) (buf : Buffer) : Nat → Nat → Option (Option direntv6)
  | 0, _ => some none
  | n + 1, j =>
    if j < DIRENTS_PER_BLOCK then
      if strncmp name (direntAt buf j).d_name MAX_COMPONENT_LENGTH = 0 then
        some (some (direntAt buf j))
      else findname_slots name buf n (j + 1)
    else none

/-- What a call of `directory_findname` leaves: the value returned, `*dirEnt`
after the call, the sectors read and the block indices passed to
`file_getblock`, both in call order. -/
structure FindnameResult where
  ret : Int
  dirEnt : direntv6
  reads : List Int
  blocks : List Int
deriving DecidableEq

/-- The block loop `for (i = 0; i * DISKIMG_SECTOR_SIZE < inode_getsize(&inp); i++)`
of `directory_findname` from index `i` on. `getblock i` stands for the call
`file_getblock(fs, dirinumber, i, buf)` (value returned, `buf` after the call,
sectors read), `size` for `inode_getsize(&inp)` and `dirEnt` for `*dirEnt` on
entry. The first argument bounds the number of iterations; `none` is also the
result when it is used up, which `directory_findname` does not let happen
(`findname_blocks_spec`: with more fuel than blocks left, `none` comes from an
undefined `getblock` only). -/
def findname_blocks (getblock : Int → Option (Int × Buffer × List Int)) (name : List U8)
    (size : Int) (dirEnt : direntv6) : Nat → Int → Option FindnameResult
  | 0, _ => none
  | fuel + 1, i =>
    if wrapInt32 (i * (DISKIMG_SECTOR_SIZE : Int)) < size then
      match getblock i with
      | none => none
      | some (blockSize, buf, reads) =>
        if blockSize = -1 then some ⟨-1, dirEnt, reads, [i]⟩
        else
          match findname_slots name buf (numDirOf blockSize).toNat 0 with
          | none => none
          | some (some e) => some ⟨0, e, reads, [i]⟩
          | some none =>
            match findname_blocks getblock name size dirEnt fuel (wrapInt32 (i + 1)) with
            | none => none
            | some r => some ⟨r.ret, r.dirEnt, reads ++ r.reads, i :: r.blocks⟩
    else some ⟨-1, dirEnt, [], []⟩

/-- What the locals left uninitialised hold at one iteration of a loop over the
blocks of a file: the caller's array `buf`, and the locals of the
`file_getblock` call (`inp`, the array of `inode_iget`, the array of
`inode_indexlookup`). -/
structure BlockJunk where
  buf : Buffer
  inp : inode
  igetBuf : Buffer
  lookupBuf : Buffer

/-- The call `file_getblock(fs, inumber, i, buf)` made at iteration `i` of a loop
over the blocks of a file. -/
def getblock_call (ILARG : Nat) (fs : unixfilesystem) (inumber : Int) (junk : Nat → BlockJunk)
    (i : Int) : Option (Int × Buffer × List Int) :=
  file_getblock ILARG fs inumber i (junk i.toNat).buf (junk i.toNat).inp (junk i.toNat).igetBuf
    (junk i.toNat).lookupBuf

/-- `directory_findname(fs, name, dirinumber, dirEnt)`. `dirEnt` is `*dirEnt`
before the call, `inp0` and `junk0` are what the local `inp` and the array of
the first `inode_iget` hold on entry, `junk i` what the locals of iteration `i`
hold. The loop is given one iteration more than the `size / 512 + 1` it can
make. -/
def directory_findname (ILARG : Nat) (fs : unixfilesystem) (name : List U8) (dirinumber : Int)
    (dirEnt : direntv6) (inp0 : inode) (junk0 : Buffer) (junk : Nat → BlockJunk) :
    Option FindnameResult :=
  match inode_iget fs dirinumber inp0 junk0 with
  | none => none
  | some (st, inp, reads0) =>
    if st ≠ 0 then some ⟨-1, dirEnt, reads0, []⟩
    else
      match findname_blocks (getblock_call ILARG fs dirinumber junk) name (inode_getsize inp)
          dirEnt ((inode_getsize inp).toNat / DISKIMG_SECTOR_SIZE + 2) 0 with
      | none => none
      | some r => some ⟨r.ret, r.dirEnt, reads0 ++ r.reads, r.blocks⟩


/-! ## chksumfile.c (the walk over the blocks of a file) -/

/-- The SHA-1 library used by `chksumfile.c` (an external collaborator), given
by what its three calls do to a context of type `σ`: `init` is the value
`SHA1_Init` returns and the context it sets up; `update ctx bytes` the value
`SHA1_Update` returns for the bytes hashed and the context after; `final ctx md`
the value `SHA1_Final` returns and the digest memory after, `md` being that
memory before. The calls return 0 on failure. -/
structure ShaLib (σ : Type) where
  init : Int × σ
  update : σ → List U8 → Int × σ
  final : σ → List U8 → Int × List U8

/-- `SHA_DIGEST_LENGTH` of `openssl/sha.h`. -/
def SHA_DIGEST_LENGTH : Int := 20

/-- How the loop over the blocks of `chksumfile_byinumber` and of
`chksumfile_byinumber_error_checking` ends: on a `file_getblock` that returned a
negative value for block `bno`, on a failed `SHA1_Update`, or by running past
the end of the file with the context `ctx`. -/
inductive ChksumExit (σ : Type) where
  | getblockFailed (bno : Int)
  | updateFailed
  | finished (ctx : σ)

/-- Outcome of the loop over the blocks: how it ended, the sectors read and the
block indices passed to `file_getblock`. -/
structure ChksumLoop (σ : Type) where
  exit : ChksumExit σ
  reads : List Int
  blocks : List Int

/-- The loop `for (offset = 0; offset < size; offset += DISKIMG_SECTOR_SIZE)`
shared by the two checksum functions, from `offset` on with SHA context `ctx`.
`getblock bno` stands for the call `file_getblock(fs, inumber, bno, buf)`. The
first argument bounds the number of iterations; `none` is also the result when
it is used up, which the two functions do not let happen (`chksum_blocks_walk`). -/
def chksum_blocks {σ : Type} (getblock : Int → Option (Int × Buffer × List Int))
    (sha : ShaLib σ) (size : Int) : Nat → Int → σ → Option (ChksumLoop σ)
  | 0, _, _ => none
  | fuel + 1, offset, ctx =>
    if offset < size then
      match getblock (offset.tdiv (DISKIMG_SECTOR_SIZE : Int)) with
      | none => none
      | some (bytesMoved, buf, reads) =>
        if bytesMoved < 0 then
          some ⟨ChksumExit.getblockFailed (offset.tdiv (DISKIMG_SECTOR_SIZE : Int)), reads,
            [offset.tdiv (DISKIMG_SECTOR_SIZE : Int)]⟩
        else if (sha.update ctx ((List.range bytesMoved.toNat).map buf)).1 = 0 then
          some ⟨ChksumExit.updateFailed, reads, [offset.tdiv (DISKIMG_SECTOR_SIZE : Int)]⟩
        else
          match chksum_blocks getblock sha size fuel
              (wrapInt32 (offset + (DISKIMG_SECTOR_SIZE : Int)))
              (sha.update ctx ((List.range bytesMoved.toNat).map buf)).2 with
          | none => none
          | some l =>
            some ⟨l.exit, reads ++ l.reads, offset.tdiv (DISKIMG_SECTOR_SIZE : Int) :: l.blocks⟩
    else some ⟨ChksumExit.finished ctx, [], []⟩

/-- What a call of one of the checksum functions leaves: the value returned, the
digest memory `*chksum`, `*filegetblock_error_param` (for the function that has
it), the sectors read and the block indices passed to `file_getblock`. -/
structure ChksumResult where
  ret : Int
  chksum : List U8
  error_param : Int
  reads : List Int
  blocks : List Int

/-- `chksumfile_byinumber_error_checking(fs, inumber, chksum, filegetblock_error_param)`.
`IALLOC` is the allocated mask of `ino.h`; `chksum` and `error_param` are the two
output locations before the call, `inp0`, `junk0` and `junk` the contents of the
uninitialised locals as in `directory_findname`. -/
def chksumfile_byinumber_error_checking {σ : Type} (sha : ShaLib σ) (ILARG IALLOC : Nat)
    (fs : unixfilesystem) (inumber : Int) (chksum : List U8) (error_param : Int) (inp0 : inode)
    (junk0 : Buffer) (junk : Nat → BlockJunk) : Option ChksumResult :=
  if sha.init.1 = 0 then some ⟨-3, chksum, error_param, [], []⟩
  else
    match inode_iget fs inumber inp0 junk0 with
    | none => none
    | some (err, inp, reads0) =>
      if err < 0 then some ⟨-1, chksum, error_param, reads0, []⟩
      else if inp.i_mode.val &&& IALLOC = 0 then some ⟨-3, chksum, error_param, reads0, []⟩
      else
        match chksum_blocks (getblock_call ILARG fs inumber junk) sha (inode_getsize inp)
            ((inode_getsize inp).toNat / DISKIMG_SECTOR_SIZE + 2) 0 sha.init.2 with
        | none => none
        | some l =>
          match l.exit with
          | ChksumExit.getblockFailed bno => some ⟨-2, chksum, bno, reads0 ++ l.reads, l.blocks⟩
          | ChksumExit.updateFailed =>
            some ⟨-3, chksum, error_param, reads0 ++ l.reads, l.blocks⟩
          | ChksumExit.finished ctx =>
            if (sha.final ctx chksum).1 = 0 then
              some ⟨-3, (sha.final ctx chksum).2, error_param, reads0 ++ l.reads, l.blocks⟩
            else
              some ⟨SHA_DIGEST_LENGTH, (sha.final ctx chksum).2, error_param,
                reads0 ++ l.reads, l.blocks⟩

/-- `chksumfile_byinumber(fs, inumber, chksum)`; the field `error_param` of the
result is not used and is 0. -/
def chksumfile_byinumber {σ : Type} (sha : ShaLib σ) (ILARG IALLOC : Nat)
    (fs : unixfilesystem) (inumber : Int) (chksum : List U8) (inp0 : inode)
    (junk0 : Buffer) (junk : Nat → BlockJunk) : Option ChksumResult :=
  if sha.init.1 = 0 then some ⟨-1, chksum, 0, [], []⟩
  else
    match inode_iget fs inumber inp0 junk0 with
    | none => none
    | some (err, inp, reads0) =>
      if err < 0 then some ⟨err, chksum, 0, reads0, []⟩
      else if inp.i_mode.val &&& IALLOC = 0 then some ⟨-1, chksum, 0, reads0, []⟩
      else
        match chksum_blocks (getblock_call ILARG fs inumber junk) sha (inode_getsize inp)
            ((inode_getsize inp).toNat / DISKIMG_SECTOR_SIZE + 2) 0 sha.init.2 with
        | none => none
        | some l =>
          match l.exit with
          | ChksumExit.getblockFailed _ => some ⟨-1, chksum, 0, reads0 ++ l.reads, l.blocks⟩
          | ChksumExit.updateFailed => some ⟨-1, chksum, 0, reads0 ++ l.reads, l.blocks⟩
          | ChksumExit.finished ctx =>
            if (sha.final ctx chksum).1 = 0 then
              some ⟨-1, (sha.final ctx chksum).2, 0, reads0 ++ l.reads, l.blocks⟩
            else
              some ⟨SHA_DIGEST_LENGTH, (sha.final ctx chksum).2, 0, reads0 ++ l.reads, l.blocks⟩


/-! ## pathname.c -/

def ROOT_DIR_INUMBER : Int := 1

/-- `strlen(s)`: the number of bytes before the first NUL. -/
def strlen (s : List U8) : Nat :=
  (s.takeWhile fun c => c ≠ 0).length

/-- `strcmp(s1, s2)`: the comparison `strncmp` makes when it is allowed to run up
to the terminating NUL of `s1`. -/
def strcmp (s1 s2 : List U8) : Int :=
  strncmp s1 s2 (s1.length + 1)

/-- `strsep(&stringp, delim)` of the C library: the token returned (`none` for
`NULL`) and `*stringp` after the call. When `*stringp` is `NULL` the result is
`NULL`; otherwise the token is the string up to the first byte that occurs in
`delim`, which is overwritten with a NUL, and `*stringp` is moved past it, or
set to `NULL` when no delimiter is found. -/
def strsep (stringp : Option (List U8)) (delim : List U8) :
    Option (List U8) × Option (List U8) :=
  match stringp with
  | none => (none, none)
  | some s =>
    match s.dropWhile fun c => !(delim.contains c) with
    | [] => (some s, none)
    | _ :: rest => (some (s.takeWhile fun c => !(delim.contains c)), some rest)

/-- What a call of `pathname_lookup` leaves: the value returned, the sectors read
and the calls `directory_findname(fs, name, dirinumber, &dirEnt)` made, as pairs
`(name, dirinumber)`, in call order. -/
structure PathResult where
  ret : Int
  reads : List Int
  lookups : List (List U8 × Int)
deriving DecidableEq

/-- What the locals left uninitialised hold at one iteration of the loop of
`pathname_lookup`: its `dirEnt`, and the locals of the `directory_findname`
call. -/
structure FindJunk where
  dirEnt : direntv6
  inp : inode
  igetBuf : Buffer
  blocks : Nat → BlockJunk

/-- The loop `while ((dirname = strsep(&filepath, delim)) != NULL)` of
`pathname_lookup` at its iteration `n`, with `filepath` and `dirinumber` as they
stand. The first argument bounds the number of iterations; `none` is also the
result when it is used up, which `pathname_lookup` does not let happen
(`pathname_loop_eq_walk`). -/
def pathname_loop (ILARG : Nat) (fs : unixfilesystem) (junk : Nat → FindJunk) :
    Nat → Nat → Option (List U8) → Int → Option PathResult
  | 0, _, _, _ => none
  | fuel + 1, n, filepath, dirinumber =>
    match (strsep filepath [47]).1 with
    | none => some ⟨dirinumber, [], []⟩
    | some dirname =>
      if strcmp dirname [] = 0 then some ⟨dirinumber, [], []⟩
      else
        match directory_findname ILARG fs dirname dirinumber (junk n).dirEnt (junk n).inp
            (junk n).igetBuf (junk n).blocks with
        | none => none
        | some r =>
          if r.ret = -1 then some ⟨-1, r.reads, [(dirname, dirinumber)]⟩
          else
            match pathname_loop ILARG fs junk fuel (n + 1) (strsep filepath [47]).2
                (r.dirEnt.d_inumber.val : Int) with
            | none => none
            | some p => some ⟨p.ret, r.reads ++ p.reads, (dirname, dirinumber) :: p.lookups⟩

/-- `pathname_lookup(fs, pathname)`. `pathname` holds the bytes of the argument,
of which the copy keeps those before the first NUL; the delimiter string is
`"/"` (byte 47); the token of the first `strsep` call is discarded. `junk n` is
what the uninitialised locals hold at iteration `n` of the loop, which is given
one iteration more than the bytes of the path allow. -/
def pathname_lookup (ILARG : Nat) (fs : unixfilesystem) (pathname : List U8)
    (junk : Nat → FindJunk) : Option PathResult :=
  pathname_loop ILARG fs junk ((pathname.take (strlen pathname)).length + 2) 0
    (strsep (some (pathname.take (strlen pathname))) [47]).2 ROOT_DIR_INUMBER


/-! ## Vocabulary of the properties -/

/-- The read of sector `s` fails: `diskimg_readsector` returns `-1` for it. -/
def sectorReadFails (dfd : Dfd) (s : Int) : Prop :=
  dfd.lseek (wrapInt32 (s * (DISKIMG_SECTOR_SIZE : Int))) = -1 ∨
    dfd.read (wrapInt32 (s * (DISKIMG_SECTOR_SIZE : Int))) = none

instance (dfd : Dfd) (s : Int) : Decidable (sectorReadFails dfd s) := by
  unfold sectorReadFails; infer_instance

/-- The device holds the full sector `bs` at sector number `s`: the read of `s`
succeeds and delivers exactly the 512 bytes `bs`. -/
def holdsSector (dfd : Dfd) (s : Int) (bs : List U8) : Prop :=
  dfd.lseek (wrapInt32 (s * (DISKIMG_SECTOR_SIZE : Int))) ≠ -1 ∧
    dfd.read (wrapInt32 (s * (DISKIMG_SECTOR_SIZE : Int))) = some bs ∧
    bs.length = DISKIMG_SECTOR_SIZE

instance (dfd : Dfd) (s : Int) (bs : List U8) : Decidable (holdsSector dfd s bs) := by
  unfold holdsSector; infer_instance

/-- Entry `k` of a sector viewed as an array of 16-bit block pointers. -/
def blockEntry (bs : List U8) (k : Nat) : U16 :=
  u16At (sectorBuffer bs) (2 * k)

/-- The inode record in slot `k` of a sector viewed as an array of inodes. -/
def sectorInode (bs : List U8) (k : Nat) : inode :=
  inodeAt (sectorBuffer bs) k

/-- Every read of the device that does not fail delivers a whole sector. -/
def FullSectors (dfd : Dfd) : Prop :=
  ∀ (off : Int) (bs : List U8), dfd.read off = some bs → DISKIMG_SECTOR_SIZE ≤ bs.length

/-- A read of sector `s` that does not fail delivers at least `n` bytes. -/
def deliversAtLeast (dfd : Dfd) (s : Int) (n : Nat) : Prop :=
  match dfd.read (wrapInt32 (s * (DISKIMG_SECTOR_SIZE : Int))) with
  | none => True
  | some bs => dfd.lseek (wrapInt32 (s * (DISKIMG_SECTOR_SIZE : Int))) = -1 ∨ n ≤ bs.length

instance (dfd : Dfd) (s : Int) (n : Nat) : Decidable (deliversAtLeast dfd s n) := by
  unfold deliversAtLeast
  split <;> infer_instance

/-- The block the store returns for sector `s`, `none` when the read fails. -/
def readBlock (dfd : Dfd) (s : Int) : Option (List U8) :=
  if dfd.lseek (wrapInt32 (s * (DISKIMG_SECTOR_SIZE : Int))) = -1 then none
  else (dfd.read (wrapInt32 (s * (DISKIMG_SECTOR_SIZE : Int)))).map (List.take DISKIMG_SECTOR_SIZE)

/-- The large-addressing rule of `blockSector` in the words of the
specification, with `sgl` leading address-table slots reserved for
singly-indirect blocks and the doubly-indirect slot `addressTable[dbl]`:
`tier = index / 256`; if the tier falls within the first `sgl` slots, read the
indirect block pointed to by `addressTable[tier]` and return its entry at
`index mod 256`; otherwise read the first-level block at `addressTable[dbl]`,
index it by `tier - sgl` to obtain the second-level pointer, read that block and
return its entry at `index mod 256`. A failed read gives `-1`. The text of the
specification takes `sgl = N - 1` and `dbl = N` with `N = 7`. -/
def blockSector_large (sgl dbl : Int) (fs : unixfilesystem) (inp : inode) (index : Int) :
    Option (Int × List Int) :=
  let tier := index / 256
  if tier < sgl then
    match i_addr_at inp tier with
    | none => none
    | some a =>
      match readBlock fs.dfd (a.val : Int) with
      | none => some (-1, [(a.val : Int)])
      | some blk => some (((blockEntry blk (index % 256).toNat).val : Int), [(a.val : Int)])
  else
    match i_addr_at inp dbl with
    | none => none
    | some a =>
      match readBlock fs.dfd (a.val : Int) with
      | none => some (-1, [(a.val : Int)])
      | some first =>
        match readBlock fs.dfd ((blockEntry first (tier - sgl).toNat).val : Int) with
        | none =>
          some (-1, [(a.val : Int), ((blockEntry first (tier - sgl).toNat).val : Int)])
        | some second =>
          some (((blockEntry second (index % 256).toNat).val : Int),
            [(a.val : Int), ((blockEntry first (tier - sgl).toNat).val : Int)])


/-- The call for block `k` of the directory succeeds: it returns a valid length
other than `-1`. -/
def blockReadable (getblock : Int → Option (Int × Buffer × List Int)) (k : Nat) : Prop :=
  ∃ (len : Int) (buf : Buffer) (reads : List Int),
    getblock (k : Int) = some (len, buf, reads) ∧ len ≠ -1

/-- The call for block `k` of the directory returns `-1`. -/
def blockFails (getblock : Int → Option (Int × Buffer × List Int)) (k : Nat) : Prop :=
  ∃ (buf : Buffer) (reads : List Int), getblock (k : Int) = some (-1, buf, reads)

/-- The entry `e` is the live entry in slot `j` of block `k`: the call for block
`k` returned the valid length `len`, not `-1`, with `j < len / 16`, and `e` is
the record in slot `j` of the buffer the call filled. -/
def liveEntry (getblock : Int → Option (Int × Buffer × List Int)) (k j : Nat)
    (e : direntv6) : Prop :=
  ∃ (len : Int) (buf : Buffer) (reads : List Int),
    getblock (k : Int) = some (len, buf, reads) ∧ len ≠ -1 ∧ (j : Int) < len / 16 ∧
      e = direntAt buf j

/-- Slot `j` of block `k` holds a live entry whose name field matches `name`
under `strncmp(name, d_name, MAX_COMPONENT_LENGTH) == 0`. -/
def liveMatch (getblock : Int → Option (Int × Buffer × List Int)) (name : List U8)
    (k j : Nat) : Prop :=
  ∃ e : direntv6, liveEntry getblock k j e ∧ strncmp name e.d_name MAX_COMPONENT_LENGTH = 0

/-- The block indices `i, i + 1, ..., i + m - 1` as passed to `file_getblock`. -/
def blockIndices (i m : Nat) : List Int :=
  List.map Int.ofNat (List.range' i m)

/-- What the block loop of `directory_findname` started at block `i` may leave:
either it returns 0 with the first live matching entry in (block, slot) order,
every block up to that one having been read; or it returns `-1` at the first
block whose call returns `-1`, no live entry before it matching; or it returns
`-1` after all blocks of the file were read and no live entry matched. In the
last two cases `*dirEnt` is as before the call. -/
def FindSpec (getblock : Int → Option (Int × Buffer × List Int)) (name : List U8) (size : Int)
    (dirEnt : direntv6) (i : Nat) (res : FindnameResult) : Prop :=
  (res.ret = 0 ∧ ∃ k j : Nat, i ≤ k ∧ (k : Int) * 512 < size ∧
      liveEntry getblock k j res.dirEnt ∧
      strncmp name res.dirEnt.d_name MAX_COMPONENT_LENGTH = 0 ∧
      (∀ k1 : Nat, i ≤ k1 → k1 ≤ k → blockReadable getblock k1) ∧
      (∀ k1 j1 : Nat, i ≤ k1 → (k1 < k ∨ (k1 = k ∧ j1 < j)) → ¬ liveMatch getblock name k1 j1) ∧
      res.blocks = blockIndices i (k + 1 - i)) ∨
  (res.ret = -1 ∧ res.dirEnt = dirEnt ∧ ∃ k : Nat, i ≤ k ∧ (k : Int) * 512 < size ∧
      blockFails getblock k ∧
      (∀ k1 : Nat, i ≤ k1 → k1 < k → blockReadable getblock k1) ∧
      (∀ k1 j1 : Nat, i ≤ k1 → k1 < k → ¬ liveMatch getblock name k1 j1) ∧
      res.blocks = blockIndices i (k + 1 - i)) ∨
  (res.ret = -1 ∧ res.dirEnt = dirEnt ∧
      (∀ k1 : Nat, i ≤ k1 → (k1 : Int) * 512 < size → blockReadable getblock k1) ∧
      (∀ k1 j1 : Nat, i ≤ k1 → (k1 : Int) * 512 < size → ¬ liveMatch getblock name k1 j1) ∧
      ∃ m : Nat, res.blocks = blockIndices i m ∧ size ≤ ((i + m : Nat) : Int) * 512 ∧
        ∀ k1 : Nat, i ≤ k1 → k1 < i + m → (k1 : Int) * 512 < size)


/-- The block indices a caller passed to `file_getblock` form an ascending walk
over a file of `size` bytes: they are `0, 1, ..., m - 1` in this order, with
`m` at most `ceil(size / 512)`, every index `i` satisfies `0 ≤ i` and
`i * 512 < size`, and the index `size / 512` is not among them when `size` is a
multiple of 512. -/
def AscendingWalk (size : Int) (blocks : List Int) : Prop :=
  ∃ m : Nat, blocks = blockIndices 0 m ∧ (m : Int) ≤ (size + 511) / 512 ∧
    (∀ i ∈ blocks, 0 ≤ i ∧ i * 512 < size) ∧
    (size % 512 = 0 → size / 512 ∉ blocks)

/-- A SHA-1 library whose context records the lengths of the byte runs hashed;
every call succeeds. -/
def lengthSha : ShaLib (List Nat) :=
  { init := (1, [])
    update := fun ctx bytes => (1, ctx ++ [bytes.length])
    final := fun _ md => (1, md) }


/-- The tokens successive `strsep(&filepath, "/")` calls return for a string:
its pieces between the bytes `/`. -/
def splitSlash : List U8 → List (List U8)
  | [] => [[]]
  | c :: cs =>
    if c = 47 then [] :: splitSlash cs
    else (c :: (splitSlash cs).headD []) :: (splitSlash cs).tail

/-- Path resolution as the left-to-right composition of directory lookups over
a list of components, from directory `d`, the lookup of the first component
being iteration `n`: an empty component ends the walk with the current inumber,
a lookup that returns `-1` ends it with `-1`, otherwise the walk goes on from
the `d_inumber` of the entry found. -/
def walkTokens (ILARG : Nat) (fs : unixfilesystem) (junk : Nat → FindJunk) :
    List (List U8) → Nat → Int → Option PathResult
  | [], _, d => some ⟨d, [], []⟩
  | t :: ts, n, d =>
    if strcmp t [] = 0 then some ⟨d, [], []⟩
    else
      match directory_findname ILARG fs t d (junk n).dirEnt (junk n).inp (junk n).igetBuf
          (junk n).blocks with
      | none => none
      | some r =>
        if r.ret = -1 then some ⟨-1, r.reads, [(t, d)]⟩
        else
          match walkTokens ILARG fs junk ts (n + 1) (r.dirEnt.d_inumber.val : Int) with
          | none => none
          | some p => some ⟨p.ret, r.reads ++ p.reads, (t, d) :: p.lookups⟩

/-- A path component: non-empty, without `/` and without NUL. -/
def isComponent (c : List U8) : Prop :=
  c ≠ [] ∧ (47 : U8) ∉ c ∧ (0 : U8) ∉ c

instance (c : List U8) : Decidable (isComponent c) := by
  unfold isComponent; infer_instance

/-- The path `/c1/c2/.../cn` of the components `c1, ..., cn` (the empty string
for no component). -/
def joinPath (cs : List (List U8)) : List U8 :=
  cs.flatMap fun c => 47 :: c


/-- The number of blocks of a file of `size` bytes, `ceil(size / 512)`. -/
def blockCount (size : Int) : Nat :=
  ((size + 511) / 512).toNat

/-- The number of bytes the specification gives block `k` of a file of `size`
bytes: 512 for every block but the last, and for the last `size mod 512`, or
512 when `size` is a multiple of 512. -/
def blockLength (size : Int) (k : Nat) : Int :=
  if k + 1 < blockCount size then 512
  else if size % 512 = 0 then 512 else size % 512

/-- The bytes `SHA1_Update(&shactx, buf, bytesMoved)` is given after the call for
block `k`: the first `bytesMoved` bytes of the buffer the call filled. -/
def hashedRun (getblock : Int → Option (Int × Buffer × List Int)) (k : Nat) : List U8 :=
  match getblock (k : Int) with
  | none => []
  | some (bytesMoved, buf, _) => (List.range bytesMoved.toNat).map buf

/-- The SHA context after the byte runs `runs` have been passed to `SHA1_Update`
one after the other, from the context `ctx`. -/
def shaFold {σ : Type} (sha : ShaLib σ) (ctx : σ) (runs : List (List U8)) : σ :=
  runs.foldl (fun c r => (sha.update c r).2) ctx


/-! ## A small image used to instantiate the theorems -/

/-- The two bytes of a 16-bit word, low byte first. -/
def u16Bytes (w : Nat) : List U8 :=
  [⟨w % 256, Nat.mod_lt _ (by decide)⟩, ⟨w / 256 % 256, Nat.mod_lt _ (by decide)⟩]

/-- The bytes of a sequence of 16-bit words. -/
def wordsBytes (ws : List Nat) : List U8 :=
  ws.flatMap u16Bytes

/-- The bytes of a string of 8-bit characters. -/
def cstr (s : String) : List U8 :=
  s.toList.map fun c => ⟨c.toNat % 256, Nat.mod_lt _ (by decide)⟩

/-- The 16 bytes of a directory entry: the inumber, then the first 14 bytes of
`field` padded with NULs. -/
def direntBytes (inumber : Nat) (field : List U8) : List U8 :=
  u16Bytes inumber ++ (field ++ List.replicate 14 0).take 14

/-- Sector 2 of the demo image: inode 1 is an allocated small file of 1000 bytes
with blocks 50 and 51; inode 2 an allocated large file of 6553600 bytes with
indirect blocks 100..106 and doubly-indirect block 107; inode 3 an unallocated
record with the large bit set, size 1536 and first indirect block 60; inode 4 an
allocated large file of 600000 bytes with indirect blocks 70..74 and the last
three address-table entries unused (zero); inode 5 an allocated small file of
1024 bytes with blocks 52 and 53; inode 6 an allocated directory of 48 bytes
with block 56; inode 7 an unallocated directory record of 32 bytes with block
57; inode 9 an allocated small file of 100 bytes with block 58; inode 10 an
allocated directory of size 0; inode 11 an allocated record with the large bit
clear and size 65536; inode 12 an allocated large file of 917504 bytes with the
address table of inode 2; the other slots are zero. -/
def demoInodeSector : List U8 :=
  wordsBytes ([0x8000, 0, 0, 1000, 50, 51, 0, 0, 0, 0, 0, 0, 0, 0, 0, 0]
    ++ [0x9000, 0, 100 * 256, 0, 100, 101, 102, 103, 104, 105, 106, 107, 0, 0, 0, 0]
    ++ [0x1000, 0, 0, 1536, 60, 0, 0, 0, 0, 0, 0, 0, 0, 0, 0, 0]
    ++ [0x9000, 0, 9 * 256, 10176, 70, 71, 72, 73, 74, 0, 0, 0, 0, 0, 0, 0]
    ++ [0x8000, 0, 0, 1024, 52, 53, 0, 0, 0, 0, 0, 0, 0, 0, 0, 0]
    ++ [0xC000, 0, 0, 48, 56, 0, 0, 0, 0, 0, 0, 0, 0, 0, 0, 0]
    ++ [0x4000, 0, 0, 32, 57, 0, 0, 0, 0, 0, 0, 0, 0, 0, 0, 0]
    ++ List.replicate 16 0
    ++ [0x8000, 0, 0, 100, 58, 0, 0, 0, 0, 0, 0, 0, 0, 0, 0, 0]
    ++ [0xC000, 0, 0, 0, 0, 0, 0, 0, 0, 0, 0, 0, 0, 0, 0, 0]
    ++ [0x8000, 0, 1 * 256, 0, 59, 0, 0, 0, 0, 0, 0, 0, 0, 0, 0, 0]
    ++ [0x9000, 0, 14 * 256, 0, 100, 101, 102, 103, 104, 105, 106, 107, 0, 0, 0, 0]
    ++ List.replicate 64 0)

/-- Sector 50 of the demo image, block 0 of the directory kept in inode 1: the
entries `.` and `..` (1), `docs` (6), `very long namf` (7), `very long name`
(6), `foobar` (15), and an entry (8) whose field is `foo`, a NUL and then
garbage; the other 25 slots are zero. -/
def demoRootBlock0 : List U8 :=
  direntBytes 1 (cstr ".") ++ direntBytes 1 (cstr "..") ++ direntBytes 6 (cstr "docs")
    ++ direntBytes 7 (cstr "very long namf") ++ direntBytes 6 (cstr "very long name")
    ++ direntBytes 15 (cstr "foobar") ++ direntBytes 8 (cstr "foo" ++ [0] ++ cstr "XYZ garbage")
    ++ List.replicate (25 * 16) 0

/-- Sector 51 of the demo image, block 1 of the directory kept in inode 1, of
which the first 488 bytes belong to the file: a second entry `docs` (12), an
entry `tail` (14), zero slots, and in the last slot, past the end of the file,
the stale entry `deleted.txt` (11). -/
def demoRootBlock1 : List U8 :=
  direntBytes 12 (cstr "docs") ++ direntBytes 14 (cstr "tail") ++ List.replicate (29 * 16) 0
    ++ direntBytes 11 (cstr "deleted.txt")

/-- Sector 56 of the demo image, the block of directory 6: `.` (6), `..` (1) and
`readme` (9). -/
def demoDocsBlock : List U8 :=
  direntBytes 6 (cstr ".") ++ direntBytes 1 (cstr "..") ++ direntBytes 9 (cstr "readme")
    ++ List.replicate (29 * 16) 0

/-- Sector 57 of the demo image, the block of the unallocated inode 7: `.` (7)
and `ghost` (13). -/
def demoGhostBlock : List U8 :=
  direntBytes 7 (cstr ".") ++ direntBytes 13 (cstr "ghost") ++ List.replicate (30 * 16) 0

/-- Sector `s` of the demo image: the inode sector for `s = 2`, the directory
blocks for `s = 50, 51, 56, 57`, otherwise the 256 words `1000 + 3 * s + k`. -/
def demoSector (s : Nat) : List U8 :=
  if s = 2 then demoInodeSector
  else if s = 50 then demoRootBlock0
  else if s = 51 then demoRootBlock1
  else if s = 56 then demoDocsBlock
  else if s = 57 then demoGhostBlock
  else wordsBytes ((List.range 256).map fun k => 1000 + 3 * s + k)

/-- The demo device: seeking to a negative offset fails, every read delivers
the whole sector. -/
def demoDfd : Dfd :=
  { lseek := fun off => if off < 0 then -1 else off
    read := fun off => some (demoSector (off / 512).toNat) }

def demoFs : unixfilesystem :=
  { dfd := demoDfd, s_isize := 1 }

def zeroBuffer : Buffer :=
  fun _ => 0

def zeroInode : inode :=
  inodeAt zeroBuffer 0

def zeroDirent : direntv6 :=
  direntAt zeroBuffer 0

/-- Uninitialised locals that hold zeros at every iteration. -/
def zeroJunk : Nat → BlockJunk :=
  fun _ => ⟨zeroBuffer, zeroInode, zeroBuffer, zeroBuffer⟩

/-- Inode 1 of the demo image (small file, 1000 bytes). -/
def demoSmall : inode :=
  sectorInode demoInodeSector 0

/-- Inode 2 of the demo image (large file, 6553600 bytes). -/
def demoLarge : inode :=
  sectorInode demoInodeSector 1

/-- Inode 4 of the demo image (large file, 600000 bytes). -/
def demoMedium : inode :=
  sectorInode demoInodeSector 3

/-- Inode 1 of the demo image as `inode_iget` returns it into zeroed locals. -/
def demoRootFetched : inode :=
  inodeAt (diskimg_readsector demoFs.dfd 2 zeroBuffer).2 0

/-- The calls `file_getblock(fs, 1, i, buf)` on the demo image, with zeroed
locals. -/
def demoRootBlocks : Int → Option (Int × Buffer × List Int) :=
  getblock_call 4096 demoFs 1 zeroJunk

/-- Inode 11 of the demo image (large bit clear, 65536 bytes). -/
def demoWide : inode :=
  sectorInode demoInodeSector 10

/-- Inode 12 of the demo image (large file, 917504 bytes). -/
def demoExact : inode :=
  sectorInode demoInodeSector 11

/-- The demo device with a bad sector: the read of sector `bad` fails, every
other read is that of the demo device. -/
def brokenDfd (bad : Nat) : Dfd :=
  { lseek := demoDfd.lseek
    read := fun off => if (off / 512).toNat = bad then none else demoDfd.read off }

/-- The demo device cut short: every read delivers only the first `n` bytes of
the sector. -/
def shortDfd (n : Nat) : Dfd :=
  { lseek := demoDfd.lseek
    read := fun off => (demoDfd.read off).map (List.take n) }

/-- Uninitialised locals of the loop of `pathname_lookup` that hold zeros at
every iteration. -/
def zeroFindJunk : Nat → FindJunk :=
  fun _ => ⟨zeroDirent, zeroInode, zeroBuffer, zeroJunk⟩


/-- The demo file system on the device with bad sector `bad`. -/
def brokenFs (bad : Nat) : unixfilesystem :=
  { dfd := brokenDfd bad, s_isize := 1 }

/-- The demo file system on the device cut short to `n` bytes a read. -/
def shortFs (n : Nat) : unixfilesystem :=
  { dfd := shortDfd n, s_isize := 1 }


/-- The demo image as a file of `n` sectors: a read at or past the end of the
file succeeds and delivers no byte. -/
def finiteDfd (n : Nat) : Dfd :=
  { lseek := demoDfd.lseek
    read := fun off => if (off / 512).toNat < n then demoDfd.read off else some [] }

/-- The demo file system on the image of `n` sectors. -/
def finiteFs (n : Nat) : unixfilesystem :=
  { dfd := finiteDfd n, s_isize := 1 }


/-! ## Arithmetic and memory lemmas -/

theorem wrapInt32_eq_self {x : Int} (h1 : -2147483648 ≤ x) (h2 : x < 2147483648) :
    wrapInt32 x = x := by
  unfold wrapInt32; omega

theorem inode_getsize_eq (inp : inode) :
    inode_getsize inp = (inp.i_size0.val : Int) * 65536 + (inp.i_size1.val : Int) := by
  unfold inode_getsize
  have h := Nat.mul_add_lt_is_or (i := 16) (b := inp.i_size1.val) (by simp)
    inp.i_size0.val
  rw [Nat.shiftLeft_eq, Nat.mul_comm, ← h]
  push_cast
  ring

theorem inode_getsize_nonneg (inp : inode) : 0 ≤ inode_getsize inp := by
  rw [inode_getsize_eq]; positivity

theorem inode_getsize_lt (inp : inode) : inode_getsize inp < 16777216 := by
  rw [inode_getsize_eq]
  have h0 := inp.i_size0.isLt
  have h1 := inp.i_size1.isLt
  omega

theorem lookup_bounds_pass (inp : inode) (i : Int) (h0 : 0 ≤ i)
    (hsz : i * 512 ≤ inode_getsize inp) :
    ¬ (wrapInt32 (i * (DISKIMG_SECTOR_SIZE : Int)) > inode_getsize inp ∨ i < 0) := by
  have hlt := inode_getsize_lt inp
  have hw : wrapInt32 (i * (DISKIMG_SECTOR_SIZE : Int)) = i * 512 := by
    simp only [DISKIMG_SECTOR_SIZE, Nat.cast_ofNat]
    apply wrapInt32_eq_self <;> omega
  rw [hw]
  omega

theorem i_addr_at_eq (inp : inode) (k : Int) (h0 : 0 ≤ k) (h8 : k < 8) :
    i_addr_at inp k = some (inp.i_addr ⟨k.toNat, by omega⟩) := by
  unfold i_addr_at
  rw [dif_pos ⟨h0, h8⟩]

theorem readsector_fails_iff (dfd : Dfd) (s : Int) (buf : Buffer) :
    (diskimg_readsector dfd s buf).1 = -1 ↔ sectorReadFails dfd s := by
  unfold diskimg_readsector sectorReadFails
  by_cases hl : dfd.lseek (wrapInt32 (s * (DISKIMG_SECTOR_SIZE : Int))) = -1
  · simp [hl]
  · rw [if_neg hl]
    cases hr : dfd.read (wrapInt32 (s * (DISKIMG_SECTOR_SIZE : Int))) with
    | none => simp
    | some bs =>
      have hnn : (0 : Int) ≤ ((List.take DISKIMG_SECTOR_SIZE bs).length : Int) :=
        Int.natCast_nonneg _
      constructor
      · intro h
        simp only at h
        omega
      · intro h
        rcases h with h | h
        · exact absurd h hl
        · cases h

theorem readsector_of_holds (dfd : Dfd) (s : Int) (bs : List U8) (buf : Buffer)
    (h : holdsSector dfd s bs) : diskimg_readsector dfd s buf = (512, store bs buf) := by
  obtain ⟨hl, hr, hlen⟩ := h
  unfold diskimg_readsector
  simp only [hl, if_false, hr]
  have ht : List.take DISKIMG_SECTOR_SIZE bs = bs := by
    rw [← hlen]; exact List.take_length bs
  rw [ht, hlen]
  rfl

theorem store_apply_of_lt (bs : List U8) (buf : Buffer) (k : Nat) (h : k < bs.length) :
    store bs buf k = sectorBuffer bs k := by
  unfold store sectorBuffer
  rw [dif_pos h, List.getD_eq_getElem _ _ h]
  rfl

theorem u16At_store_of_lt (bs : List U8) (buf : Buffer) (off : Nat) (h : off + 1 < bs.length) :
    u16At (store bs buf) off = u16At (sectorBuffer bs) off := by
  unfold u16At
  rw [store_apply_of_lt bs buf off (by omega), store_apply_of_lt bs buf (off + 1) h]

theorem blocknum_at_store (bs : List U8) (buf : Buffer) (k : Int) (hlen : bs.length = 512)
    (h0 : 0 ≤ k) (h1 : k < 256) :
    blocknum_at (store bs buf) k = some (blockEntry bs k.toNat) := by
  unfold blocknum_at blockEntry
  have hb : BLOCKNUMS_PER_BLOCK = 256 := rfl
  rw [if_pos ⟨h0, by rw [hb]; exact h1⟩, u16At_store_of_lt bs buf _ (by omega)]

theorem blocknum_at_eq (buf : Buffer) (k : Int) (h0 : 0 ≤ k) (h1 : k < 256) :
    blocknum_at buf k = some (u16At buf (2 * k.toNat)) := by
  unfold blocknum_at
  have hb : BLOCKNUMS_PER_BLOCK = 256 := rfl
  rw [if_pos ⟨h0, by rw [hb]; exact h1⟩]

theorem lookup_large_eq (ILARG : Nat) (fs : unixfilesystem) (inp : inode) (i : Int)
    (junk : Buffer) (hlarge : inp.i_mode.val &&& ILARG ≠ 0) (h0 : 0 ≤ i)
    (hsz : i * 512 ≤ inode_getsize inp) :
    inode_indexlookup ILARG fs inp i junk =
      match i_addr_at inp (if i / 256 > 7 then 7 else i / 256) with
      | none => none
      | some indirectBlock =>
        if (diskimg_readsector fs.dfd (indirectBlock.val : Int) junk).1 = -1 then
          some (-1, [(indirectBlock.val : Int)])
        else if inode_getsize inp ≤ 917504 ∨ i / 256 < 7 then
          match blocknum_at (diskimg_readsector fs.dfd (indirectBlock.val : Int) junk).2 (i % 256) with
          | none => none
          | some e => some ((e.val : Int), [(indirectBlock.val : Int)])
        else
          match blocknum_at (diskimg_readsector fs.dfd (indirectBlock.val : Int) junk).2
              (i / 256 - 7) with
          | none => none
          | some second =>
            if (diskimg_readsector fs.dfd (second.val : Int)
                (diskimg_readsector fs.dfd (indirectBlock.val : Int) junk).2).1 = -1 then
              some (-1, [(indirectBlock.val : Int), (second.val : Int)])
            else
              match blocknum_at (diskimg_readsector fs.dfd (second.val : Int)
                  (diskimg_readsector fs.dfd (indirectBlock.val : Int) junk).2).2 (i % 256) with
              | none => none
              | some e => some ((e.val : Int), [(indirectBlock.val : Int), (second.val : Int)]) := by
  have hlt := inode_getsize_lt inp
  have hd : i.tdiv BLOCKNUMS_PER_BLOCK = i / 256 := Int.tdiv_eq_ediv h0 (by decide)
  have hm : i.tmod BLOCKNUMS_PER_BLOCK = i % 256 := Int.tmod_eq_emod h0 (by decide)
  have hw : wrapInt32 (i / 256 - NUM_SGL_INDIR_BLOCKS) = i / 256 - 7 := by
    apply wrapInt32_eq_self <;> simp only [NUM_SGL_INDIR_BLOCKS] <;> omega
  unfold inode_indexlookup
  simp only [if_neg (lookup_bounds_pass inp i h0 hsz), if_neg hlarge, hd, hm, hw]
  rfl

/-! ## Block-address translation -/

/-- C1. Small addressing: for an inode whose large-file bit is clear and an index
`i` with `0 ≤ i`, `i * 512 ≤ size` and `i < 8`, `inode_indexlookup` returns
exactly `i_addr[i]` and reads no sector. -/
theorem indexlookup_small_direct (ILARG : Nat) (fs : unixfilesystem) (inp : inode) (i : Int)
    (junk : Buffer) (hsmall : inp.i_mode.val &&& ILARG = 0) (h0 : 0 ≤ i)
    (hsz : i * 512 ≤ inode_getsize inp) (h8 : i < 8) :
    inode_indexlookup ILARG fs inp i junk =
      some (((inp.i_addr ⟨i.toNat, by omega⟩).val : Int), []) := by
  unfold inode_indexlookup
  simp only [if_neg (lookup_bounds_pass inp i h0 hsz), if_pos hsmall, i_addr_at_eq inp i h0 h8]

set_option maxRecDepth 100000 in
/-- C1 at inode 1 of the demo image (1000 bytes, small): block index 1 is
`i_addr[1] = 51`. -/
theorem indexlookup_small_direct_witness :
    (demoSmall.i_mode.val &&& 4096 = 0 ∧ (0 : Int) ≤ 1 ∧ (1 : Int) * 512 ≤ inode_getsize demoSmall
      ∧ (1 : Int) < 8) ∧
    inode_indexlookup 4096 demoFs demoSmall 1 zeroBuffer = some (51, []) :=
  ⟨by decide,
   indexlookup_small_direct 4096 demoFs demoSmall 1 zeroBuffer (by decide) (by decide)
    (by decide) (by decide)⟩

/-- C2. Singly-indirect tier: for an inode with the large-file bit set and an
index `i` with `0 ≤ i`, `i * 512 ≤ size` and `i / 256 < 7`, `inode_indexlookup`
reads the one sector `i_addr[i / 256]`; it returns `-1` if that read returns
`-1`, and otherwise entry `i mod 256` of the pointer block the read delivered,
which for a sector delivered in full is entry `i mod 256` of the 256-entry
block stored at that sector. Index 1200 goes through `i_addr[4]`, entry 176, and
index 1791 through `i_addr[6]`, entry 255. -/
theorem indexlookup_singly_indirect (ILARG : Nat) (fs : unixfilesystem) (inp : inode) (i : Int)
    (junk : Buffer) (hlarge : inp.i_mode.val &&& ILARG ≠ 0) (h0 : 0 ≤ i)
    (hsz : i * 512 ≤ inode_getsize inp) (htier : i / 256 < 7) :
    (sectorReadFails fs.dfd ((inp.i_addr ⟨(i / 256).toNat, by omega⟩).val : Int) →
      inode_indexlookup ILARG fs inp i junk =
        some (-1, [((inp.i_addr ⟨(i / 256).toNat, by omega⟩).val : Int)])) ∧
    (∀ bs : List U8,
      holdsSector fs.dfd ((inp.i_addr ⟨(i / 256).toNat, by omega⟩).val : Int) bs →
      inode_indexlookup ILARG fs inp i junk =
        some (((blockEntry bs (i % 256).toNat).val : Int),
          [((inp.i_addr ⟨(i / 256).toNat, by omega⟩).val : Int)])) ∧
    (¬ sectorReadFails fs.dfd ((inp.i_addr ⟨(i / 256).toNat, by omega⟩).val : Int) →
      inode_indexlookup ILARG fs inp i junk =
        some (((u16At (diskimg_readsector fs.dfd
            ((inp.i_addr ⟨(i / 256).toNat, by omega⟩).val : Int) junk).2
            (2 * (i % 256).toNat)).val : Int),
          [((inp.i_addr ⟨(i / 256).toNat, by omega⟩).val : Int)])) ∧
    ((1200 : Int) / 256 = 4 ∧ (1200 : Int) % 256 = 176 ∧
      (1791 : Int) / 256 = 6 ∧ (1791 : Int) % 256 = 255) := by
  have hidx : (if i / 256 > 7 then 7 else i / 256) = i / 256 := by
    rw [if_neg (by omega)]
  have hslot := i_addr_at_eq inp (i / 256) (by omega) (by omega)
  rw [lookup_large_eq ILARG fs inp i junk hlarge h0 hsz, hidx, hslot]
  refine ⟨?_, ?_, ?_, by decide⟩
  · intro hf
    simp only [(readsector_fails_iff fs.dfd _ junk).2 hf, if_true]
  · intro bs hb
    have hr := readsector_of_holds fs.dfd _ bs junk hb
    simp only [hr]
    rw [if_neg (by decide), if_pos (Or.inr htier),
      blocknum_at_store bs junk (i % 256) hb.2.2 (by omega) (by omega)]
  · intro hf
    have hne := mt (readsector_fails_iff fs.dfd _ junk).1 hf
    simp only [if_neg hne, if_pos (Or.inr htier),
      blocknum_at_eq _ (i % 256) (by omega) (by omega)]

set_option maxRecDepth 1000000 in
/-- C2 at inode 2 of the demo image (large, 6553600 bytes): index 1200 reads
sector `i_addr[4] = 104` and returns its entry 176; index 1791 reads sector
`i_addr[6] = 106` and returns its entry 255. -/
theorem indexlookup_singly_indirect_witness :
    (demoLarge.i_mode.val &&& 4096 ≠ 0 ∧ (1200 : Int) * 512 ≤ inode_getsize demoLarge ∧
      (1791 : Int) * 512 ≤ inode_getsize demoLarge ∧
      holdsSector demoFs.dfd 104 (demoSector 104) ∧ holdsSector demoFs.dfd 106 (demoSector 106)) ∧
    inode_indexlookup 4096 demoFs demoLarge 1200 zeroBuffer =
      some (((blockEntry (demoSector 104) 176).val : Int), [104]) ∧
    inode_indexlookup 4096 demoFs demoLarge 1791 zeroBuffer =
      some (((blockEntry (demoSector 106) 255).val : Int), [106]) :=
  ⟨by decide,
   (indexlookup_singly_indirect 4096 demoFs demoLarge 1200 zeroBuffer (by decide) (by decide)
      (by decide) (by decide)).2.1 (demoSector 104) (by decide),
   (indexlookup_singly_indirect 4096 demoFs demoLarge 1791 zeroBuffer (by decide) (by decide)
      (by decide) (by decide)).2.1 (demoSector 106) (by decide)⟩



theorem i_addr_at_seven (inp : inode) : i_addr_at inp 7 = some (inp.i_addr 7) := by
  rw [i_addr_at_eq inp 7 (by decide) (by decide)]
  rfl

/-- C3. Doubly-indirect tier: for an inode with the large-file bit set and an
index `i` with `0 ≤ i`, `i * 512 < size` and `i / 256 ≥ 7`, `inode_indexlookup`
reads the first-level block at sector `i_addr[7]`, takes its entry `i / 256 - 7`
as the sector of the second-level block, reads it and returns that block's entry
`i mod 256`; it returns `-1` if either read returns `-1`. The blocks are those
stored at the two sectors when the sectors are delivered in full, and in every
case the contents of the buffer after each read. Index 10000 uses first-level
entry 32 and second-level entry 16, index 1792 uses entries 0 and 0. -/
theorem indexlookup_doubly_indirect (ILARG : Nat) (fs : unixfilesystem) (inp : inode) (i : Int)
    (junk : Buffer) (hlarge : inp.i_mode.val &&& ILARG ≠ 0) (h0 : 0 ≤ i)
    (hsz : i * 512 < inode_getsize inp) (htier : 7 ≤ i / 256) :
    (sectorReadFails fs.dfd ((inp.i_addr 7).val : Int) →
      inode_indexlookup ILARG fs inp i junk = some (-1, [((inp.i_addr 7).val : Int)])) ∧
    (∀ b1 : List U8, holdsSector fs.dfd ((inp.i_addr 7).val : Int) b1 →
      (sectorReadFails fs.dfd ((blockEntry b1 (i / 256 - 7).toNat).val : Int) →
        inode_indexlookup ILARG fs inp i junk =
          some (-1, [((inp.i_addr 7).val : Int),
            ((blockEntry b1 (i / 256 - 7).toNat).val : Int)])) ∧
      (∀ b2 : List U8,
        holdsSector fs.dfd ((blockEntry b1 (i / 256 - 7).toNat).val : Int) b2 →
        inode_indexlookup ILARG fs inp i junk =
          some (((blockEntry b2 (i % 256).toNat).val : Int),
            [((inp.i_addr 7).val : Int), ((blockEntry b1 (i / 256 - 7).toNat).val : Int)]))) ∧
    (¬ sectorReadFails fs.dfd ((inp.i_addr 7).val : Int) →
      ∀ (first : Buffer) (second : Int),
        first = (diskimg_readsector fs.dfd ((inp.i_addr 7).val : Int) junk).2 →
        second = ((u16At first (2 * (i / 256 - 7).toNat)).val : Int) →
        (sectorReadFails fs.dfd second →
          inode_indexlookup ILARG fs inp i junk =
            some (-1, [((inp.i_addr 7).val : Int), second])) ∧
        (¬ sectorReadFails fs.dfd second →
          inode_indexlookup ILARG fs inp i junk =
            some (((u16At (diskimg_readsector fs.dfd second first).2
                (2 * (i % 256).toNat)).val : Int),
              [((inp.i_addr 7).val : Int), second]))) ∧
    ((10000 : Int) / 256 - 7 = 32 ∧ (10000 : Int) % 256 = 16 ∧
      (1792 : Int) / 256 - 7 = 0 ∧ (1792 : Int) % 256 = 0) := by
  have hlt := inode_getsize_lt inp
  have hidx : (if i / 256 > 7 then 7 else i / 256) = 7 := by
    split <;> omega
  have hnot : ¬ (inode_getsize inp ≤ 917504 ∨ i / 256 < 7) := by omega
  rw [lookup_large_eq ILARG fs inp i junk hlarge h0 (le_of_lt hsz), hidx, i_addr_at_seven]
  refine ⟨?_, ?_, ?_, by decide⟩
  · intro hf
    simp only [(readsector_fails_iff fs.dfd _ junk).2 hf, if_true]
  · intro b1 hb1
    have hr := readsector_of_holds fs.dfd _ b1 junk hb1
    simp only [hr]
    rw [if_neg (by decide), if_neg hnot,
      blocknum_at_store b1 junk (i / 256 - 7) hb1.2.2 (by omega) (by omega)]
    refine ⟨?_, ?_⟩
    · intro hf
      simp only [(readsector_fails_iff fs.dfd _ (store b1 junk)).2 hf, if_true]
    · intro b2 hb2
      have hr2 := readsector_of_holds fs.dfd _ b2 (store b1 junk) hb2
      simp only [hr2]
      rw [if_neg (by decide),
        blocknum_at_store b2 (store b1 junk) (i % 256) hb2.2.2 (by omega) (by omega)]
  · intro hf first second hfirst hsecond
    have hne := mt (readsector_fails_iff fs.dfd _ junk).1 hf
    simp only [if_neg hne, if_neg hnot, ← hfirst,
      blocknum_at_eq first (i / 256 - 7) (by omega) (by omega), ← hsecond]
    refine ⟨?_, ?_⟩
    · intro hf2
      simp only [(readsector_fails_iff fs.dfd second first).2 hf2, if_true]
    · intro hf2
      have hne2 := mt (readsector_fails_iff fs.dfd second first).1 hf2
      simp only [if_neg hne2, blocknum_at_eq _ (i % 256) (by omega) (by omega)]

set_option maxRecDepth 1000000 in
/-- C3 at inode 2 of the demo image: index 10000 reads sector `i_addr[7] = 107`,
whose entry 32 is sector 1353, and returns entry 16 of that sector; index 1792
reads sector 107, whose entry 0 is sector 1321, and returns its entry 0. -/
theorem indexlookup_doubly_indirect_witness :
    (demoLarge.i_mode.val &&& 4096 ≠ 0 ∧ (10000 : Int) * 512 < inode_getsize demoLarge ∧
      holdsSector demoFs.dfd 107 (demoSector 107) ∧
      holdsSector demoFs.dfd 1353 (demoSector 1353) ∧
      holdsSector demoFs.dfd 1321 (demoSector 1321)) ∧
    inode_indexlookup 4096 demoFs demoLarge 10000 zeroBuffer =
      some (((blockEntry (demoSector 1353) 16).val : Int), [107, 1353]) ∧
    inode_indexlookup 4096 demoFs demoLarge 1792 zeroBuffer =
      some (((blockEntry (demoSector 1321) 0).val : Int), [107, 1321]) :=
  ⟨by decide,
   ((indexlookup_doubly_indirect 4096 demoFs demoLarge 10000 zeroBuffer (by decide) (by decide)
      (by decide) (by decide)).2.1 (demoSector 107) (by decide)).2 (demoSector 1353) (by decide),
   ((indexlookup_doubly_indirect 4096 demoFs demoLarge 1792 zeroBuffer (by decide) (by decide)
      (by decide) (by decide)).2.1 (demoSector 107) (by decide)).2 (demoSector 1321) (by decide)⟩

theorem lookup_invalid_index_in_range (ILARG : Nat) (fs : unixfilesystem) (inp : inode)
    (i : Int) (junk : Buffer) (hlo : -2147483648 ≤ i) (hhi : i < 4194304)
    (hbad : i < 0 ∨ i * 512 > inode_getsize inp) :
    inode_indexlookup ILARG fs inp i junk = some (-1, []) := by
  have hnn := inode_getsize_nonneg inp
  unfold inode_indexlookup
  rw [if_pos]
  by_cases hneg : i < 0
  · exact Or.inr hneg
  · left
    have hw : wrapInt32 (i * (DISKIMG_SECTOR_SIZE : Int)) = i * 512 := by
      simp only [DISKIMG_SECTOR_SIZE, Nat.cast_ofNat]
      apply wrapInt32_eq_self <;> omega
    rw [hw]
    omega

set_option maxRecDepth 1000000 in
/-- C4 at a failing input. Inode 4 of the demo image is a large file of 600000
bytes; for `fileBlockIndex = 4194304` the exact product `4194304 * 512 = 2^31`
exceeds the size, but the 32-bit product is `-2^31`, so the bounds check passes:
sector `i_addr[7] = 0` is read and its entry 0 (the word 1000) is returned
instead of `-1`. -/
theorem indexlookup_bounds_check_overflow :
    ((0 : Int) ≤ 4194304 ∧ (4194304 : Int) ≤ 2147483647 ∧
      inode_getsize demoMedium = 600000 ∧
      (4194304 : Int) * 512 > inode_getsize demoMedium ∧
      wrapInt32 ((4194304 : Int) * 512) = -2147483648) ∧
    inode_indexlookup 4096 demoFs demoMedium 4194304 zeroBuffer = some (1000, [0]) ∧
    inode_indexlookup 4096 demoFs demoMedium 4194304 zeroBuffer ≠ some (-1, []) := by
  decide

theorem readsector_cases (dfd : Dfd) (s : Int) (buf : Buffer) (hfull : FullSectors dfd) :
    ((diskimg_readsector dfd s buf).1 = -1 ∧ readBlock dfd s = none) ∨
    ∃ blk : List U8, blk.length = 512 ∧ readBlock dfd s = some blk ∧
      diskimg_readsector dfd s buf = (512, store blk buf) := by
  unfold diskimg_readsector readBlock
  by_cases hl : dfd.lseek (wrapInt32 (s * (DISKIMG_SECTOR_SIZE : Int))) = -1
  · left
    simp [hl]
  · rw [if_neg hl, if_neg hl]
    cases hr : dfd.read (wrapInt32 (s * (DISKIMG_SECTOR_SIZE : Int))) with
    | none => left; simp
    | some bs =>
      right
      have hlen : (List.take DISKIMG_SECTOR_SIZE bs).length = 512 := by
        have h := hfull _ bs hr
        rw [List.length_take]
        simp only [DISKIMG_SECTOR_SIZE] at h ⊢
        omega
      refine ⟨List.take DISKIMG_SECTOR_SIZE bs, hlen, rfl, ?_⟩
      simp only [hlen]
      rfl

theorem readsector_of_read (dfd : Dfd) (s : Int) (buf : Buffer) (bs : List U8)
    (hl : dfd.lseek (wrapInt32 (s * (DISKIMG_SECTOR_SIZE : Int))) ≠ -1)
    (hr : dfd.read (wrapInt32 (s * (DISKIMG_SECTOR_SIZE : Int))) = some bs) :
    diskimg_readsector dfd s buf =
      (((bs.take DISKIMG_SECTOR_SIZE).length : Int), store (bs.take DISKIMG_SECTOR_SIZE) buf) := by
  unfold diskimg_readsector
  simp only [if_neg hl, hr]

theorem deliversAtLeast_of_read (dfd : Dfd) (s : Int) (n : Nat) (bs : List U8)
    (h : deliversAtLeast dfd s n)
    (hl : dfd.lseek (wrapInt32 (s * (DISKIMG_SECTOR_SIZE : Int))) ≠ -1)
    (hr : dfd.read (wrapInt32 (s * (DISKIMG_SECTOR_SIZE : Int))) = some bs) :
    n ≤ bs.length := by
  unfold deliversAtLeast at h
  rw [hr] at h
  rcases h with h | h
  · exact absurd h hl
  · exact h

theorem inodeAt_store_prefix (bs : List U8) (buf : Buffer) (k : Nat)
    (h : 32 * (k + 1) ≤ bs.length) : inodeAt (store bs buf) k = sectorInode bs k := by
  unfold sectorInode inodeAt
  simp only [sizeof_inode]
  congr 1
  · exact u16At_store_of_lt bs buf _ (by omega)
  · exact store_apply_of_lt bs buf _ (by omega)
  · exact store_apply_of_lt bs buf _ (by omega)
  · exact store_apply_of_lt bs buf _ (by omega)
  · exact store_apply_of_lt bs buf _ (by omega)
  · exact u16At_store_of_lt bs buf _ (by omega)
  · funext j
    have hj := j.isLt
    exact u16At_store_of_lt bs buf _ (by omega)
  · funext j
    have hj := j.isLt
    exact u16At_store_of_lt bs buf _ (by omega)
  · funext j
    have hj := j.isLt
    exact u16At_store_of_lt bs buf _ (by omega)

theorem readBlock_of_fails (dfd : Dfd) (s : Int) (h : sectorReadFails dfd s) :
    readBlock dfd s = none := by
  unfold readBlock
  rcases h with h | h
  · rw [if_pos h]
  · rw [h]
    split <;> rfl

theorem readsector_cases_of_whole (dfd : Dfd) (s : Int) (buf : Buffer)
    (hw : ¬ sectorReadFails dfd s → deliversAtLeast dfd s 512) :
    ((diskimg_readsector dfd s buf).1 = -1 ∧ readBlock dfd s = none) ∨
    ∃ blk : List U8, blk.length = 512 ∧ readBlock dfd s = some blk ∧
      diskimg_readsector dfd s buf = (512, store blk buf) := by
  by_cases hfail : sectorReadFails dfd s
  · exact Or.inl ⟨(readsector_fails_iff dfd s buf).2 hfail, readBlock_of_fails dfd s hfail⟩
  · right
    have hl : dfd.lseek (wrapInt32 (s * (DISKIMG_SECTOR_SIZE : Int))) ≠ -1 :=
      fun h => hfail (Or.inl h)
    cases hr : dfd.read (wrapInt32 (s * (DISKIMG_SECTOR_SIZE : Int))) with
    | none => exact absurd (Or.inr hr) hfail
    | some bs =>
      have hlen : (List.take DISKIMG_SECTOR_SIZE bs).length = 512 := by
        have h := deliversAtLeast_of_read dfd s 512 bs (hw hfail) hl hr
        rw [List.length_take]
        simp only [DISKIMG_SECTOR_SIZE]
        omega
      refine ⟨List.take DISKIMG_SECTOR_SIZE bs, hlen, ?_, ?_⟩
      · unfold readBlock
        rw [if_neg hl, hr]
        rfl
      · rw [readsector_of_read dfd s buf bs hl hr, hlen]
        rfl

/-- The sectors in the read log of a lookup in large addressing mode: the
address-table entry, when its read does not fail, and after it, in the
doubly-indirect branch, the entry of the first-level block. -/
theorem lookup_large_reads (ILARG : Nat) (fs : unixfilesystem) (inp : inode) (i : Int)
    (junk : Buffer) (hlarge : inp.i_mode.val &&& ILARG ≠ 0) (h0 : 0 ≤ i)
    (hsz : i * 512 ≤ inode_getsize inp) (a : U16)
    (ha : i_addr_at inp (if i / 256 > 7 then 7 else i / 256) = some a)
    (hok : ¬ sectorReadFails fs.dfd (a.val : Int)) :
    ∃ (v : Int) (reads : List Int),
      inode_indexlookup ILARG fs inp i junk = some (v, reads) ∧ (a.val : Int) ∈ reads ∧
      (¬ (inode_getsize inp ≤ 917504 ∨ i / 256 < 7) →
        ((u16At (diskimg_readsector fs.dfd (a.val : Int) junk).2
          (2 * (i / 256 - 7).toNat)).val : Int) ∈ reads) := by
  have hlt := inode_getsize_lt inp
  have hmod : 0 ≤ i % 256 ∧ i % 256 < 256 := by omega
  have hf : ¬ (diskimg_readsector fs.dfd (a.val : Int) junk).1 = -1 :=
    fun h => hok ((readsector_fails_iff fs.dfd _ junk).1 h)
  rw [lookup_large_eq ILARG fs inp i junk hlarge h0 hsz, ha]
  simp only []
  rw [if_neg hf]
  by_cases hs : inode_getsize inp ≤ 917504 ∨ i / 256 < 7
  · rw [if_pos hs, blocknum_at_eq _ _ hmod.1 hmod.2]
    exact ⟨_, _, rfl, List.mem_singleton_self _, fun h => absurd hs h⟩
  · have h7 : ¬ (i / 256 < 7) := fun hh => hs (Or.inr hh)
    rw [if_neg hs, blocknum_at_eq _ (i / 256 - 7) (by omega) (by omega)]
    simp only []
    split
    · exact ⟨_, _, rfl, List.mem_cons_self _ _, fun _ => by simp⟩
    · rw [blocknum_at_eq _ _ hmod.1 hmod.2]
      exact ⟨_, _, rfl, List.mem_cons_self _ _, fun _ => by simp⟩

set_option maxRecDepth 1000000 in
/-- C5 fails as stated. Inode 2 of the demo image is a large file and index
1536 is in range with tier `1536 / 256 = 6`, which is not within the first
`N - 1 = 6` address-table slots: the rule as stated reads the first-level block
at `addressTable[7]` (sector 107), follows its entry `6 - 6 = 0` (sector 1321)
and returns 4963, while `inode_indexlookup` reads only sector `i_addr[6] = 106`
and returns its entry 0, which is 1318. -/
theorem blockSector_large_six_seven_differs :
    (demoLarge.i_mode.val &&& 4096 ≠ 0 ∧ (0 : Int) ≤ 1536 ∧
      (1536 : Int) * 512 ≤ inode_getsize demoLarge ∧ ¬ ((1536 : Int) / 256 < 7 - 1)) ∧
    inode_indexlookup 4096 demoFs demoLarge 1536 zeroBuffer = some (1318, [106]) ∧
    blockSector_large (7 - 1) 7 demoFs demoLarge 1536 = some (4963, [107, 1321]) ∧
    inode_indexlookup 4096 demoFs demoLarge 1536 zeroBuffer ≠
      blockSector_large (7 - 1) 7 demoFs demoLarge 1536 := by
  decide

/-- C5, amended. The address table has 7 singly-indirect slots
(`addressTable[0..6]`) and the doubly-indirect slot `addressTable[7]`: when each
sector the lookup reads is delivered whole if its read does not fail, for every
large-addressing inode and index `i` with `0 ≤ i` and `i * 512 ≤ size` (and
`i * 512 < size` when the tier `i / 256` is 7 or more), `inode_indexlookup`
follows the rule of the specification with 7 singly-indirect slots: a tier below
7 returns entry `i mod 256` of the block at `addressTable[tier]`; otherwise the
first-level block at `addressTable[7]` is indexed by `tier - 7` to obtain the
second-level block, whose entry `i mod 256` is returned. -/
theorem indexlookup_eq_blockSector_large (ILARG : Nat) (fs : unixfilesystem) (inp : inode)
    (i : Int) (junk : Buffer)
    (hwhole : ∀ (v : Int) (reads : List Int),
      inode_indexlookup ILARG fs inp i junk = some (v, reads) →
      ∀ s ∈ reads, deliversAtLeast fs.dfd s 512)
    (hlarge : inp.i_mode.val &&& ILARG ≠ 0) (h0 : 0 ≤ i)
    (hsz : i * 512 ≤ inode_getsize inp) (hdbl : 7 ≤ i / 256 → i * 512 < inode_getsize inp) :
    inode_indexlookup ILARG fs inp i junk = blockSector_large 7 7 fs inp i := by
  have hlt := inode_getsize_lt inp
  obtain ⟨a, ha⟩ : ∃ a : U16, i_addr_at inp (if i / 256 > 7 then 7 else i / 256) = some a := by
    refine ⟨_, i_addr_at_eq inp _ ?_ ?_⟩ <;> split <;> omega
  have hreads := lookup_large_reads ILARG fs inp i junk hlarge h0 hsz a ha
  have hwa : ¬ sectorReadFails fs.dfd (a.val : Int) → deliversAtLeast fs.dfd (a.val : Int) 512 := by
    intro hok
    obtain ⟨v, reads, hlk, hmem, _⟩ := hreads hok
    exact hwhole v reads hlk _ hmem
  rw [lookup_large_eq ILARG fs inp i junk hlarge h0 hsz]
  unfold blockSector_large
  by_cases htier : i / 256 < 7
  · have hidx : (if i / 256 > 7 then 7 else i / 256) = i / 256 := by
      rw [if_neg (by omega)]
    rw [hidx] at ha
    simp only [hidx, if_pos htier, ha]
    rcases readsector_cases_of_whole fs.dfd (a.val : Int) junk hwa with
      ⟨hf, hn⟩ | ⟨blk, hlen, hs, hr⟩
    · simp only [hf, hn, if_true]
    · simp only [hr, hs]
      rw [if_neg (by decide), if_pos (Or.inr htier),
        blocknum_at_store blk junk (i % 256) hlen (by omega) (by omega)]
  · have hidx : (if i / 256 > 7 then 7 else i / 256) = 7 := by
      split <;> omega
    have hstrict := hdbl (by omega)
    have hnot : ¬ (inode_getsize inp ≤ 917504 ∨ i / 256 < 7) := by omega
    have ha7 : a = inp.i_addr 7 := by
      rw [hidx, i_addr_at_seven] at ha
      exact (Option.some.inj ha).symm
    rw [ha7] at hwa hreads
    simp only [hidx, if_neg htier, i_addr_at_seven]
    rcases readsector_cases_of_whole fs.dfd ((inp.i_addr 7).val : Int) junk hwa with
      ⟨hf, hn⟩ | ⟨b1, hlen1, hs1, hr1⟩
    · simp only [hf, hn, if_true]
    · have hok1 : ¬ sectorReadFails fs.dfd ((inp.i_addr 7).val : Int) := by
        intro hx
        have := (readsector_fails_iff fs.dfd _ junk).2 hx
        rw [hr1] at this
        simp at this
      have hw2 : deliversAtLeast fs.dfd ((blockEntry b1 (i / 256 - 7).toNat).val : Int) 512 := by
        obtain ⟨v, reads, hlk, _, hmem⟩ := hreads hok1
        have h2 := hmem hnot
        rw [hr1] at h2
        simp only [] at h2
        rw [u16At_store_of_lt b1 junk _ (by omega)] at h2
        exact hwhole v reads hlk _ h2
      simp only [hr1, hs1]
      rw [if_neg (by decide), if_neg hnot,
        blocknum_at_store b1 junk (i / 256 - 7) hlen1 (by omega) (by omega)]
      simp only []
      rcases readsector_cases_of_whole fs.dfd ((blockEntry b1 (i / 256 - 7).toNat).val : Int)
        (store b1 junk) (fun _ => hw2) with ⟨hf, hn⟩ | ⟨b2, hlen2, hs2, hr2⟩
      · simp only [hf, hn, if_true]
      · simp only [hr2, hs2]
        rw [if_neg (by decide),
          blocknum_at_store b2 (store b1 junk) (i % 256) hlen2 (by omega) (by omega)]

theorem wordsBytes_length (ws : List Nat) : (wordsBytes ws).length = 2 * ws.length := by
  induction ws with
  | nil => rfl
  | cons w ws ih =>
    simp only [wordsBytes, List.flatMap_cons, List.length_append, List.length_cons] at ih ⊢
    rw [ih]
    simp [u16Bytes]
    omega

set_option maxRecDepth 1000000 in
theorem demoSector_length (s : Nat) : (demoSector s).length = 512 := by
  unfold demoSector
  split
  · decide
  · split
    · decide
    · split
      · decide
      · split
        · decide
        · split
          · decide
          · rw [wordsBytes_length, List.length_map, List.length_range]

theorem demoDfd_fullSectors : FullSectors demoFs.dfd := by
  intro off bs h
  have hb : bs = demoSector (off / 512).toNat := by
    simp only [demoFs, demoDfd, Option.some.injEq] at h
    exact h.symm
  rw [hb, demoSector_length]
  decide

set_option maxRecDepth 1000000 in
/-- C5 amended, at inode 2 of the demo image held in a file of 2000 sectors,
where a read past the end of the file delivers no byte: index 1536 (tier 6)
reads sector 106, index 1792 (tier 7) reads sectors 107 and 1321, and both
follow the rule with 7 singly-indirect slots. -/
theorem indexlookup_eq_blockSector_large_witness :
    (¬ FullSectors (finiteFs 2000).dfd ∧ demoLarge.i_mode.val &&& 4096 ≠ 0 ∧
      (1792 : Int) * 512 < inode_getsize demoLarge ∧
      inode_indexlookup 4096 (finiteFs 2000) demoLarge 1536 zeroBuffer = some (1318, [106]) ∧
      inode_indexlookup 4096 (finiteFs 2000) demoLarge 1792 zeroBuffer =
        some (4963, [107, 1321]) ∧
      (∀ s ∈ ([106, 107, 1321] : List Int), deliversAtLeast (finiteFs 2000).dfd s 512)) ∧
    inode_indexlookup 4096 (finiteFs 2000) demoLarge 1536 zeroBuffer =
      blockSector_large 7 7 (finiteFs 2000) demoLarge 1536 ∧
    inode_indexlookup 4096 (finiteFs 2000) demoLarge 1792 zeroBuffer =
      blockSector_large 7 7 (finiteFs 2000) demoLarge 1792 :=
  ⟨⟨fun h => absurd (h (2000 * 512) [] (by decide)) (by decide), by decide, by decide, by decide,
      by decide, by decide⟩,
   indexlookup_eq_blockSector_large 4096 (finiteFs 2000) demoLarge 1536 zeroBuffer
    (fun v reads h s hs => by
      have hc : inode_indexlookup 4096 (finiteFs 2000) demoLarge 1536 zeroBuffer =
          some (1318, [106]) := by decide
      rw [hc] at h
      simp only [Option.some.injEq, Prod.mk.injEq] at h
      rw [← h.2] at hs
      revert s
      decide)
    (by decide) (by decide) (by decide) (by decide),
   indexlookup_eq_blockSector_large 4096 (finiteFs 2000) demoLarge 1792 zeroBuffer
    (fun v reads h s hs => by
      have hc : inode_indexlookup 4096 (finiteFs 2000) demoLarge 1792 zeroBuffer =
          some (4963, [107, 1321]) := by decide
      rw [hc] at h
      simp only [Option.some.injEq, Prod.mk.injEq] at h
      rw [← h.2] at hs
      revert s
      decide)
    (by decide) (by decide) (by decide) (fun _ => by decide)⟩


/-! ## File size -/

/-- C6. `inode_getsize` is the pure combination `(i_size0 << 16) | i_size1` of an
8-bit and a 16-bit field; it equals `i_size0 * 65536 + i_size1` and lies in
`[0, 2^24 - 1]`. -/
theorem inode_getsize_value (inp : inode) :
    inode_getsize inp = (((inp.i_size0.val <<< 16) ||| inp.i_size1.val : Nat) : Int) ∧
    inode_getsize inp = (inp.i_size0.val : Int) * 65536 + (inp.i_size1.val : Int) ∧
    0 ≤ inode_getsize inp ∧ inode_getsize inp ≤ 2 ^ 24 - 1 := by
  refine ⟨rfl, inode_getsize_eq inp, inode_getsize_nonneg inp, ?_⟩
  have h := inode_getsize_lt inp
  norm_num
  omega

/-! ## Inode fetch -/

theorem inode_iget_eq (fs : unixfilesystem) (id : Int) (inp0 : inode) (junk : Buffer)
    (h1 : 1 ≤ id) (hmax : id ≤ 2147483647) :
    inode_iget fs id inp0 junk =
      if (diskimg_readsector fs.dfd (2 + (id - 1) / 16) junk).1 = -1 then
        some (-1, inp0, [2 + (id - 1) / 16])
      else
        some (0, inodeAt (diskimg_readsector fs.dfd (2 + (id - 1) / 16) junk).2
          ((id - 1) % 16).toNat, [2 + (id - 1) / 16]) := by
  have hw : wrapInt32 (id - 1) = id - 1 := by
    apply wrapInt32_eq_self <;> omega
  have hper : INODES_PER_BLOCK = 16 := rfl
  have hd : (id - 1).tdiv 16 = (id - 1) / 16 := Int.tdiv_eq_ediv (by omega) (by decide)
  have hm : (id - 1).tmod 16 = (id - 1) % 16 := Int.tmod_eq_emod (by omega) (by decide)
  have hs : wrapInt32 (INODE_BLOCK + (id - 1) / 16) = 2 + (id - 1) / 16 := by
    simp only [INODE_BLOCK]
    apply wrapInt32_eq_self <;> omega
  have hin : 0 ≤ (id - 1) % 16 ∧ (id - 1) % 16 < 16 := by omega
  unfold inode_iget
  simp only [hw, hper, hd, hm, hs, if_pos hin]

theorem inodeAt_store (bs : List U8) (buf : Buffer) (k : Nat) (hlen : bs.length = 512)
    (hk : k < 16) : inodeAt (store bs buf) k = sectorInode bs k := by
  unfold sectorInode inodeAt
  simp only [sizeof_inode]
  congr 1
  · exact u16At_store_of_lt bs buf _ (by omega)
  · exact store_apply_of_lt bs buf _ (by omega)
  · exact store_apply_of_lt bs buf _ (by omega)
  · exact store_apply_of_lt bs buf _ (by omega)
  · exact store_apply_of_lt bs buf _ (by omega)
  · exact u16At_store_of_lt bs buf _ (by omega)
  · funext j
    have hj := j.isLt
    exact u16At_store_of_lt bs buf _ (by omega)
  · funext j
    have hj := j.isLt
    exact u16At_store_of_lt bs buf _ (by omega)
  · funext j
    have hj := j.isLt
    exact u16At_store_of_lt bs buf _ (by omega)

/-- C7. For every inumber `id ≥ 1`, `inode_iget` reads exactly one sector,
number `2 + (id - 1) / 16`; when that read does not fail it returns 0 with
`*inp` the record in slot `(id - 1) mod 16` of the buffer the read filled, which
for a sector delivered in full is the record in that slot of the sector. -/
theorem inode_iget_sector_slot (fs : unixfilesystem) (id : Int) (inp0 : inode) (junk : Buffer)
    (h1 : 1 ≤ id) (hmax : id ≤ 2147483647) :
    ∃ (st : Int) (inp : inode),
      inode_iget fs id inp0 junk = some (st, inp, [2 + (id - 1) / 16]) ∧
      (¬ sectorReadFails fs.dfd (2 + (id - 1) / 16) →
        st = 0 ∧
        inp = inodeAt (diskimg_readsector fs.dfd (2 + (id - 1) / 16) junk).2
          ((id - 1) % 16).toNat) ∧
      (∀ bs : List U8, holdsSector fs.dfd (2 + (id - 1) / 16) bs →
        st = 0 ∧ inp = sectorInode bs ((id - 1) % 16).toNat) := by
  rw [inode_iget_eq fs id inp0 junk h1 hmax]
  by_cases hf : (diskimg_readsector fs.dfd (2 + (id - 1) / 16) junk).1 = -1
  · have hfail := (readsector_fails_iff fs.dfd _ junk).1 hf
    refine ⟨-1, inp0, by rw [if_pos hf], fun hn => absurd hfail hn, ?_⟩
    intro bs hb
    exact absurd hfail.symm (by
      intro h
      rcases h.symm with h | h
      · exact hb.1 h
      · rw [hb.2.1] at h; cases h)
  · refine ⟨0, _, by rw [if_neg hf], fun _ => ⟨rfl, rfl⟩, ?_⟩
    intro bs hb
    refine ⟨rfl, ?_⟩
    rw [readsector_of_holds fs.dfd _ bs junk hb]
    exact inodeAt_store bs junk _ hb.2.2 (by omega)

set_option maxRecDepth 1000000 in
/-- C7 at inumber 18 of the demo image: sector `2 + 17 / 16 = 3` is read, and
the record returned is the one in slot `17 mod 16 = 1` of that sector. -/
theorem inode_iget_sector_slot_witness :
    ((1 : Int) ≤ 18 ∧ (18 : Int) ≤ 2147483647 ∧ holdsSector demoFs.dfd 3 (demoSector 3)) ∧
    ∃ (st : Int) (inp : inode),
      inode_iget demoFs 18 zeroInode zeroBuffer = some (st, inp, [3]) ∧
      (¬ sectorReadFails demoFs.dfd 3 →
        st = 0 ∧ inp = inodeAt (diskimg_readsector demoFs.dfd 3 zeroBuffer).2 1) ∧
      (∀ bs : List U8, holdsSector demoFs.dfd 3 bs → st = 0 ∧ inp = sectorInode bs 1) :=
  ⟨by decide, inode_iget_sector_slot demoFs 18 zeroInode zeroBuffer (by decide) (by decide)⟩

/-- C8. For every inumber `id ≥ 1`, `inode_iget` returns `-1` if and only if the
read of the containing sector returns `-1`, and 0 otherwise; when the sector is
delivered in full it returns 0 with the record filled in, also when the
allocated bit (mask `IALLOC`) of that record is clear. -/
theorem inode_iget_status (fs : unixfilesystem) (id : Int) (inp0 : inode) (junk : Buffer)
    (h1 : 1 ≤ id) (hmax : id ≤ 2147483647) :
    ∃ (st : Int) (inp : inode) (reads : List Int),
      inode_iget fs id inp0 junk = some (st, inp, reads) ∧
      (st = -1 ↔ (diskimg_readsector fs.dfd (2 + (id - 1) / 16) junk).1 = -1) ∧
      (st ≠ -1 → st = 0) ∧
      (∀ (IALLOC : Nat) (bs : List U8), holdsSector fs.dfd (2 + (id - 1) / 16) bs →
        (sectorInode bs ((id - 1) % 16).toNat).i_mode.val &&& IALLOC = 0 →
        st = 0 ∧ inp = sectorInode bs ((id - 1) % 16).toNat) := by
  rw [inode_iget_eq fs id inp0 junk h1 hmax]
  by_cases hf : (diskimg_readsector fs.dfd (2 + (id - 1) / 16) junk).1 = -1
  · refine ⟨-1, inp0, _, by rw [if_pos hf], ⟨fun _ => hf, fun _ => rfl⟩,
      fun h => absurd rfl h, ?_⟩
    intro _ bs hb _
    rw [readsector_of_holds fs.dfd _ bs junk hb] at hf
    simp at hf
  · refine ⟨0, _, _, by rw [if_neg hf], ⟨fun h => absurd h (by decide), fun h => absurd h hf⟩,
      fun _ => rfl, ?_⟩
    intro _ bs hb _
    refine ⟨rfl, ?_⟩
    rw [readsector_of_holds fs.dfd _ bs junk hb]
    exact inodeAt_store bs junk _ hb.2.2 (by omega)

set_option maxRecDepth 1000000 in
/-- C8 at inumber 3 of the demo image, whose record has the allocated bit
(`0x8000`) clear: the fetch returns 0 with the record of slot 2 of sector 2. -/
theorem inode_iget_status_witness :
    ((1 : Int) ≤ 3 ∧ (3 : Int) ≤ 2147483647 ∧ holdsSector demoFs.dfd 2 (demoSector 2) ∧
      (sectorInode (demoSector 2) 2).i_mode.val &&& 32768 = 0) ∧
    ∃ (st : Int) (inp : inode) (reads : List Int),
      inode_iget demoFs 3 zeroInode zeroBuffer = some (st, inp, reads) ∧
      (st = -1 ↔ (diskimg_readsector demoFs.dfd 2 zeroBuffer).1 = -1) ∧
      (st ≠ -1 → st = 0) ∧
      (∀ (IALLOC : Nat) (bs : List U8), holdsSector demoFs.dfd 2 bs →
        (sectorInode bs 2).i_mode.val &&& IALLOC = 0 →
        st = 0 ∧ inp = sectorInode bs 2) :=
  ⟨by decide, inode_iget_status demoFs 3 zeroInode zeroBuffer (by decide) (by decide)⟩


/-! ## File block fetch -/

theorem file_getblock_eq (ILARG : Nat) (fs : unixfilesystem) (inumber i : Int) (buf : Buffer)
    (inp0 : inode) (junkI junkL : Buffer) (inp : inode) (reads1 : List Int) (blockNum : Int)
    (reads2 : List Int)
    (hget : inode_iget fs inumber inp0 junkI = some (0, inp, reads1))
    (hlook : inode_indexlookup ILARG fs inp i junkL = some (blockNum, reads2))
    (hblock : blockNum ≠ -1)
    (hread : (diskimg_readsector fs.dfd blockNum buf).1 ≠ -1) :
    file_getblock ILARG fs inumber i buf inp0 junkI junkL =
      if (inode_getsize inp).tdiv 512 = i then
        some ((inode_getsize inp).tmod 512, (diskimg_readsector fs.dfd blockNum buf).2,
          reads1 ++ reads2 ++ [blockNum])
      else
        some ((diskimg_readsector fs.dfd blockNum buf).1,
          (diskimg_readsector fs.dfd blockNum buf).2, reads1 ++ reads2 ++ [blockNum]) := by
  unfold file_getblock
  simp only [hget, hlook, if_neg hblock, if_neg hread, ne_eq, not_true_eq_false, if_false,
    DISKIMG_SECTOR_SIZE, Nat.cast_ofNat]

/-- C9. For a file whose size is not a multiple of 512 and
`fileBlockIndex = size / 512`, when the inode fetch returns 0, the block-address
lookup returns a block number other than `-1` and the read of that sector does
not return `-1`, `file_getblock` returns `size mod 512`, whatever byte count the
sector read returned. -/
theorem file_getblock_last_block (ILARG : Nat) (fs : unixfilesystem) (inumber : Int)
    (buf : Buffer) (inp0 : inode) (junkI junkL : Buffer) (inp : inode) (reads1 : List Int)
    (blockNum : Int) (reads2 : List Int)
    (hget : inode_iget fs inumber inp0 junkI = some (0, inp, reads1))
    (_hpart : inode_getsize inp % 512 ≠ 0)
    (hlook : inode_indexlookup ILARG fs inp (inode_getsize inp / 512) junkL =
      some (blockNum, reads2))
    (hblock : blockNum ≠ -1)
    (hread : (diskimg_readsector fs.dfd blockNum buf).1 ≠ -1) :
    file_getblock ILARG fs inumber (inode_getsize inp / 512) buf inp0 junkI junkL =
      some (inode_getsize inp % 512, (diskimg_readsector fs.dfd blockNum buf).2,
        reads1 ++ reads2 ++ [blockNum]) := by
  have hnn := inode_getsize_nonneg inp
  have hd : (inode_getsize inp).tdiv 512 = inode_getsize inp / 512 :=
    Int.tdiv_eq_ediv hnn (by decide)
  have hm : (inode_getsize inp).tmod 512 = inode_getsize inp % 512 :=
    Int.tmod_eq_emod hnn (by decide)
  rw [file_getblock_eq ILARG fs inumber _ buf inp0 junkI junkL inp reads1 blockNum reads2
    hget hlook hblock hread, if_pos hd, hm]

set_option maxRecDepth 1000000 in
/-- C9 at inode 1 of the demo image (1000 bytes): block index `1000 / 512 = 1`
is sector 51 and the call returns `1000 mod 512 = 488` though the device
delivers 512 bytes. -/
theorem file_getblock_last_block_witness :
    (inode_iget demoFs 1 zeroInode zeroBuffer =
        some (0, inodeAt (diskimg_readsector demoFs.dfd 2 zeroBuffer).2 0, [2]) ∧
      inode_getsize (inodeAt (diskimg_readsector demoFs.dfd 2 zeroBuffer).2 0) = 1000 ∧
      (diskimg_readsector demoFs.dfd 51 zeroBuffer).1 = 512) ∧
    file_getblock 4096 demoFs 1 1 zeroBuffer zeroInode zeroBuffer zeroBuffer =
      some (488, (diskimg_readsector demoFs.dfd 51 zeroBuffer).2, [2, 51]) :=
  ⟨⟨rfl, by decide, by decide⟩,
   file_getblock_last_block 4096 demoFs 1 zeroBuffer zeroInode zeroBuffer zeroBuffer
    (inodeAt (diskimg_readsector demoFs.dfd 2 zeroBuffer).2 0) [2] 51 []
    rfl (by decide) (by decide) (by decide) (by decide)⟩

/-- C10. For an index `i` with `0 ≤ i < size / 512` (a non-final block), when
the inode fetch returns 0, the block-address lookup returns a block number other
than `-1` and the read of that sector does not return `-1`, `file_getblock`
returns the byte count the data sector read returned; this is 512 whenever the
device delivers the full sector. -/
theorem file_getblock_inner_block (ILARG : Nat) (fs : unixfilesystem) (inumber i : Int)
    (buf : Buffer) (inp0 : inode) (junkI junkL : Buffer) (inp : inode) (reads1 : List Int)
    (blockNum : Int) (reads2 : List Int)
    (hget : inode_iget fs inumber inp0 junkI = some (0, inp, reads1))
    (_h0 : 0 ≤ i) (hinner : i < inode_getsize inp / 512)
    (hlook : inode_indexlookup ILARG fs inp i junkL = some (blockNum, reads2))
    (hblock : blockNum ≠ -1)
    (hread : (diskimg_readsector fs.dfd blockNum buf).1 ≠ -1) :
    file_getblock ILARG fs inumber i buf inp0 junkI junkL =
      some ((diskimg_readsector fs.dfd blockNum buf).1,
        (diskimg_readsector fs.dfd blockNum buf).2, reads1 ++ reads2 ++ [blockNum]) ∧
    (∀ bs : List U8, holdsSector fs.dfd blockNum bs →
      file_getblock ILARG fs inumber i buf inp0 junkI junkL =
        some (512, store bs buf, reads1 ++ reads2 ++ [blockNum])) := by
  have hnn := inode_getsize_nonneg inp
  have hd : (inode_getsize inp).tdiv 512 = inode_getsize inp / 512 :=
    Int.tdiv_eq_ediv hnn (by decide)
  have hne : ¬ (inode_getsize inp).tdiv 512 = i := by
    rw [hd]; omega
  have hmain := file_getblock_eq ILARG fs inumber i buf inp0 junkI junkL inp reads1 blockNum
    reads2 hget hlook hblock hread
  rw [if_neg hne] at hmain
  refine ⟨hmain, ?_⟩
  intro bs hb
  rw [hmain, readsector_of_holds fs.dfd blockNum bs buf hb]

set_option maxRecDepth 1000000 in
/-- C10 at inode 1 of the demo image (1000 bytes): block index 0 is sector 50
and the call returns the 512 bytes the device delivers. -/
theorem file_getblock_inner_block_witness :
    (inode_iget demoFs 1 zeroInode zeroBuffer =
        some (0, inodeAt (diskimg_readsector demoFs.dfd 2 zeroBuffer).2 0, [2]) ∧
      (0 : Int) < inode_getsize (inodeAt (diskimg_readsector demoFs.dfd 2 zeroBuffer).2 0) / 512 ∧
      holdsSector demoFs.dfd 50 (demoSector 50)) ∧
    file_getblock 4096 demoFs 1 0 zeroBuffer zeroInode zeroBuffer zeroBuffer =
      some (512, store (demoSector 50) zeroBuffer, [2, 50]) :=
  ⟨⟨rfl, by decide, by decide⟩,
   (file_getblock_inner_block 4096 demoFs 1 0 zeroBuffer zeroInode zeroBuffer zeroBuffer
    (inodeAt (diskimg_readsector demoFs.dfd 2 zeroBuffer).2 0) [2] 50 []
    rfl (by decide) (by decide) (by decide) (by decide) (by decide)).2 (demoSector 50)
    (by decide)⟩


theorem readsector_ret_range (dfd : Dfd) (s : Int) (buf : Buffer) :
    -1 ≤ (diskimg_readsector dfd s buf).1 ∧ (diskimg_readsector dfd s buf).1 ≤ 512 ∧
      ((diskimg_readsector dfd s buf).1 ≠ -1 → 0 ≤ (diskimg_readsector dfd s buf).1) := by
  unfold diskimg_readsector
  by_cases hl : dfd.lseek (wrapInt32 (s * (DISKIMG_SECTOR_SIZE : Int))) = -1
  · simp [hl]
  · rw [if_neg hl]
    cases hr : dfd.read (wrapInt32 (s * (DISKIMG_SECTOR_SIZE : Int))) with
    | none => simp
    | some bs =>
      have hlen : (List.take DISKIMG_SECTOR_SIZE bs).length ≤ 512 := by
        rw [List.length_take]
        exact Nat.min_le_left _ _
      have hnn : (0 : Int) ≤ ((List.take DISKIMG_SECTOR_SIZE bs).length : Int) :=
        Int.natCast_nonneg _
      refine ⟨?_, ?_, fun _ => hnn⟩
      · show (-1 : Int) ≤ ((List.take DISKIMG_SECTOR_SIZE bs).length : Int)
        omega
      · show ((List.take DISKIMG_SECTOR_SIZE bs).length : Int) ≤ 512
        omega

theorem file_getblock_cases (ILARG : Nat) (fs : unixfilesystem) (inumber i : Int) (buf : Buffer)
    (inp0 : inode) (junkI junkL : Buffer) (st : Int) (inp : inode) (reads1 : List Int)
    (hget : inode_iget fs inumber inp0 junkI = some (st, inp, reads1)) :
    (st ≠ 0 → file_getblock ILARG fs inumber i buf inp0 junkI junkL = some (-1, buf, reads1)) ∧
    (st = 0 → ∀ (blockNum : Int) (reads2 : List Int),
      inode_indexlookup ILARG fs inp i junkL = some (blockNum, reads2) →
      (blockNum = -1 →
        file_getblock ILARG fs inumber i buf inp0 junkI junkL =
          some (-1, buf, reads1 ++ reads2)) ∧
      (blockNum ≠ -1 → (diskimg_readsector fs.dfd blockNum buf).1 = -1 →
        file_getblock ILARG fs inumber i buf inp0 junkI junkL =
          some (-1, (diskimg_readsector fs.dfd blockNum buf).2,
            reads1 ++ reads2 ++ [blockNum])) ∧
      (blockNum ≠ -1 → (diskimg_readsector fs.dfd blockNum buf).1 ≠ -1 →
        ∃ ret : Int, 0 ≤ ret ∧ ret ≤ 512 ∧
          file_getblock ILARG fs inumber i buf inp0 junkI junkL =
            some (ret, (diskimg_readsector fs.dfd blockNum buf).2,
              reads1 ++ reads2 ++ [blockNum]))) := by
  refine ⟨?_, ?_⟩
  · intro hst
    unfold file_getblock
    simp only [hget, if_pos hst]
  · intro hst blockNum reads2 hlook
    subst hst
    refine ⟨?_, ?_, ?_⟩
    · intro hb
      unfold file_getblock
      simp [hget, hlook, hb]
    · intro hb hr
      unfold file_getblock
      simp [hget, hlook, hb, hr]
    · intro hb hr
      have hnn := inode_getsize_nonneg inp
      have hrange := readsector_ret_range fs.dfd blockNum buf
      rw [file_getblock_eq ILARG fs inumber i buf inp0 junkI junkL inp reads1 blockNum reads2
        hget hlook hb hr]
      by_cases hlast : (inode_getsize inp).tdiv 512 = i
      · rw [if_pos hlast]
        refine ⟨(inode_getsize inp).tmod 512, ?_, ?_, rfl⟩
        · rw [Int.tmod_eq_emod hnn (by decide)]; omega
        · rw [Int.tmod_eq_emod hnn (by decide)]; omega
      · rw [if_neg hlast]
        exact ⟨_, hrange.2.2 hr, hrange.2.1, rfl⟩

/-! ## File block fetch: error propagation -/

/-- C11. `file_getblock` returns `-1` exactly when `inode_iget` fails, or
`inode_indexlookup` returns `-1`, or the read of the resolved data sector
returns `-1`; in every other case its result is at least 0. After a failure no
further sector is read: the sectors read are those of the steps made so far,
each once. -/
theorem file_getblock_fails_iff (ILARG : Nat) (fs : unixfilesystem) (inumber i : Int)
    (buf : Buffer) (inp0 : inode) (junkI junkL : Buffer) (st : Int) (inp : inode)
    (reads1 : List Int)
    (hget : inode_iget fs inumber inp0 junkI = some (st, inp, reads1)) :
    (st ≠ 0 → ∃ buf1 : Buffer,
      file_getblock ILARG fs inumber i buf inp0 junkI junkL = some (-1, buf1, reads1)) ∧
    (st = 0 → ∀ (blockNum : Int) (reads2 : List Int),
      inode_indexlookup ILARG fs inp i junkL = some (blockNum, reads2) →
      ∃ (ret : Int) (buf1 : Buffer) (reads : List Int),
        file_getblock ILARG fs inumber i buf inp0 junkI junkL = some (ret, buf1, reads) ∧
        (ret = -1 ↔ (blockNum = -1 ∨ (diskimg_readsector fs.dfd blockNum buf).1 = -1)) ∧
        (ret ≠ -1 → 0 ≤ ret) ∧
        (blockNum = -1 → reads = reads1 ++ reads2) ∧
        (blockNum ≠ -1 → reads = reads1 ++ reads2 ++ [blockNum])) := by
  have h := file_getblock_cases ILARG fs inumber i buf inp0 junkI junkL st inp reads1 hget
  refine ⟨fun hst => ⟨buf, h.1 hst⟩, ?_⟩
  intro hst blockNum reads2 hlook
  obtain ⟨h1, h2, h3⟩ := h.2 hst blockNum reads2 hlook
  by_cases hb : blockNum = -1
  · exact ⟨-1, buf, reads1 ++ reads2, h1 hb, ⟨fun _ => Or.inl hb, fun _ => rfl⟩,
      fun hne => absurd rfl hne, fun _ => rfl, fun hne => absurd hb hne⟩
  · by_cases hr : (diskimg_readsector fs.dfd blockNum buf).1 = -1
    · exact ⟨-1, _, _, h2 hb hr, ⟨fun _ => Or.inr hr, fun _ => rfl⟩,
        fun hne => absurd rfl hne, fun he => absurd he hb, fun _ => rfl⟩
    · obtain ⟨ret, hret0, _, hfg⟩ := h3 hb hr
      refine ⟨ret, _, _, hfg, ⟨fun he => ?_, fun ho => ?_⟩, fun _ => hret0,
        fun he => absurd he hb, fun _ => rfl⟩
      · omega
      · rcases ho with ho | ho
        · exact absurd ho hb
        · exact absurd ho hr

set_option maxRecDepth 1000000 in
/-- C11 at inode 1 of the demo image (1000 bytes): block 1 resolves to sector 51
and the call returns 488; block 5 is rejected by the lookup and the call
returns `-1` after reading only the inode sector. -/
theorem file_getblock_fails_iff_witness :
    (inode_iget demoFs 1 zeroInode zeroBuffer =
        some (0, inodeAt (diskimg_readsector demoFs.dfd 2 zeroBuffer).2 0, [2]) ∧
      inode_indexlookup 4096 demoFs (inodeAt (diskimg_readsector demoFs.dfd 2 zeroBuffer).2 0) 1
        zeroBuffer = some (51, []) ∧
      inode_indexlookup 4096 demoFs (inodeAt (diskimg_readsector demoFs.dfd 2 zeroBuffer).2 0) 5
        zeroBuffer = some (-1, [])) ∧
    (∃ (ret : Int) (buf1 : Buffer) (reads : List Int),
      file_getblock 4096 demoFs 1 1 zeroBuffer zeroInode zeroBuffer zeroBuffer =
        some (ret, buf1, reads) ∧
      (ret = -1 ↔ ((51 : Int) = -1 ∨ (diskimg_readsector demoFs.dfd 51 zeroBuffer).1 = -1)) ∧
      (ret ≠ -1 → 0 ≤ ret) ∧
      ((51 : Int) = -1 → reads = [2] ++ []) ∧
      ((51 : Int) ≠ -1 → reads = [2] ++ [] ++ [51])) ∧
    (∃ (ret : Int) (buf1 : Buffer) (reads : List Int),
      file_getblock 4096 demoFs 1 5 zeroBuffer zeroInode zeroBuffer zeroBuffer =
        some (ret, buf1, reads) ∧
      (ret = -1 ↔ ((-1 : Int) = -1 ∨ (diskimg_readsector demoFs.dfd (-1) zeroBuffer).1 = -1)) ∧
      (ret ≠ -1 → 0 ≤ ret) ∧
      ((-1 : Int) = -1 → reads = [2] ++ []) ∧
      ((-1 : Int) ≠ -1 → reads = [2] ++ [] ++ [-1])) :=
  ⟨⟨rfl, by decide, by decide⟩,
   (file_getblock_fails_iff 4096 demoFs 1 1 zeroBuffer zeroInode zeroBuffer zeroBuffer 0
      (inodeAt (diskimg_readsector demoFs.dfd 2 zeroBuffer).2 0) [2] rfl).2 rfl 51 []
      (by decide),
   (file_getblock_fails_iff 4096 demoFs 1 5 zeroBuffer zeroInode zeroBuffer zeroBuffer 0
      (inodeAt (diskimg_readsector demoFs.dfd 2 zeroBuffer).2 0) [2] rfl).2 rfl (-1) []
      (by decide)⟩

set_option maxRecDepth 1000000 in
/-- C12 at a failing input. Inode 5 of the demo image is a small file of
`1024 = 2 * 512` bytes with blocks 52 and 53; index `1024 / 512 = 2` is one past
its last block, yet `file_getblock` does not fail: the bounds check admits it
(`2 * 512 > 1024` is false), the unused entry `i_addr[2] = 0` is taken as the
block number, sector 0 is read and the call returns 0. -/
theorem file_getblock_one_past_end :
    ((file_getblock 4096 demoFs 5 0 zeroBuffer zeroInode zeroBuffer zeroBuffer).map
        (fun r => (r.1, r.2.2)) = some (512, [2, 52]) ∧
      (file_getblock 4096 demoFs 5 1 zeroBuffer zeroInode zeroBuffer zeroBuffer).map
        (fun r => (r.1, r.2.2)) = some (512, [2, 53])) ∧
    (inode_getsize (sectorInode demoInodeSector 4) = 1024 ∧ (1024 : Int) % 512 = 0 ∧
      (1024 : Int) / 512 = 2) ∧
    inode_indexlookup 4096 demoFs (sectorInode demoInodeSector 4) 2 zeroBuffer = some (0, []) ∧
    (file_getblock 4096 demoFs 5 2 zeroBuffer zeroInode zeroBuffer zeroBuffer).map
      (fun r => (r.1, r.2.2)) = some (0, [2, 0]) := by
  decide


/-! ## Name comparison -/

theorem strncmp_take (n : Nat) : ∀ s1 s2 : List U8, strncmp (s1.take n) s2 n = strncmp s1 s2 n := by
  induction n with
  | zero => intro s1 s2; simp [strncmp]
  | succ n ih =>
    intro s1 s2
    cases s1 with
    | nil => simp
    | cons c cs =>
      simp only [List.take_succ_cons, strncmp, List.headD_cons, List.tail_cons]
      rw [ih cs s2.tail]

theorem u8_sub_ne_zero (a b : U8) (h : a ≠ b) : ((a.val : Int) - (b.val : Int)) ≠ 0 := by
  intro h0
  apply h
  apply Fin.ext
  omega

theorem strncmp_eq_zero_iff_eq (n : Nat) : ∀ s1 s2 : List U8, s1.length = n → s2.length = n →
    (∀ c ∈ s1, c ≠ 0) → (strncmp s1 s2 n = 0 ↔ s1 = s2) := by
  induction n with
  | zero =>
    intro s1 s2 h1 h2 _
    rw [List.length_eq_zero] at h1 h2
    simp [strncmp, h1, h2]
  | succ n ih =>
    intro s1 s2 h1 h2 hnz
    cases s1 with
    | nil => cases h1
    | cons c cs =>
      cases s2 with
      | nil => cases h2
      | cons d ds =>
        have hc : c ≠ 0 := hnz c (List.mem_cons_self c cs)
        simp only [strncmp, List.headD_cons, List.tail_cons]
        by_cases hcd : c = d
        · subst hcd
          simp only [ne_eq, not_true_eq_false, if_false, if_neg hc]
          rw [ih cs ds (by simpa using h1) (by simpa using h2)
            (fun x hx => hnz x (List.mem_cons_of_mem c hx))]
          simp
        · rw [if_pos hcd]
          constructor
          · intro h
            exact absurd h (u8_sub_ne_zero c d hcd)
          · intro h
            exact absurd (List.cons.inj h).1 hcd

theorem strncmp_name_nul (name garbage : List U8) (hnz : ∀ c ∈ name, c ≠ 0) :
    ∀ n : Nat, name.length < n → strncmp name (name ++ 0 :: garbage) n = 0 := by
  induction name with
  | nil =>
    intro n hn
    cases n with
    | zero => cases hn
    | succ n => simp [strncmp]
  | cons c cs ih =>
    intro n hn
    cases n with
    | zero => cases hn
    | succ n =>
      have hc : c ≠ 0 := hnz c (List.mem_cons_self c cs)
      simp only [strncmp, List.cons_append, List.headD_cons, List.tail_cons, ne_eq,
        not_true_eq_false, if_false, if_neg hc]
      exact ih (fun x hx => hnz x (List.mem_cons_of_mem c hx)) n (by simpa using hn)

theorem strncmp_ne_zero_of_diff (pre : List U8) (c d : U8) (r1 r2 : List U8)
    (hnz : ∀ x ∈ pre, x ≠ 0) (hcd : c ≠ d) :
    ∀ n : Nat, pre.length < n → strncmp (pre ++ c :: r1) (pre ++ d :: r2) n ≠ 0 := by
  induction pre with
  | nil =>
    intro n hn
    cases n with
    | zero => cases hn
    | succ n =>
      simp only [strncmp, List.nil_append, List.headD_cons, ne_eq, hcd, not_false_eq_true,
        if_true]
      exact u8_sub_ne_zero c d hcd
  | cons p ps ih =>
    intro n hn
    cases n with
    | zero => cases hn
    | succ n =>
      have hp : p ≠ 0 := hnz p (List.mem_cons_self p ps)
      simp only [strncmp, List.cons_append, List.headD_cons, List.tail_cons, ne_eq,
        not_true_eq_false, if_false, if_neg hp]
      exact ih (fun x hx => hnz x (List.mem_cons_of_mem p hx)) n (by simpa using hn)

theorem strncmp_ne_zero_of_short (pre : List U8) (d : U8) (r2 : List U8)
    (hnz : ∀ x ∈ pre, x ≠ 0) (hd : d ≠ 0) :
    ∀ n : Nat, pre.length < n → strncmp pre (pre ++ d :: r2) n ≠ 0 := by
  induction pre with
  | nil =>
    intro n hn
    cases n with
    | zero => cases hn
    | succ n =>
      simp only [strncmp, List.nil_append, List.headD_nil, List.headD_cons, ne_eq]
      rw [if_pos (fun h => hd h.symm)]
      exact u8_sub_ne_zero 0 d (fun h => hd h.symm)
  | cons p ps ih =>
    intro n hn
    cases n with
    | zero => cases hn
    | succ n =>
      have hp : p ≠ 0 := hnz p (List.mem_cons_self p ps)
      simp only [strncmp, List.cons_append, List.headD_cons, List.tail_cons, ne_eq,
        not_true_eq_false, if_false, if_neg hp]
      exact ih (fun x hx => hnz x (List.mem_cons_of_mem p hx)) n (by simpa using hn)


/-! ## Directory scan -/

theorem numDirOf_eq (len : Int) (h0 : 0 ≤ len) (h1 : len ≤ 512) : numDirOf len = len / 16 := by
  unfold numDirOf
  have hs : ((sizeof_direntv6 : Nat) : Int) = 16 := rfl
  have hm : len % 18446744073709551616 / 16 = len / 16 := by omega
  rw [hs, hm]
  apply wrapInt32_eq_self <;> omega

theorem findname_slots_spec (name : List U8) (buf : Buffer) :
    ∀ n j : Nat, j + n ≤ 32 →
      (∃ j1 : Nat, j ≤ j1 ∧ j1 < j + n ∧
        strncmp name (direntAt buf j1).d_name MAX_COMPONENT_LENGTH = 0 ∧
        (∀ j2 : Nat, j ≤ j2 → j2 < j1 →
          strncmp name (direntAt buf j2).d_name MAX_COMPONENT_LENGTH ≠ 0) ∧
        findname_slots name buf n j = some (some (direntAt buf j1))) ∨
      ((∀ j1 : Nat, j ≤ j1 → j1 < j + n →
          strncmp name (direntAt buf j1).d_name MAX_COMPONENT_LENGTH ≠ 0) ∧
        findname_slots name buf n j = some none) := by
  intro n
  induction n with
  | zero =>
    intro j _
    right
    exact ⟨fun j1 h1 h2 => by omega, rfl⟩
  | succ n ih =>
    intro j hj
    have hlt : j < DIRENTS_PER_BLOCK := by
      show j < 32
      omega
    unfold findname_slots
    rw [if_pos hlt]
    by_cases hm : strncmp name (direntAt buf j).d_name MAX_COMPONENT_LENGTH = 0
    · left
      rw [if_pos hm]
      exact ⟨j, le_refl j, by omega, hm, fun j2 h1 h2 => by omega, rfl⟩
    · rw [if_neg hm]
      rcases ih (j + 1) (by omega) with ⟨j1, h1, h2, h3, h4, h5⟩ | ⟨h1, h2⟩
      · left
        refine ⟨j1, by omega, by omega, h3, ?_, h5⟩
        intro j2 hj2 hj2'
        by_cases he : j2 = j
        · rw [he]; exact hm
        · exact h4 j2 (by omega) hj2'
      · right
        refine ⟨?_, h2⟩
        intro j1 hj1 hj1'
        by_cases he : j1 = j
        · rw [he]; exact hm
        · exact h1 j1 (by omega) (by omega)

theorem blockIndices_cons (i m : Nat) : (i : Int) :: blockIndices (i + 1) m = blockIndices i (m + 1) := by
  unfold blockIndices
  rw [List.range'_succ, List.map_cons]
  rfl


theorem blockIndices_one (i : Nat) : blockIndices i (i + 1 - i) = [(i : Int)] := by
  have h : i + 1 - i = 1 := by omega
  rw [h]
  rfl

theorem findname_blocks_exit (getblock : Int → Option (Int × Buffer × List Int))
    (name : List U8) (size : Int) (dirEnt : direntv6) (f i : Nat) (hi : i ≤ 32768)
    (hcond : ¬ ((i : Int) * 512 < size)) :
    findname_blocks getblock name size dirEnt (f + 1) (i : Int) = some ⟨-1, dirEnt, [], []⟩ := by
  have hw : wrapInt32 ((i : Int) * ((DISKIMG_SECTOR_SIZE : Nat) : Int)) = (i : Int) * 512 := by
    have h512 : ((DISKIMG_SECTOR_SIZE : Nat) : Int) = 512 := rfl
    rw [h512]
    apply wrapInt32_eq_self <;> omega
  simp only [findname_blocks, hw, if_neg hcond]

theorem findname_blocks_step (getblock : Int → Option (Int × Buffer × List Int))
    (name : List U8) (size : Int) (dirEnt : direntv6) (f i : Nat) (hi : i ≤ 32768)
    (hcond : (i : Int) * 512 < size) (len : Int) (buf : Buffer) (reads : List Int)
    (hg : getblock (i : Int) = some (len, buf, reads)) :
    findname_blocks getblock name size dirEnt (f + 1) (i : Int) =
      if len = -1 then some ⟨-1, dirEnt, reads, [(i : Int)]⟩
      else
        match findname_slots name buf (numDirOf len).toNat 0 with
        | none => none
        | some (some e) => some ⟨0, e, reads, [(i : Int)]⟩
        | some none =>
          match findname_blocks getblock name size dirEnt f ((i + 1 : Nat) : Int) with
          | none => none
          | some r => some ⟨r.ret, r.dirEnt, reads ++ r.reads, (i : Int) :: r.blocks⟩ := by
  have hw : wrapInt32 ((i : Int) * ((DISKIMG_SECTOR_SIZE : Nat) : Int)) = (i : Int) * 512 := by
    have h512 : ((DISKIMG_SECTOR_SIZE : Nat) : Int) = 512 := rfl
    rw [h512]
    apply wrapInt32_eq_self <;> omega
  have hw1 : wrapInt32 ((i : Int) + 1) = ((i + 1 : Nat) : Int) := by
    push_cast
    apply wrapInt32_eq_self <;> omega
  simp only [findname_blocks, hw, if_pos hcond, hg, hw1]

theorem getblock_unique {getblock : Int → Option (Int × Buffer × List Int)} {k : Int}
    {len len1 : Int} {buf buf1 : Buffer} {reads reads1 : List Int}
    (h : getblock k = some (len, buf, reads)) (h1 : getblock k = some (len1, buf1, reads1)) :
    len1 = len ∧ buf1 = buf ∧ reads1 = reads := by
  rw [h] at h1
  simp only [Option.some.injEq, Prod.mk.injEq] at h1
  exact ⟨h1.1.symm, h1.2.1.symm, h1.2.2.symm⟩

theorem findname_blocks_undef (getblock : Int → Option (Int × Buffer × List Int))
    (name : List U8) (size : Int) (dirEnt : direntv6) (f i : Nat) (hi : i ≤ 32768)
    (hcond : (i : Int) * 512 < size) (hg : getblock (i : Int) = none) :
    findname_blocks getblock name size dirEnt (f + 1) (i : Int) = none := by
  have hw : wrapInt32 ((i : Int) * ((DISKIMG_SECTOR_SIZE : Nat) : Int)) = (i : Int) * 512 := by
    have h512 : ((DISKIMG_SECTOR_SIZE : Nat) : Int) = 512 := rfl
    rw [h512]
    apply wrapInt32_eq_self <;> omega
  simp only [findname_blocks, hw, if_pos hcond, hg]

theorem findname_blocks_spec (getblock : Int → Option (Int × Buffer × List Int))
    (name : List U8) (size : Int) (dirEnt : direntv6) (hsize : size ≤ 16777215)
    (hrange : ∀ (k len : Int) (buf : Buffer) (reads : List Int),
      getblock k = some (len, buf, reads) → -1 ≤ len ∧ len ≤ 512) :
    ∀ n i fuel : Nat, size ≤ ((i + n : Nat) : Int) * 512 → n < fuel → i ≤ 32768 →
      (findname_blocks getblock name size dirEnt fuel (i : Int) = none ∧
        ∃ k : Nat, i ≤ k ∧ (k : Int) * 512 < size ∧ getblock (k : Int) = none ∧
          (∀ k1 : Nat, i ≤ k1 → k1 < k → blockReadable getblock k1) ∧
          (∀ k1 j1 : Nat, i ≤ k1 → k1 < k → ¬ liveMatch getblock name k1 j1)) ∨
      ∃ res : FindnameResult,
        findname_blocks getblock name size dirEnt fuel (i : Int) = some res ∧
        FindSpec getblock name size dirEnt i res := by
  intro n
  induction n with
  | zero =>
    intro i fuel hsz hfuel hi
    obtain ⟨f, rfl⟩ : ∃ f, fuel = f + 1 := ⟨fuel - 1, by omega⟩
    have hcond : ¬ ((i : Int) * 512 < size) := by
      simp only [Nat.add_zero] at hsz
      omega
    right
    refine ⟨_, findname_blocks_exit getblock name size dirEnt f i hi hcond, ?_⟩
    right; right
    refine ⟨rfl, rfl, ?_, ?_, 0, rfl, hsz, ?_⟩
    · intro k1 h1 h2; omega
    · intro k1 _ h1 h2; omega
    · intro k1 h1 h2; omega
  | succ n ih =>
    intro i fuel hsz hfuel hi
    obtain ⟨f, rfl⟩ : ∃ f, fuel = f + 1 := ⟨fuel - 1, by omega⟩
    by_cases hcond : (i : Int) * 512 < size
    · cases hg : getblock (i : Int) with
      | none =>
        left
        exact ⟨findname_blocks_undef getblock name size dirEnt f i hi hcond hg,
          i, le_refl i, hcond, hg, fun k1 h1 h2 => by omega, fun k1 _ h1 h2 => by omega⟩
      | some b =>
        obtain ⟨len, buf, reads⟩ := b
        have hr := hrange _ _ _ _ hg
        rw [findname_blocks_step getblock name size dirEnt f i hi hcond len buf reads hg]
        by_cases hlen : len = -1
        · rw [if_pos hlen]
          right
          refine ⟨_, rfl, ?_⟩
          right; left
          refine ⟨rfl, rfl, i, le_refl i, hcond, ⟨buf, reads, by rw [hg, hlen]⟩, ?_, ?_,
            (blockIndices_one i).symm⟩
          · intro k1 h1 h2; omega
          · intro k1 _ h1 h2; omega
        · rw [if_neg hlen, numDirOf_eq len (by omega) hr.2]
          have hread : blockReadable getblock i := ⟨len, buf, reads, hg, hlen⟩
          rcases findname_slots_spec name buf (len / 16).toNat 0 (by omega) with
            ⟨j1, _, hj1, hm, hfirst, hs⟩ | ⟨hnone, hs⟩
          · rw [hs]
            right
            refine ⟨_, rfl, ?_⟩
            left
            refine ⟨rfl, i, j1, le_refl i, hcond, ⟨len, buf, reads, hg, hlen, by omega, rfl⟩,
              hm, ?_, ?_, (blockIndices_one i).symm⟩
            · intro k1 h1 h2
              have : k1 = i := by omega
              rw [this]; exact hread
            · rintro k1 j2 h1 h2 ⟨e, ⟨len1, buf1, reads1, hg1, _, _, he⟩, hstr⟩
              rcases h2 with h2 | ⟨h2, h3⟩
              · omega
              · rw [h2] at hg1
                obtain ⟨_, hb, _⟩ := getblock_unique hg hg1
                rw [he, hb] at hstr
                exact hfirst j2 (Nat.zero_le j2) h3 hstr
          · rw [hs]
            have hnomatch : ∀ j : Nat, ¬ liveMatch getblock name i j := by
              rintro j ⟨e, ⟨len1, buf1, reads1, hg1, _, hj, he⟩, hstr⟩
              obtain ⟨hl, hb, _⟩ := getblock_unique hg hg1
              rw [he, hb] at hstr
              rw [hl] at hj
              exact hnone j (Nat.zero_le j) (by omega) hstr
            rcases ih (i + 1) f (by push_cast at hsz ⊢; omega) (by omega) (by omega) with
              ⟨hnone1, k, hk, hks, hkn, hrd, hnm⟩ | ⟨res1, hres1, hspec1⟩
            · left
              simp only [hnone1]
              refine ⟨trivial, k, by omega, hks, hkn, ?_, ?_⟩
              · intro k1 h1 h2
                by_cases he : k1 = i
                · rw [he]; exact hread
                · exact hrd k1 (by omega) h2
              · intro k1 j2 h1 h2
                by_cases he : k1 = i
                · rw [he]; exact hnomatch j2
                · exact hnm k1 j2 (by omega) h2
            right
            simp only [hres1]
            refine ⟨_, rfl, ?_⟩
            rcases hspec1 with ⟨h0, k, j, hk, hks, hle, hstr, hrd, hnm, hb⟩ |
              ⟨h0, hd, k, hk, hks, hf, hrd, hnm, hb⟩ | ⟨h0, hd, hrd, hnm, m, hb, hm1, hm2⟩
            · left
              refine ⟨h0, k, j, by omega, hks, hle, hstr, ?_, ?_, ?_⟩
              · intro k1 h1 h2
                by_cases he : k1 = i
                · rw [he]; exact hread
                · exact hrd k1 (by omega) h2
              · intro k1 j2 h1 h2
                by_cases he : k1 = i
                · rw [he]; exact hnomatch j2
                · exact hnm k1 j2 (by omega) h2
              · show (i : Int) :: res1.blocks = blockIndices i (k + 1 - i)
                rw [hb, blockIndices_cons]
                congr 1
                omega
            · right; left
              refine ⟨h0, hd, k, by omega, hks, hf, ?_, ?_, ?_⟩
              · intro k1 h1 h2
                by_cases he : k1 = i
                · rw [he]; exact hread
                · exact hrd k1 (by omega) h2
              · intro k1 j2 h1 h2
                by_cases he : k1 = i
                · rw [he]; exact hnomatch j2
                · exact hnm k1 j2 (by omega) h2
              · show (i : Int) :: res1.blocks = blockIndices i (k + 1 - i)
                rw [hb, blockIndices_cons]
                congr 1
                omega
            · right; right
              refine ⟨h0, hd, ?_, ?_, m + 1, ?_, ?_, ?_⟩
              · intro k1 h1 h2
                by_cases he : k1 = i
                · rw [he]; exact hread
                · exact hrd k1 (by omega) h2
              · intro k1 j2 h1 h2
                by_cases he : k1 = i
                · rw [he]; exact hnomatch j2
                · exact hnm k1 j2 (by omega) h2
              · show (i : Int) :: res1.blocks = blockIndices i (m + 1)
                rw [hb, blockIndices_cons]
              · have : i + (m + 1) = i + 1 + m := by omega
                rw [this]; exact hm1
              · intro k1 h1 h2
                by_cases he : k1 = i
                · rw [he]; exact hcond
                · exact hm2 k1 (by omega) (by omega)
    · right
      refine ⟨_, findname_blocks_exit getblock name size dirEnt f i hi hcond, ?_⟩
      right; right
      refine ⟨rfl, rfl, ?_, ?_, 0, rfl, by push_cast; omega, ?_⟩
      · intro k1 h1 h2; omega
      · intro k1 _ h1 h2; omega
      · intro k1 h1 h2; omega


theorem file_getblock_ret_range (ILARG : Nat) (fs : unixfilesystem) (inumber i : Int)
    (buf : Buffer) (inp0 : inode) (junkI junkL : Buffer) (ret : Int) (buf1 : Buffer)
    (reads : List Int)
    (h : file_getblock ILARG fs inumber i buf inp0 junkI junkL = some (ret, buf1, reads)) :
    -1 ≤ ret ∧ ret ≤ 512 := by
  cases hget : inode_iget fs inumber inp0 junkI with
  | none =>
    unfold file_getblock at h
    simp [hget] at h
  | some r =>
    obtain ⟨st, inp, reads1⟩ := r
    have hc := file_getblock_cases ILARG fs inumber i buf inp0 junkI junkL st inp reads1 hget
    by_cases hst : st = 0
    · cases hlook : inode_indexlookup ILARG fs inp i junkL with
      | none =>
        unfold file_getblock at h
        simp [hget, hst, hlook] at h
      | some b =>
        obtain ⟨blockNum, reads2⟩ := b
        obtain ⟨h1, h2, h3⟩ := hc.2 hst blockNum reads2 hlook
        by_cases hb : blockNum = -1
        · rw [h1 hb] at h
          simp only [Option.some.injEq, Prod.mk.injEq] at h
          omega
        · by_cases hr : (diskimg_readsector fs.dfd blockNum buf).1 = -1
          · rw [h2 hb hr] at h
            simp only [Option.some.injEq, Prod.mk.injEq] at h
            omega
          · obtain ⟨ret1, hr0, hr1, hfg⟩ := h3 hb hr
            rw [hfg] at h
            simp only [Option.some.injEq, Prod.mk.injEq] at h
            omega
    · rw [hc.1 hst] at h
      simp only [Option.some.injEq, Prod.mk.injEq] at h
      omega

theorem getblock_call_range (ILARG : Nat) (fs : unixfilesystem) (inumber : Int)
    (junk : Nat → BlockJunk) (k len : Int) (buf : Buffer) (reads : List Int)
    (h : getblock_call ILARG fs inumber junk k = some (len, buf, reads)) :
    -1 ≤ len ∧ len ≤ 512 :=
  file_getblock_ret_range ILARG fs inumber k _ _ _ _ len buf reads h

theorem directory_findname_fetch_fails (ILARG : Nat) (fs : unixfilesystem) (name : List U8)
    (dirinumber : Int) (dirEnt : direntv6) (inp0 : inode) (junk0 : Buffer)
    (junk : Nat → BlockJunk) (st : Int) (inp : inode) (reads0 : List Int)
    (hget : inode_iget fs dirinumber inp0 junk0 = some (st, inp, reads0)) (hst : st ≠ 0) :
    directory_findname ILARG fs name dirinumber dirEnt inp0 junk0 junk =
      some ⟨-1, dirEnt, reads0, []⟩ := by
  unfold directory_findname
  simp only [hget, if_pos hst]

theorem directory_findname_spec (ILARG : Nat) (fs : unixfilesystem) (name : List U8)
    (dirinumber : Int) (dirEnt : direntv6) (inp0 : inode) (junk0 : Buffer)
    (junk : Nat → BlockJunk) (inp : inode) (reads0 : List Int)
    (hget : inode_iget fs dirinumber inp0 junk0 = some (0, inp, reads0)) :
    (directory_findname ILARG fs name dirinumber dirEnt inp0 junk0 junk = none ∧
      ∃ k : Nat, (k : Int) * 512 < inode_getsize inp ∧
        getblock_call ILARG fs dirinumber junk (k : Int) = none ∧
        (∀ k1 : Nat, k1 < k → blockReadable (getblock_call ILARG fs dirinumber junk) k1) ∧
        (∀ k1 j1 : Nat, k1 < k →
          ¬ liveMatch (getblock_call ILARG fs dirinumber junk) name k1 j1)) ∨
    ∃ res : FindnameResult,
      directory_findname ILARG fs name dirinumber dirEnt inp0 junk0 junk = some res ∧
      FindSpec (getblock_call ILARG fs dirinumber junk) name (inode_getsize inp) dirEnt 0 res ∧
      ∃ rest : List Int, res.reads = reads0 ++ rest := by
  have hnn := inode_getsize_nonneg inp
  have hlt := inode_getsize_lt inp
  have hfuel : inode_getsize inp ≤
      ((0 + ((inode_getsize inp).toNat / 512 + 1) : Nat) : Int) * 512 := by
    push_cast
    omega
  have h512 : DISKIMG_SECTOR_SIZE = 512 := rfl
  unfold directory_findname
  simp only [hget, ne_eq, not_true_eq_false, if_false, h512]
  rcases findname_blocks_spec (getblock_call ILARG fs dirinumber junk) name (inode_getsize inp)
      dirEnt (by omega) (getblock_call_range ILARG fs dirinumber junk)
      ((inode_getsize inp).toNat / 512 + 1) 0 ((inode_getsize inp).toNat / 512 + 2) hfuel
      (by omega) (by omega) with ⟨hnone, k, _, hk, hkn, hrd, hnm⟩ | ⟨res, hres, hspec⟩
  · left
    have hz : ((0 : Nat) : Int) = 0 := rfl
    rw [hz] at hnone
    simp only [hnone]
    exact ⟨trivial, k, hk, hkn, fun k1 h => hrd k1 (Nat.zero_le k1) h,
      fun k1 j1 h => hnm k1 j1 (Nat.zero_le k1) h⟩
  · right
    have hz : ((0 : Nat) : Int) = 0 := rfl
    rw [hz] at hres
    simp only [hres]
    refine ⟨_, rfl, ?_, res.reads, rfl⟩
    exact hspec


set_option maxRecDepth 1000000 in
theorem demoRoot_fetch :
    inode_iget demoFs 1 zeroInode zeroBuffer = some (0, demoRootFetched, [2]) ∧
      inode_getsize demoRootFetched = 1000 :=
  ⟨rfl, by decide⟩

set_option maxRecDepth 1000000 in
theorem demoRoot_block0 :
    demoRootBlocks ((0 : Nat) : Int) =
      some (512, (diskimg_readsector demoFs.dfd 50 zeroBuffer).2, [2, 50]) :=
  rfl

set_option maxRecDepth 1000000 in
theorem demoRoot_block1 :
    demoRootBlocks ((1 : Nat) : Int) =
      some (488, (diskimg_readsector demoFs.dfd 51 zeroBuffer).2, [2, 51]) :=
  rfl

theorem demoRoot_readable (k : Nat) (hk : (k : Int) * 512 < inode_getsize demoRootFetched) :
    blockReadable (getblock_call 4096 demoFs 1 zeroJunk) k := by
  rw [demoRoot_fetch.2] at hk
  have hcases : k = 0 ∨ k = 1 := by omega
  rcases hcases with h | h
  · rw [h]
    exact ⟨512, _, _, demoRoot_block0, by decide⟩
  · rw [h]
    exact ⟨488, _, _, demoRoot_block1, by decide⟩

/-- C14. When the inode fetch returns 0 and the call for every block of the
directory succeeds, `directory_findname` returns 0 if and only if some live
entry (slot `j` of block `k` with `j < validLength_k / 16`) has a matching name,
and then `*dirEnt` is the first such entry in (block, slot) order, whatever
matches come later; otherwise it returns `-1`. -/
theorem directory_findname_first_match (ILARG : Nat) (fs : unixfilesystem) (name : List U8)
    (dirinumber : Int) (dirEnt : direntv6) (inp0 : inode) (junk0 : Buffer)
    (junk : Nat → BlockJunk) (inp : inode) (reads0 : List Int)
    (hget : inode_iget fs dirinumber inp0 junk0 = some (0, inp, reads0))
    (hread : ∀ k : Nat, (k : Int) * 512 < inode_getsize inp →
      blockReadable (getblock_call ILARG fs dirinumber junk) k) :
    ∃ res : FindnameResult,
      directory_findname ILARG fs name dirinumber dirEnt inp0 junk0 junk = some res ∧
      (res.ret = 0 ∨ res.ret = -1) ∧
      (res.ret = 0 ↔ ∃ k j : Nat, (k : Int) * 512 < inode_getsize inp ∧
        liveMatch (getblock_call ILARG fs dirinumber junk) name k j) ∧
      (res.ret = 0 → ∃ k j : Nat, (k : Int) * 512 < inode_getsize inp ∧
        liveMatch (getblock_call ILARG fs dirinumber junk) name k j ∧
        liveEntry (getblock_call ILARG fs dirinumber junk) k j res.dirEnt ∧
        ∀ k1 j1 : Nat, (k1 < k ∨ (k1 = k ∧ j1 < j)) →
          ¬ liveMatch (getblock_call ILARG fs dirinumber junk) name k1 j1) := by
  rcases directory_findname_spec ILARG fs name dirinumber dirEnt inp0 junk0 junk inp reads0 hget
    with ⟨_, k, hk, hkn, _, _⟩ | ⟨res, hres, hspec, _⟩
  · obtain ⟨len, buf, reads, hg, _⟩ := hread k hk
    rw [hkn] at hg
    cases hg
  · refine ⟨res, hres, ?_⟩
    rcases hspec with ⟨h0, k, j, _, hks, hle, hstr, _, hnm, _⟩ |
      ⟨_, _, k, _, hks, ⟨buf, reads, hf⟩, _, _, _⟩ | ⟨h0, _, _, hnm, _⟩
    · have hmatch : liveMatch (getblock_call ILARG fs dirinumber junk) name k j :=
        ⟨res.dirEnt, hle, hstr⟩
      refine ⟨Or.inl h0, ⟨fun _ => ⟨k, j, hks, hmatch⟩, fun _ => h0⟩, fun _ => ?_⟩
      exact ⟨k, j, hks, hmatch, hle, fun k1 j1 h => hnm k1 j1 (Nat.zero_le k1) h⟩
    · obtain ⟨len, buf1, reads1, hg, hne⟩ := hread k hks
      obtain ⟨hl, _, _⟩ := getblock_unique hf hg
      exact absurd hl hne
    · have hne : res.ret ≠ 0 := by rw [h0]; decide
      refine ⟨Or.inr h0, ⟨fun h => absurd h hne, ?_⟩, fun h => absurd h hne⟩
      rintro ⟨k, j, hks, hm⟩
      exact absurd hm (hnm k j (Nat.zero_le k) hks)

set_option maxRecDepth 1000000 in
/-- C14 at directory 1 of the demo image: `docs` is held by slot 2 of block 0
(inumber 6) and again by slot 0 of block 1 (inumber 12); the call returns 0 with
the first of the two after reading block 0 only. -/
theorem directory_findname_first_match_witness :
    (inode_iget demoFs 1 zeroInode zeroBuffer = some (0, demoRootFetched, [2]) ∧
      strncmp (cstr "docs") (direntAt (diskimg_readsector demoFs.dfd 50 zeroBuffer).2 2).d_name
        MAX_COMPONENT_LENGTH = 0 ∧
      strncmp (cstr "docs") (direntAt (diskimg_readsector demoFs.dfd 51 zeroBuffer).2 0).d_name
        MAX_COMPONENT_LENGTH = 0) ∧
    (∃ res : FindnameResult,
      directory_findname 4096 demoFs (cstr "docs") 1 zeroDirent zeroInode zeroBuffer zeroJunk =
        some res ∧
      (res.ret = 0 ∨ res.ret = -1) ∧
      (res.ret = 0 ↔ ∃ k j : Nat, (k : Int) * 512 < inode_getsize demoRootFetched ∧
        liveMatch (getblock_call 4096 demoFs 1 zeroJunk) (cstr "docs") k j) ∧
      (res.ret = 0 → ∃ k j : Nat, (k : Int) * 512 < inode_getsize demoRootFetched ∧
        liveMatch (getblock_call 4096 demoFs 1 zeroJunk) (cstr "docs") k j ∧
        liveEntry (getblock_call 4096 demoFs 1 zeroJunk) k j res.dirEnt ∧
        ∀ k1 j1 : Nat, (k1 < k ∨ (k1 = k ∧ j1 < j)) →
          ¬ liveMatch (getblock_call 4096 demoFs 1 zeroJunk) (cstr "docs") k1 j1)) ∧
    directory_findname 4096 demoFs (cstr "docs") 1 zeroDirent zeroInode zeroBuffer zeroJunk =
      some ⟨0, ⟨6, cstr "docs" ++ List.replicate 10 0⟩, [2, 2, 50], [0]⟩ :=
  ⟨⟨demoRoot_fetch.1, by decide, by decide⟩,
   directory_findname_first_match 4096 demoFs (cstr "docs") 1 zeroDirent zeroInode zeroBuffer
    zeroJunk demoRootFetched [2] demoRoot_fetch.1 demoRoot_readable,
   by decide⟩


theorem directory_findname_some (ILARG : Nat) (fs : unixfilesystem) (name : List U8)
    (dirinumber : Int) (dirEnt : direntv6) (inp0 : inode) (junk0 : Buffer)
    (junk : Nat → BlockJunk) (res : FindnameResult)
    (hres : directory_findname ILARG fs name dirinumber dirEnt inp0 junk0 junk = some res) :
    (∃ (st : Int) (inp : inode) (reads0 : List Int),
      inode_iget fs dirinumber inp0 junk0 = some (st, inp, reads0) ∧ st ≠ 0 ∧
      res = ⟨-1, dirEnt, reads0, []⟩) ∨
    (∃ (inp : inode) (reads0 : List Int),
      inode_iget fs dirinumber inp0 junk0 = some (0, inp, reads0) ∧
      FindSpec (getblock_call ILARG fs dirinumber junk) name (inode_getsize inp) dirEnt 0 res ∧
      ∃ rest : List Int, res.reads = reads0 ++ rest) := by
  cases hget : inode_iget fs dirinumber inp0 junk0 with
  | none =>
    unfold directory_findname at hres
    simp [hget] at hres
  | some r =>
    obtain ⟨st, inp, reads0⟩ := r
    by_cases hst : st = 0
    · right
      subst hst
      rcases directory_findname_spec ILARG fs name dirinumber dirEnt inp0 junk0 junk inp reads0
        hget with ⟨hnone, _⟩ | ⟨res1, hres1, hspec, hrest⟩
      · rw [hnone] at hres
        cases hres
      · rw [hres1] at hres
        cases hres
        exact ⟨inp, reads0, rfl, hspec, hrest⟩
    · left
      rw [directory_findname_fetch_fails ILARG fs name dirinumber dirEnt inp0 junk0 junk st inp
        reads0 hget hst] at hres
      cases hres
      exact ⟨st, inp, reads0, rfl, hst, rfl⟩

/-- C15. Whenever `directory_findname` returns 0, the entry it returns is the
record of a slot `j` of a block `k` of the directory with `(j + 1) * 16` at most
the value `file_getblock` returned for block `k`, and its name matches; and when
no live entry matches, the call returns `-1`, whatever the sectors hold past the
valid lengths (such as a stale entry `deleted.txt` after the live region of the
final partial block). -/
theorem directory_findname_within_valid_length (ILARG : Nat) (fs : unixfilesystem)
    (name : List U8) (dirinumber : Int) (dirEnt : direntv6) (inp0 : inode) (junk0 : Buffer)
    (junk : Nat → BlockJunk) (res : FindnameResult)
    (hres : directory_findname ILARG fs name dirinumber dirEnt inp0 junk0 junk = some res) :
    (res.ret = 0 → ∃ (inp : inode) (reads0 : List Int) (k j : Nat) (len : Int) (buf : Buffer)
        (reads : List Int),
      inode_iget fs dirinumber inp0 junk0 = some (0, inp, reads0) ∧
      (k : Int) * 512 < inode_getsize inp ∧
      getblock_call ILARG fs dirinumber junk (k : Int) = some (len, buf, reads) ∧
      res.dirEnt = direntAt buf j ∧ ((j : Int) + 1) * 16 ≤ len ∧
      strncmp name res.dirEnt.d_name MAX_COMPONENT_LENGTH = 0) ∧
    ((∀ k j : Nat, ¬ liveMatch (getblock_call ILARG fs dirinumber junk) name k j) →
      res.ret = -1) := by
  rcases directory_findname_some ILARG fs name dirinumber dirEnt inp0 junk0 junk res hres with
    ⟨st, inp, reads0, _, _, hr⟩ | ⟨inp, reads0, hget, hspec, _⟩
  · rw [hr]
    refine ⟨fun h => ?_, fun _ => rfl⟩
    simp at h
  · rcases hspec with ⟨h0, k, j, _, hks, ⟨len, buf, reads, hg, _, hj, he⟩, hstr, _, _, _⟩ |
      ⟨h0, _, _⟩ | ⟨h0, _, _⟩
    · refine ⟨fun _ => ⟨inp, reads0, k, j, len, buf, reads, hget, hks, hg, he, by omega, hstr⟩,
        fun hno => ?_⟩
      exact absurd ⟨res.dirEnt, ⟨len, buf, reads, hg, by assumption, hj, he⟩, hstr⟩ (hno k j)
    · exact ⟨fun h => absurd (h0.symm.trans h) (by decide), fun _ => h0⟩
    · exact ⟨fun h => absurd (h0.symm.trans h) (by decide), fun _ => h0⟩

set_option maxRecDepth 1000000 in
/-- C15 at directory 1 of the demo image: `tail` is found in slot 1 of block 1,
for which `file_getblock` returned 488; `deleted.txt` sits in slot 31 of the
same sector, past the 30 live slots, where its name equals the query, and is
not found. -/
theorem directory_findname_within_valid_length_witness :
    (directory_findname 4096 demoFs (cstr "tail") 1 zeroDirent zeroInode zeroBuffer zeroJunk =
        some ⟨0, ⟨14, cstr "tail" ++ List.replicate 10 0⟩, [2, 2, 50, 2, 51], [0, 1]⟩ ∧
      strncmp (cstr "deleted.txt")
        (direntAt (diskimg_readsector demoFs.dfd 51 zeroBuffer).2 31).d_name
        MAX_COMPONENT_LENGTH = 0 ∧
      directory_findname 4096 demoFs (cstr "deleted.txt") 1 zeroDirent zeroInode zeroBuffer
        zeroJunk = some ⟨-1, zeroDirent, [2, 2, 50, 2, 51], [0, 1]⟩) ∧
    ∃ (inp : inode) (reads0 : List Int) (k j : Nat) (len : Int) (buf : Buffer)
        (reads : List Int),
      inode_iget demoFs 1 zeroInode zeroBuffer = some (0, inp, reads0) ∧
      (k : Int) * 512 < inode_getsize inp ∧
      getblock_call 4096 demoFs 1 zeroJunk (k : Int) = some (len, buf, reads) ∧
      (⟨14, cstr "tail" ++ List.replicate 10 0⟩ : direntv6) = direntAt buf j ∧
      ((j : Int) + 1) * 16 ≤ len ∧
      strncmp (cstr "tail") (cstr "tail" ++ List.replicate 10 0) MAX_COMPONENT_LENGTH = 0 :=
  ⟨by decide,
   (directory_findname_within_valid_length 4096 demoFs (cstr "tail") 1 zeroDirent zeroInode
    zeroBuffer zeroJunk ⟨0, ⟨14, cstr "tail" ++ List.replicate 10 0⟩, [2, 2, 50, 2, 51], [0, 1]⟩
    (by decide)).1 rfl⟩


theorem direntAt_name_length (buf : Buffer) (j : Nat) :
    (direntAt buf j).d_name.length = 14 := by
  unfold direntAt
  simp [MAX_COMPONENT_LENGTH]

theorem liveEntry_unique {getblock : Int → Option (Int × Buffer × List Int)} {k j : Nat}
    {e e1 : direntv6} (h : liveEntry getblock k j e) (h1 : liveEntry getblock k j e1) :
    e1 = e := by
  obtain ⟨len, buf, reads, hg, _, _, he⟩ := h
  obtain ⟨len1, buf1, reads1, hg1, _, _, he1⟩ := h1
  obtain ⟨_, hb, _⟩ := getblock_unique hg hg1
  rw [he, he1, hb]

theorem liveEntry_name_length {getblock : Int → Option (Int × Buffer × List Int)} {k j : Nat}
    {e : direntv6} (h : liveEntry getblock k j e) : e.d_name.length = 14 := by
  obtain ⟨len, buf, reads, _, _, _, he⟩ := h
  rw [he]
  exact direntAt_name_length buf j

theorem directory_findname_finds (ILARG : Nat) (fs : unixfilesystem) (name : List U8)
    (dirinumber : Int) (dirEnt : direntv6) (inp0 : inode) (junk0 : Buffer)
    (junk : Nat → BlockJunk) (inp : inode) (reads0 : List Int)
    (hget : inode_iget fs dirinumber inp0 junk0 = some (0, inp, reads0)) (k j : Nat)
    (hk : (k : Int) * 512 < inode_getsize inp)
    (hm : liveMatch (getblock_call ILARG fs dirinumber junk) name k j)
    (hread : ∀ k1 : Nat, k1 < k → blockReadable (getblock_call ILARG fs dirinumber junk) k1) :
    ∃ res : FindnameResult,
      directory_findname ILARG fs name dirinumber dirEnt inp0 junk0 junk = some res ∧
      res.ret = 0 ∧ strncmp name res.dirEnt.d_name MAX_COMPONENT_LENGTH = 0 ∧
      ∃ k0 j0 : Nat, (k0 < k ∨ (k0 = k ∧ j0 ≤ j)) ∧
        liveEntry (getblock_call ILARG fs dirinumber junk) k0 j0 res.dirEnt ∧
        ∀ k1 j1 : Nat, (k1 < k0 ∨ (k1 = k0 ∧ j1 < j0)) →
          ¬ liveMatch (getblock_call ILARG fs dirinumber junk) name k1 j1 := by
  have hsome : ∃ len buf reads,
      getblock_call ILARG fs dirinumber junk (k : Int) = some (len, buf, reads) ∧ len ≠ -1 := by
    obtain ⟨e, ⟨len, buf, reads, hg, hl, _, _⟩, _⟩ := hm
    exact ⟨len, buf, reads, hg, hl⟩
  obtain ⟨len, buf, reads, hgk, hlk⟩ := hsome
  rcases directory_findname_spec ILARG fs name dirinumber dirEnt inp0 junk0 junk inp reads0 hget
    with ⟨_, ku, _, hkn, _, hnm⟩ | ⟨res, hres, hspec, _⟩
  · exfalso
    rcases Nat.lt_trichotomy k ku with h | h | h
    · exact hnm k j h hm
    · rw [h, hkn] at hgk
      cases hgk
    · obtain ⟨len1, buf1, reads1, hg1, _⟩ := hread ku h
      rw [hkn] at hg1
      cases hg1
  · refine ⟨res, hres, ?_⟩
    rcases hspec with ⟨h0, k0, j0, _, _, hle, hstr, _, hnm, _⟩ |
      ⟨_, _, kf, _, _, ⟨buf1, reads1, hf⟩, _, hnm, _⟩ | ⟨_, _, _, hnm, _⟩
    · refine ⟨h0, hstr, k0, j0, ?_, hle, fun k1 j1 h => hnm k1 j1 (Nat.zero_le k1) h⟩
      by_contra hcon
      have hlt : k < k0 ∨ (k = k0 ∧ j < j0) := by omega
      exact hnm k j (Nat.zero_le k) hlt hm
    · exfalso
      rcases Nat.lt_trichotomy k kf with h | h | h
      · exact hnm k j (Nat.zero_le k) h hm
      · rw [h] at hgk
        obtain ⟨hl, _, _⟩ := getblock_unique hf hgk
        exact hlk hl
      · obtain ⟨len1, buf2, reads2, hg1, hne⟩ := hread kf h
        obtain ⟨hl, _, _⟩ := getblock_unique hf hg1
        exact hne hl
    · exact absurd hm (hnm k j (Nat.zero_le k) hk)

/-! ## Directory lookup by name -/

/-- C16. For a query name of exactly 14 characters and a live directory entry
whose 14-byte name field equals those 14 characters, the blocks before it having
been read, `directory_findname` returns 0 with an entry of that name, which is
this entry (so its `d_inumber`) when no earlier live entry has the same field;
and the comparison does not match a field that differs from the query in the
14th byte. -/
theorem directory_findname_full_width_name (ILARG : Nat) (fs : unixfilesystem)
    (name : List U8) (dirinumber : Int) (dirEnt : direntv6) (inp0 : inode) (junk0 : Buffer)
    (junk : Nat → BlockJunk) (inp : inode) (reads0 : List Int)
    (hget : inode_iget fs dirinumber inp0 junk0 = some (0, inp, reads0))
    (hlen : name.length = 14) (hnz : ∀ c ∈ name, c ≠ 0) (k j : Nat) (e : direntv6)
    (hk : (k : Int) * 512 < inode_getsize inp)
    (hlive : liveEntry (getblock_call ILARG fs dirinumber junk) k j e)
    (hfield : e.d_name = name)
    (hread : ∀ k1 : Nat, k1 < k → blockReadable (getblock_call ILARG fs dirinumber junk) k1) :
    (∃ res : FindnameResult,
      directory_findname ILARG fs name dirinumber dirEnt inp0 junk0 junk = some res ∧
      res.ret = 0 ∧ res.dirEnt.d_name = name ∧
      ((∀ (k1 j1 : Nat) (e1 : direntv6), (k1 < k ∨ (k1 = k ∧ j1 < j)) →
          liveEntry (getblock_call ILARG fs dirinumber junk) k1 j1 e1 → e1.d_name ≠ name) →
        res.dirEnt = e)) ∧
    (∀ field : List U8, field.length = 14 → field.getD 13 0 ≠ name.getD 13 0 →
      strncmp name field MAX_COMPONENT_LENGTH ≠ 0) := by
  have hself : strncmp name e.d_name MAX_COMPONENT_LENGTH = 0 := by
    rw [hfield]
    exact (strncmp_eq_zero_iff_eq 14 name name hlen hlen hnz).2 rfl
  refine ⟨?_, ?_⟩
  · obtain ⟨res, hres, h0, hstr, k0, j0, hpos, hle, hnm⟩ :=
      directory_findname_finds ILARG fs name dirinumber dirEnt inp0 junk0 junk inp reads0 hget
        k j hk ⟨e, hlive, hself⟩ hread
    have hname : res.dirEnt.d_name = name :=
      ((strncmp_eq_zero_iff_eq 14 name res.dirEnt.d_name hlen (liveEntry_name_length hle)
        hnz).1 hstr).symm
    refine ⟨res, hres, h0, hname, fun hfirst => ?_⟩
    have hsame : k0 = k ∧ j0 = j := by
      by_contra hcon
      have hlt : k0 < k ∨ (k0 = k ∧ j0 < j) := by omega
      exact hfirst k0 j0 res.dirEnt hlt hle hname
    rw [hsame.1, hsame.2] at hle
    exact liveEntry_unique hlive hle
  · intro field hfl hdiff hstr
    have heq := (strncmp_eq_zero_iff_eq 14 name field hlen hfl hnz).1 hstr
    rw [heq] at hdiff
    exact hdiff rfl


set_option maxRecDepth 1000000 in
theorem demoRoot_entry4 :
    liveEntry (getblock_call 4096 demoFs 1 zeroJunk) 0 4 ⟨6, cstr "very long name"⟩ :=
  ⟨512, _, _, demoRoot_block0, by decide, by decide, by decide⟩

set_option maxRecDepth 1000000 in
/-- C16 at directory 1 of the demo image: `very long name` fills the 14-byte
field of slot 4 of block 0 (inumber 6); slot 3 holds `very long namf`, which
differs in the 14th byte only. The lookup yields inumber 6. -/
theorem directory_findname_full_width_name_witness :
    (inode_iget demoFs 1 zeroInode zeroBuffer = some (0, demoRootFetched, [2]) ∧
      (cstr "very long name").length = 14 ∧ (∀ c ∈ cstr "very long name", c ≠ 0) ∧
      liveEntry (getblock_call 4096 demoFs 1 zeroJunk) 0 4 ⟨6, cstr "very long name"⟩ ∧
      (direntAt (diskimg_readsector demoFs.dfd 50 zeroBuffer).2 3).d_name =
        cstr "very long namf") ∧
    ((∃ res : FindnameResult,
      directory_findname 4096 demoFs (cstr "very long name") 1 zeroDirent zeroInode zeroBuffer
        zeroJunk = some res ∧
      res.ret = 0 ∧ res.dirEnt.d_name = cstr "very long name" ∧
      ((∀ (k1 j1 : Nat) (e1 : direntv6), (k1 < 0 ∨ (k1 = 0 ∧ j1 < 4)) →
          liveEntry (getblock_call 4096 demoFs 1 zeroJunk) k1 j1 e1 →
          e1.d_name ≠ cstr "very long name") →
        res.dirEnt = ⟨6, cstr "very long name"⟩)) ∧
    (∀ field : List U8, field.length = 14 →
      field.getD 13 0 ≠ (cstr "very long name").getD 13 0 →
      strncmp (cstr "very long name") field MAX_COMPONENT_LENGTH ≠ 0)) ∧
    directory_findname 4096 demoFs (cstr "very long name") 1 zeroDirent zeroInode zeroBuffer
      zeroJunk = some ⟨0, ⟨6, cstr "very long name"⟩, [2, 2, 50], [0]⟩ :=
  ⟨⟨demoRoot_fetch.1, by decide, by decide, demoRoot_entry4, by decide⟩,
   directory_findname_full_width_name 4096 demoFs (cstr "very long name") 1 zeroDirent zeroInode
    zeroBuffer zeroJunk demoRootFetched [2] demoRoot_fetch.1 (by decide) (by decide) 0 4
    ⟨6, cstr "very long name"⟩ (by rw [demoRoot_fetch.2]; decide) demoRoot_entry4 rfl
    (fun k1 h => absurd h (Nat.not_lt_zero k1)),
   by decide⟩

/-- C17. The comparison of `directory_findname` is decided by the bytes up to
the first NUL or the 14-byte field boundary. A live entry whose field holds a
name shorter than 14 bytes, a NUL and then any garbage matches a query equal to
that name, and `directory_findname` returns 0 for it once the blocks before the
entry have been read; a query that is a strict prefix of the stored name does
not match; and a query of which the stored name, shorter than 14 bytes, is a
strict prefix does not match. -/
theorem directory_findname_name_up_to_nul (ILARG : Nat) (fs : unixfilesystem)
    (name garbage : List U8) (dirinumber : Int) (dirEnt : direntv6) (inp0 : inode)
    (junk0 : Buffer) (junk : Nat → BlockJunk) (inp : inode) (reads0 : List Int)
    (hget : inode_iget fs dirinumber inp0 junk0 = some (0, inp, reads0))
    (hshort : name.length < 14) (hnz : ∀ c ∈ name, c ≠ 0) (k j : Nat) (e : direntv6)
    (hk : (k : Int) * 512 < inode_getsize inp)
    (hlive : liveEntry (getblock_call ILARG fs dirinumber junk) k j e)
    (hfield : e.d_name = name ++ 0 :: garbage)
    (hread : ∀ k1 : Nat, k1 < k → blockReadable (getblock_call ILARG fs dirinumber junk) k1) :
    strncmp name e.d_name MAX_COMPONENT_LENGTH = 0 ∧
    (∃ res : FindnameResult,
      directory_findname ILARG fs name dirinumber dirEnt inp0 junk0 junk = some res ∧
      res.ret = 0 ∧ strncmp name res.dirEnt.d_name MAX_COMPONENT_LENGTH = 0) ∧
    (∀ other : List U8, strncmp name (name ++ 0 :: other) MAX_COMPONENT_LENGTH = 0) ∧
    (∀ (c : U8) (more : List U8), c ≠ 0 →
      strncmp name (name ++ c :: more) MAX_COMPONENT_LENGTH ≠ 0) ∧
    (∀ (c : U8) (more : List U8), c ≠ 0 →
      strncmp (name ++ c :: more) e.d_name MAX_COMPONENT_LENGTH ≠ 0) := by
  have hmatch : ∀ other : List U8,
      strncmp name (name ++ 0 :: other) MAX_COMPONENT_LENGTH = 0 :=
    fun other => strncmp_name_nul name other hnz 14 hshort
  have hself : strncmp name e.d_name MAX_COMPONENT_LENGTH = 0 := by
    rw [hfield]; exact hmatch garbage
  refine ⟨hself, ?_, hmatch, ?_, ?_⟩
  · obtain ⟨res, hres, h0, hstr, _⟩ :=
      directory_findname_finds ILARG fs name dirinumber dirEnt inp0 junk0 junk inp reads0 hget
        k j hk ⟨e, hlive, hself⟩ hread
    exact ⟨res, hres, h0, hstr⟩
  · intro c more hc
    exact strncmp_ne_zero_of_short name c more hnz hc 14 hshort
  · intro c more hc
    rw [hfield]
    exact strncmp_ne_zero_of_diff name c 0 more garbage hnz hc 14 hshort

set_option maxRecDepth 1000000 in
theorem demoRoot_entry6 :
    liveEntry (getblock_call 4096 demoFs 1 zeroJunk) 0 6
      ⟨8, cstr "foo" ++ 0 :: cstr "XYZ garbag"⟩ :=
  ⟨512, _, _, demoRoot_block0, by decide, by decide, by decide⟩

set_option maxRecDepth 1000000 in
/-- C17 at directory 1 of the demo image: slot 6 of block 0 holds `foo`, a NUL
and the garbage `XYZ garbag`; the query `foo` passes over `foobar` in slot 5 and
returns that entry (inumber 8), and the query `fo` is not found. -/
theorem directory_findname_name_up_to_nul_witness :
    (inode_iget demoFs 1 zeroInode zeroBuffer = some (0, demoRootFetched, [2]) ∧
      (cstr "foo").length < 14 ∧ (∀ c ∈ cstr "foo", c ≠ 0) ∧
      liveEntry (getblock_call 4096 demoFs 1 zeroJunk) 0 6
        ⟨8, cstr "foo" ++ 0 :: cstr "XYZ garbag"⟩) ∧
    (strncmp (cstr "foo") (cstr "foo" ++ 0 :: cstr "XYZ garbag") MAX_COMPONENT_LENGTH = 0 ∧
    (∃ res : FindnameResult,
      directory_findname 4096 demoFs (cstr "foo") 1 zeroDirent zeroInode zeroBuffer zeroJunk =
        some res ∧
      res.ret = 0 ∧ strncmp (cstr "foo") res.dirEnt.d_name MAX_COMPONENT_LENGTH = 0) ∧
    (∀ other : List U8,
      strncmp (cstr "foo") (cstr "foo" ++ 0 :: other) MAX_COMPONENT_LENGTH = 0) ∧
    (∀ (c : U8) (more : List U8), c ≠ 0 →
      strncmp (cstr "foo") (cstr "foo" ++ c :: more) MAX_COMPONENT_LENGTH ≠ 0) ∧
    (∀ (c : U8) (more : List U8), c ≠ 0 →
      strncmp (cstr "foo" ++ c :: more) (cstr "foo" ++ 0 :: cstr "XYZ garbag")
        MAX_COMPONENT_LENGTH ≠ 0)) ∧
    (directory_findname 4096 demoFs (cstr "foo") 1 zeroDirent zeroInode zeroBuffer zeroJunk =
        some ⟨0, ⟨8, cstr "foo" ++ 0 :: cstr "XYZ garbag"⟩, [2, 2, 50], [0]⟩ ∧
      directory_findname 4096 demoFs (cstr "fo") 1 zeroDirent zeroInode zeroBuffer zeroJunk =
        some ⟨-1, zeroDirent, [2, 2, 50, 2, 51], [0, 1]⟩) :=
  ⟨⟨demoRoot_fetch.1, by decide, by decide, demoRoot_entry6⟩,
   directory_findname_name_up_to_nul 4096 demoFs (cstr "foo") (cstr "XYZ garbag") 1 zeroDirent
    zeroInode zeroBuffer zeroJunk demoRootFetched [2] demoRoot_fetch.1 (by decide) (by decide)
    0 6 ⟨8, cstr "foo" ++ 0 :: cstr "XYZ garbag"⟩ (by rw [demoRoot_fetch.2]; decide)
    demoRoot_entry6 rfl (fun k1 h => absurd h (Nat.not_lt_zero k1)),
   by decide⟩


theorem findname_slots_take (name : List U8) (buf : Buffer) :
    ∀ n j : Nat, findname_slots (name.take MAX_COMPONENT_LENGTH) buf n j =
      findname_slots name buf n j := by
  intro n
  induction n with
  | zero => intro j; rfl
  | succ n ih =>
    intro j
    simp only [findname_slots, strncmp_take, ih]

theorem findname_blocks_take (getblock : Int → Option (Int × Buffer × List Int))
    (name : List U8) (size : Int) (dirEnt : direntv6) :
    ∀ (fuel : Nat) (i : Int),
      findname_blocks getblock (name.take MAX_COMPONENT_LENGTH) size dirEnt fuel i =
        findname_blocks getblock name size dirEnt fuel i := by
  intro fuel
  induction fuel with
  | zero => intro i; rfl
  | succ fuel ih =>
    intro i
    simp only [findname_blocks, findname_slots_take, ih]

/-- C18. The query name is truncated to the 14-byte width of the name field:
for a name longer than 14 characters `directory_findname` gives the same result
(return value, entry and reads) as for the name's first 14 characters. -/
theorem directory_findname_truncates_name (ILARG : Nat) (fs : unixfilesystem)
    (name : List U8) (dirinumber : Int) (dirEnt : direntv6) (inp0 : inode) (junk0 : Buffer)
    (junk : Nat → BlockJunk) (_hlong : 14 < name.length) :
    directory_findname ILARG fs name dirinumber dirEnt inp0 junk0 junk =
      directory_findname ILARG fs (name.take 14) dirinumber dirEnt inp0 junk0 junk := by
  have h := findname_blocks_take (getblock_call ILARG fs dirinumber junk) name
  have h14 : MAX_COMPONENT_LENGTH = 14 := rfl
  rw [h14] at h
  unfold directory_findname
  simp only [h]

set_option maxRecDepth 1000000 in
/-- C18 at directory 1 of the demo image: the 19-character query
`very long name plus` gives what its first 14 characters `very long name` give,
the entry with inumber 6. -/
theorem directory_findname_truncates_name_witness :
    (14 < (cstr "very long name plus").length ∧
      (cstr "very long name plus").take 14 = cstr "very long name") ∧
    directory_findname 4096 demoFs (cstr "very long name plus") 1 zeroDirent zeroInode
        zeroBuffer zeroJunk =
      directory_findname 4096 demoFs ((cstr "very long name plus").take 14) 1 zeroDirent
        zeroInode zeroBuffer zeroJunk ∧
    directory_findname 4096 demoFs (cstr "very long name plus") 1 zeroDirent zeroInode
        zeroBuffer zeroJunk = some ⟨0, ⟨6, cstr "very long name"⟩, [2, 2, 50], [0]⟩ :=
  ⟨by decide,
   directory_findname_truncates_name 4096 demoFs (cstr "very long name plus") 1 zeroDirent
    zeroInode zeroBuffer zeroJunk (by decide),
   by decide⟩

/-- C20. For a directory whose inode has size 0, `directory_findname` returns
`-1` for every name, leaves `*dirEnt` as it was, and reads only the sector of
the inode, `2 + (dirinumber - 1) / 16`: no `file_getblock` call is made. -/
theorem directory_findname_empty (ILARG : Nat) (fs : unixfilesystem) (name : List U8)
    (dirinumber : Int) (dirEnt : direntv6) (inp0 : inode) (junk0 : Buffer)
    (junk : Nat → BlockJunk) (inp : inode) (reads0 : List Int)
    (h1 : 1 ≤ dirinumber) (hmax : dirinumber ≤ 2147483647)
    (hget : inode_iget fs dirinumber inp0 junk0 = some (0, inp, reads0))
    (hsize : inode_getsize inp = 0) :
    directory_findname ILARG fs name dirinumber dirEnt inp0 junk0 junk =
      some ⟨-1, dirEnt, [2 + (dirinumber - 1) / 16], []⟩ := by
  have hreads : reads0 = [2 + (dirinumber - 1) / 16] := by
    rw [inode_iget_eq fs dirinumber inp0 junk0 h1 hmax] at hget
    split at hget
    · simp only [Option.some.injEq, Prod.mk.injEq] at hget
      omega
    · simp only [Option.some.injEq, Prod.mk.injEq] at hget
      exact hget.2.2.symm
  have hexit := findname_blocks_exit (getblock_call ILARG fs dirinumber junk) name 0 dirEnt
    (0 + 1) 0 (by decide) (by decide)
  have hz : ((0 : Nat) : Int) = 0 := rfl
  rw [hz] at hexit
  unfold directory_findname
  simp only [hget, hsize, ne_eq, not_true_eq_false, if_false]
  have hfuel : (0 : Int).toNat / DISKIMG_SECTOR_SIZE + 2 = 0 + 1 + 1 := rfl
  rw [hfuel, hexit, hreads]
  rfl

set_option maxRecDepth 1000000 in
/-- C20 at inode 10 of the demo image, a directory of size 0: the lookup of `x`
returns `-1` after reading sector 2 only. -/
theorem directory_findname_empty_witness :
    ((1 : Int) ≤ 10 ∧ (10 : Int) ≤ 2147483647 ∧
      inode_iget demoFs 10 zeroInode zeroBuffer =
        some (0, inodeAt (diskimg_readsector demoFs.dfd 2 zeroBuffer).2 9, [2]) ∧
      inode_getsize (inodeAt (diskimg_readsector demoFs.dfd 2 zeroBuffer).2 9) = 0) ∧
    directory_findname 4096 demoFs (cstr "x") 10 zeroDirent zeroInode zeroBuffer zeroJunk =
      some ⟨-1, zeroDirent, [2], []⟩ :=
  ⟨⟨by decide, by decide, rfl, by decide⟩,
   directory_findname_empty 4096 demoFs (cstr "x") 10 zeroDirent zeroInode zeroBuffer zeroJunk
    (inodeAt (diskimg_readsector demoFs.dfd 2 zeroBuffer).2 9) [2] (by decide) (by decide) rfl
    (by decide)⟩


set_option maxRecDepth 1000000 in
/-- C19 fails as stated. Inode 7 of the demo image has the allocated bit
(`0x8000`) clear, size 32 and block 57, whose second slot holds `ghost`
(inumber 13): `directory_findname` does not fail but returns 0 with that
entry. -/
theorem directory_findname_unallocated_found :
    (inode_iget demoFs 7 zeroInode zeroBuffer =
        some (0, inodeAt (diskimg_readsector demoFs.dfd 2 zeroBuffer).2 6, [2]) ∧
      (inodeAt (diskimg_readsector demoFs.dfd 2 zeroBuffer).2 6).i_mode.val &&& 32768 = 0 ∧
      inode_getsize (inodeAt (diskimg_readsector demoFs.dfd 2 zeroBuffer).2 6) = 32) ∧
    directory_findname 4096 demoFs (cstr "ghost") 7 zeroDirent zeroInode zeroBuffer zeroJunk =
      some ⟨0, ⟨13, cstr "ghost" ++ List.replicate 9 0⟩, [2, 2, 57], [0]⟩ :=
  ⟨⟨rfl, by decide, by decide⟩, by decide⟩

/-- C19, amended. For a directory inumber whose inode has the allocated bit
clear, `directory_findname` does not inspect that bit: it returns `-1` for every
name that matches no live entry of the blocks the inode record describes, and it
returns 0 for a name that matches a live entry once the blocks before that entry
have been read. -/
theorem directory_findname_unallocated (ILARG IALLOC : Nat) (fs : unixfilesystem)
    (name : List U8) (dirinumber : Int) (dirEnt : direntv6) (inp0 : inode) (junk0 : Buffer)
    (junk : Nat → BlockJunk) (inp : inode) (reads0 : List Int)
    (hget : inode_iget fs dirinumber inp0 junk0 = some (0, inp, reads0))
    (_hfree : inp.i_mode.val &&& IALLOC = 0) :
    ((∀ k j : Nat, (k : Int) * 512 < inode_getsize inp →
        ¬ liveMatch (getblock_call ILARG fs dirinumber junk) name k j) →
      (∀ res : FindnameResult,
        directory_findname ILARG fs name dirinumber dirEnt inp0 junk0 junk = some res →
        res.ret = -1) ∧
      ((∀ k : Nat, (k : Int) * 512 < inode_getsize inp →
          getblock_call ILARG fs dirinumber junk (k : Int) ≠ none) →
        ∃ res : FindnameResult,
          directory_findname ILARG fs name dirinumber dirEnt inp0 junk0 junk = some res ∧
          res.ret = -1)) ∧
    (∀ k j : Nat, (k : Int) * 512 < inode_getsize inp →
      liveMatch (getblock_call ILARG fs dirinumber junk) name k j →
      (∀ k1 : Nat, k1 < k → blockReadable (getblock_call ILARG fs dirinumber junk) k1) →
      ∃ res : FindnameResult,
        directory_findname ILARG fs name dirinumber dirEnt inp0 junk0 junk = some res ∧
        res.ret = 0) := by
  have hspec := directory_findname_spec ILARG fs name dirinumber dirEnt inp0 junk0 junk inp
    reads0 hget
  refine ⟨fun hno => ?_, ?_⟩
  · have hret : ∀ res : FindnameResult,
        FindSpec (getblock_call ILARG fs dirinumber junk) name (inode_getsize inp) dirEnt 0
          res → res.ret = -1 := by
      intro res hs
      rcases hs with ⟨_, k, j, _, hks, hle, hstr, _⟩ | ⟨h0, _⟩ | ⟨h0, _⟩
      · exact absurd ⟨res.dirEnt, hle, hstr⟩ (hno k j hks)
      · exact h0
      · exact h0
    refine ⟨?_, ?_⟩
    · intro res hres
      rcases hspec with ⟨hnone, _⟩ | ⟨res1, hres1, hs, _⟩
      · rw [hnone] at hres
        cases hres
      · rw [hres1] at hres
        rw [← Option.some.inj hres]
        exact hret res1 hs
    · intro hdef
      rcases hspec with ⟨_, k, hk, hkn, _⟩ | ⟨res1, hres1, hs, _⟩
      · exact absurd hkn (hdef k hk)
      · exact ⟨res1, hres1, hret res1 hs⟩
  · intro k j hk hm hread
    obtain ⟨res, hres, h0, _⟩ :=
      directory_findname_finds ILARG fs name dirinumber dirEnt inp0 junk0 junk inp reads0 hget
        k j hk hm hread
    exact ⟨res, hres, h0⟩

set_option maxRecDepth 1000000 in
theorem demoGhost_block0 :
    getblock_call 4096 demoFs 7 zeroJunk ((0 : Nat) : Int) =
      some (32, (diskimg_readsector demoFs.dfd 57 zeroBuffer).2, [2, 57]) :=
  rfl

set_option maxRecDepth 1000000 in
theorem demoGhost_no_match (k j : Nat) (hk : (k : Int) * 512 < 32) :
    ¬ liveMatch (getblock_call 4096 demoFs 7 zeroJunk) (cstr "nothing") k j := by
  rintro ⟨e, ⟨len, buf, reads, hg, _, hj, he⟩, hstr⟩
  have hk0 : k = 0 := by omega
  rw [hk0] at hg
  obtain ⟨hl, hb, _⟩ := getblock_unique demoGhost_block0 hg
  rw [hl] at hj
  rw [he, hb] at hstr
  have hcases : j = 0 ∨ j = 1 := by omega
  rcases hcases with h | h
  · rw [h] at hstr
    revert hstr
    decide
  · rw [h] at hstr
    revert hstr
    decide

set_option maxRecDepth 1000000 in
/-- C19 amended, at the unallocated inode 7 of the demo image: `nothing` matches
no live entry and the lookup returns `-1`; `ghost` matches slot 1 of block 0 and
the lookup returns 0. -/
theorem directory_findname_unallocated_witness :
    (inode_iget demoFs 7 zeroInode zeroBuffer =
        some (0, inodeAt (diskimg_readsector demoFs.dfd 2 zeroBuffer).2 6, [2]) ∧
      (inodeAt (diskimg_readsector demoFs.dfd 2 zeroBuffer).2 6).i_mode.val &&& 32768 = 0 ∧
      inode_getsize (inodeAt (diskimg_readsector demoFs.dfd 2 zeroBuffer).2 6) = 32 ∧
      directory_findname 4096 demoFs (cstr "nothing") 7 zeroDirent zeroInode zeroBuffer
        zeroJunk = some ⟨-1, zeroDirent, [2, 2, 57], [0]⟩) ∧
    (∀ res : FindnameResult,
      directory_findname 4096 demoFs (cstr "nothing") 7 zeroDirent zeroInode zeroBuffer
        zeroJunk = some res → res.ret = -1) ∧
    (∃ res : FindnameResult,
      directory_findname 4096 demoFs (cstr "ghost") 7 zeroDirent zeroInode zeroBuffer
        zeroJunk = some res ∧ res.ret = 0) :=
  ⟨⟨rfl, by decide, by decide, by decide⟩,
   ((directory_findname_unallocated 4096 32768 demoFs (cstr "nothing") 7 zeroDirent zeroInode
      zeroBuffer zeroJunk (inodeAt (diskimg_readsector demoFs.dfd 2 zeroBuffer).2 6) [2] rfl
      (by decide)).1
      (fun k j hk => demoGhost_no_match k j
        (by
          have hsz : inode_getsize (inodeAt (diskimg_readsector demoFs.dfd 2 zeroBuffer).2 6) =
              32 := by decide
          rw [hsz] at hk
          exact hk))).1,
   (directory_findname_unallocated 4096 32768 demoFs (cstr "ghost") 7 zeroDirent zeroInode
      zeroBuffer zeroJunk (inodeAt (diskimg_readsector demoFs.dfd 2 zeroBuffer).2 6) [2] rfl
      (by decide)).2 0 1 (by decide)
      ⟨⟨13, cstr "ghost" ++ List.replicate 9 0⟩,
        ⟨32, _, _, demoGhost_block0, by decide, by decide, by decide⟩, by decide⟩
      (fun k1 h => absurd h (Nat.not_lt_zero k1))⟩


/-! ## Walks over the blocks of a file -/

theorem mem_blockIndices (i m : Nat) (x : Int) :
    x ∈ blockIndices i m ↔ ∃ k : Nat, i ≤ k ∧ k < i + m ∧ x = (k : Int) := by
  unfold blockIndices
  simp only [List.mem_map, List.mem_range'_1]
  constructor
  · rintro ⟨k, ⟨h1, h2⟩, rfl⟩
    exact ⟨k, h1, h2, rfl⟩
  · rintro ⟨k, h1, h2, rfl⟩
    exact ⟨k, ⟨h1, h2⟩, rfl⟩

theorem ascendingWalk_of_indices (size : Int) (blocks : List Int) (m : Nat) (h0 : 0 ≤ size)
    (hb : blocks = blockIndices 0 m)
    (hlt : ∀ k : Nat, k < m → (k : Int) * 512 < size) : AscendingWalk size blocks := by
  refine ⟨m, hb, ?_, ?_, ?_⟩
  · cases m with
    | zero => simp only [Nat.cast_zero]; omega
    | succ m =>
      have h := hlt m (Nat.lt_succ_self m)
      push_cast
      omega
  · intro i hi
    rw [hb, mem_blockIndices] at hi
    obtain ⟨k, _, hk, rfl⟩ := hi
    exact ⟨Int.natCast_nonneg k, hlt k (by omega)⟩
  · intro hmod hmem
    rw [hb, mem_blockIndices] at hmem
    obtain ⟨k, _, hk, hx⟩ := hmem
    have h := hlt k (by omega)
    omega

theorem ascendingWalk_nil (size : Int) (h0 : 0 ≤ size) : AscendingWalk size [] :=
  ascendingWalk_of_indices size [] 0 h0 rfl (fun k hk => absurd hk (Nat.not_lt_zero k))

theorem ascendingWalk_of_findSpec (getblock : Int → Option (Int × Buffer × List Int))
    (name : List U8) (size : Int) (dirEnt : direntv6) (res : FindnameResult) (h0 : 0 ≤ size)
    (hs : FindSpec getblock name size dirEnt 0 res) : AscendingWalk size res.blocks := by
  rcases hs with ⟨_, k, j, _, hks, _, _, _, _, hb⟩ | ⟨_, _, k, _, hks, _, _, _, hb⟩ |
    ⟨_, _, _, _, m, hb, _, hm⟩
  · exact ascendingWalk_of_indices size res.blocks (k + 1 - 0) h0 hb (fun k1 hk1 => by omega)
  · exact ascendingWalk_of_indices size res.blocks (k + 1 - 0) h0 hb (fun k1 hk1 => by omega)
  · exact ascendingWalk_of_indices size res.blocks m h0 hb
      (fun k1 hk1 => hm k1 (Nat.zero_le k1) (by omega))

theorem chksum_blocks_walk {σ : Type} (getblock : Int → Option (Int × Buffer × List Int))
    (sha : ShaLib σ) (size : Int) (hsize : size ≤ 16777215) :
    ∀ (n i fuel : Nat) (ctx : σ), size ≤ ((i + n : Nat) : Int) * 512 → n < fuel → i ≤ 32768 →
      (chksum_blocks getblock sha size fuel ((i : Int) * 512) ctx = none ∧
        ∃ k : Nat, i ≤ k ∧ (k : Int) * 512 < size ∧ getblock (k : Int) = none) ∨
      ∃ l : ChksumLoop σ,
        chksum_blocks getblock sha size fuel ((i : Int) * 512) ctx = some l ∧
        ∃ m : Nat, l.blocks = blockIndices i m ∧
          ∀ k1 : Nat, i ≤ k1 → k1 < i + m → (k1 : Int) * 512 < size := by
  have h512 : ((DISKIMG_SECTOR_SIZE : Nat) : Int) = 512 := rfl
  intro n
  induction n with
  | zero =>
    intro i fuel ctx hsz hfuel hi
    obtain ⟨f, rfl⟩ : ∃ f, fuel = f + 1 := ⟨fuel - 1, by omega⟩
    have hcond : ¬ ((i : Int) * 512 < size) := by
      simp only [Nat.add_zero] at hsz
      omega
    right
    refine ⟨⟨ChksumExit.finished ctx, [], []⟩, ?_, 0, rfl, fun k1 h1 h2 => by omega⟩
    simp only [chksum_blocks, if_neg hcond]
  | succ n ih =>
    intro i fuel ctx hsz hfuel hi
    obtain ⟨f, rfl⟩ : ∃ f, fuel = f + 1 := ⟨fuel - 1, by omega⟩
    by_cases hcond : (i : Int) * 512 < size
    · have hbno : ((i : Int) * 512).tdiv 512 = (i : Int) := by
        rw [Int.tdiv_eq_ediv (by omega) (by decide)]
        omega
      have hnext : wrapInt32 ((i : Int) * 512 + 512) = ((i + 1 : Nat) : Int) * 512 := by
        push_cast
        rw [wrapInt32_eq_self (by omega) (by omega)]
        ring
      cases hg : getblock (i : Int) with
      | none =>
        left
        refine ⟨?_, i, le_refl i, hcond, hg⟩
        simp only [chksum_blocks, if_pos hcond, h512, hbno, hg]
      | some b =>
        obtain ⟨bytesMoved, buf, reads⟩ := b
        by_cases hneg : bytesMoved < 0
        · right
          refine ⟨⟨ChksumExit.getblockFailed (i : Int), reads, [(i : Int)]⟩, ?_, 1, rfl, ?_⟩
          · simp only [chksum_blocks, if_pos hcond, h512, hbno, hg, if_pos hneg]
          · intro k1 h1 h2
            have : k1 = i := by omega
            rw [this]; exact hcond
        · by_cases hup : (sha.update ctx ((List.range bytesMoved.toNat).map buf)).1 = 0
          · right
            refine ⟨⟨ChksumExit.updateFailed, reads, [(i : Int)]⟩, ?_, 1, rfl, ?_⟩
            · simp only [chksum_blocks, if_pos hcond, h512, hbno, hg, if_neg hneg, if_pos hup]
            · intro k1 h1 h2
              have : k1 = i := by omega
              rw [this]; exact hcond
          · rcases ih (i + 1) f (sha.update ctx ((List.range bytesMoved.toNat).map buf)).2
                (by push_cast at hsz ⊢; omega) (by omega) (by omega) with
              ⟨hnone, k, hk, hks, hkn⟩ | ⟨l, hl, m, hb, hm⟩
            · left
              refine ⟨?_, k, by omega, hks, hkn⟩
              simp only [chksum_blocks, if_pos hcond, h512, hbno, hg, if_neg hneg, if_neg hup,
                hnext, hnone]
            · right
              refine ⟨⟨l.exit, reads ++ l.reads, (i : Int) :: l.blocks⟩, ?_, m + 1, ?_, ?_⟩
              · simp only [chksum_blocks, if_pos hcond, h512, hbno, hg, if_neg hneg, if_neg hup,
                  hnext, hl]
              · show (i : Int) :: l.blocks = blockIndices i (m + 1)
                rw [hb, blockIndices_cons]
              · intro k1 h1 h2
                by_cases he : k1 = i
                · rw [he]; exact hcond
                · exact hm k1 (by omega) (by omega)
    · right
      refine ⟨⟨ChksumExit.finished ctx, [], []⟩, ?_, 0, rfl, fun k1 h1 h2 => by omega⟩
      simp only [chksum_blocks, if_neg hcond]


theorem chksum_blocks_entry {σ : Type} (ILARG : Nat) (fs : unixfilesystem) (inumber : Int)
    (junk : Nat → BlockJunk) (sha : ShaLib σ) (inp : inode) (ctx : σ) :
    (chksum_blocks (getblock_call ILARG fs inumber junk) sha (inode_getsize inp)
        ((inode_getsize inp).toNat / DISKIMG_SECTOR_SIZE + 2) 0 ctx = none ∧
      ∃ k : Nat, (k : Int) * 512 < inode_getsize inp ∧
        getblock_call ILARG fs inumber junk (k : Int) = none) ∨
    ∃ l : ChksumLoop σ,
      chksum_blocks (getblock_call ILARG fs inumber junk) sha (inode_getsize inp)
        ((inode_getsize inp).toNat / DISKIMG_SECTOR_SIZE + 2) 0 ctx = some l ∧
      AscendingWalk (inode_getsize inp) l.blocks := by
  have hnn := inode_getsize_nonneg inp
  have hlt := inode_getsize_lt inp
  have hfuel : inode_getsize inp ≤
      ((0 + ((inode_getsize inp).toNat / 512 + 1) : Nat) : Int) * 512 := by
    push_cast
    omega
  have h512 : DISKIMG_SECTOR_SIZE = 512 := rfl
  have hz : ((0 : Nat) : Int) * 512 = 0 := rfl
  rw [h512]
  rcases chksum_blocks_walk (getblock_call ILARG fs inumber junk) sha (inode_getsize inp)
      (by omega) ((inode_getsize inp).toNat / 512 + 1) 0
      ((inode_getsize inp).toNat / 512 + 2) ctx hfuel (by omega) (by omega) with
    ⟨hnone, k, _, hk, hkn⟩ | ⟨l, hl, m, hb, hm⟩
  · left
    rw [hz] at hnone
    exact ⟨hnone, k, hk, hkn⟩
  · right
    rw [hz] at hl
    exact ⟨l, hl, ascendingWalk_of_indices (inode_getsize inp) l.blocks m hnn hb
      (fun k1 hk1 => hm k1 (Nat.zero_le k1) (by omega))⟩

theorem chksumfile_byinumber_walk {σ : Type} (sha : ShaLib σ) (ILARG IALLOC : Nat)
    (fs : unixfilesystem) (inumber : Int) (chksum : List U8) (inp0 : inode) (junk0 : Buffer)
    (junk : Nat → BlockJunk) (st : Int) (inp : inode) (reads0 : List Int)
    (hget : inode_iget fs inumber inp0 junk0 = some (st, inp, reads0)) :
    (chksumfile_byinumber sha ILARG IALLOC fs inumber chksum inp0 junk0 junk = none ∧
      ∃ k : Nat, (k : Int) * 512 < inode_getsize inp ∧
        getblock_call ILARG fs inumber junk (k : Int) = none) ∨
    ∃ res : ChksumResult,
      chksumfile_byinumber sha ILARG IALLOC fs inumber chksum inp0 junk0 junk = some res ∧
      AscendingWalk (inode_getsize inp) res.blocks := by
  have hnil := ascendingWalk_nil (inode_getsize inp) (inode_getsize_nonneg inp)
  unfold chksumfile_byinumber
  by_cases hinit : sha.init.1 = 0
  · right
    rw [if_pos hinit]
    exact ⟨_, rfl, hnil⟩
  · rw [if_neg hinit]
    simp only [hget]
    by_cases herr : st < 0
    · right
      rw [if_pos herr]
      exact ⟨_, rfl, hnil⟩
    · rw [if_neg herr]
      by_cases hfree : inp.i_mode.val &&& IALLOC = 0
      · right
        rw [if_pos hfree]
        exact ⟨_, rfl, hnil⟩
      · rw [if_neg hfree]
        rcases chksum_blocks_entry ILARG fs inumber junk sha inp sha.init.2 with
          ⟨hnone, hk⟩ | ⟨l, hl, hwalk⟩
        · left
          simp only [hnone]
          exact ⟨trivial, hk⟩
        · right
          simp only [hl]
          cases hx : l.exit with
          | getblockFailed bno => exact ⟨_, rfl, hwalk⟩
          | updateFailed => exact ⟨_, rfl, hwalk⟩
          | finished ctx =>
            by_cases hfin : (sha.final ctx chksum).1 = 0
            · simp only [if_pos hfin]
              exact ⟨_, rfl, hwalk⟩
            · simp only [if_neg hfin]
              exact ⟨_, rfl, hwalk⟩

theorem chksumfile_byinumber_error_checking_walk {σ : Type} (sha : ShaLib σ)
    (ILARG IALLOC : Nat) (fs : unixfilesystem) (inumber : Int) (chksum : List U8)
    (error_param : Int) (inp0 : inode) (junk0 : Buffer) (junk : Nat → BlockJunk) (st : Int)
    (inp : inode) (reads0 : List Int)
    (hget : inode_iget fs inumber inp0 junk0 = some (st, inp, reads0)) :
    (chksumfile_byinumber_error_checking sha ILARG IALLOC fs inumber chksum error_param inp0
        junk0 junk = none ∧
      ∃ k : Nat, (k : Int) * 512 < inode_getsize inp ∧
        getblock_call ILARG fs inumber junk (k : Int) = none) ∨
    ∃ res : ChksumResult,
      chksumfile_byinumber_error_checking sha ILARG IALLOC fs inumber chksum error_param inp0
        junk0 junk = some res ∧
      AscendingWalk (inode_getsize inp) res.blocks := by
  have hnil := ascendingWalk_nil (inode_getsize inp) (inode_getsize_nonneg inp)
  unfold chksumfile_byinumber_error_checking
  by_cases hinit : sha.init.1 = 0
  · right
    rw [if_pos hinit]
    exact ⟨_, rfl, hnil⟩
  · rw [if_neg hinit]
    simp only [hget]
    by_cases herr : st < 0
    · right
      rw [if_pos herr]
      exact ⟨_, rfl, hnil⟩
    · rw [if_neg herr]
      by_cases hfree : inp.i_mode.val &&& IALLOC = 0
      · right
        rw [if_pos hfree]
        exact ⟨_, rfl, hnil⟩
      · rw [if_neg hfree]
        rcases chksum_blocks_entry ILARG fs inumber junk sha inp sha.init.2 with
          ⟨hnone, hk⟩ | ⟨l, hl, hwalk⟩
        · left
          simp only [hnone]
          exact ⟨trivial, hk⟩
        · right
          simp only [hl]
          cases hx : l.exit with
          | getblockFailed bno => exact ⟨_, rfl, hwalk⟩
          | updateFailed => exact ⟨_, rfl, hwalk⟩
          | finished ctx =>
            by_cases hfin : (sha.final ctx chksum).1 = 0
            · simp only [if_pos hfin]
              exact ⟨_, rfl, hwalk⟩
            · simp only [if_neg hfin]
              exact ⟨_, rfl, hwalk⟩

theorem directory_findname_walk (ILARG : Nat) (fs : unixfilesystem) (name : List U8)
    (dirinumber : Int) (dirEnt : direntv6) (inp0 : inode) (junk0 : Buffer)
    (junk : Nat → BlockJunk) (st : Int) (inp : inode) (reads0 : List Int)
    (hget : inode_iget fs dirinumber inp0 junk0 = some (st, inp, reads0)) :
    (directory_findname ILARG fs name dirinumber dirEnt inp0 junk0 junk = none ∧
      ∃ k : Nat, (k : Int) * 512 < inode_getsize inp ∧
        getblock_call ILARG fs dirinumber junk (k : Int) = none) ∨
    ∃ res : FindnameResult,
      directory_findname ILARG fs name dirinumber dirEnt inp0 junk0 junk = some res ∧
      AscendingWalk (inode_getsize inp) res.blocks := by
  have hnn := inode_getsize_nonneg inp
  by_cases hst : st = 0
  · subst hst
    rcases directory_findname_spec ILARG fs name dirinumber dirEnt inp0 junk0 junk inp reads0
      hget with ⟨hnone, k, hk, hkn, _⟩ | ⟨res, hres, hspec, _⟩
    · exact Or.inl ⟨hnone, k, hk, hkn⟩
    · exact Or.inr ⟨res, hres, ascendingWalk_of_findSpec _ name _ dirEnt res hnn hspec⟩
  · right
    exact ⟨_, directory_findname_fetch_fails ILARG fs name dirinumber dirEnt inp0 junk0 junk st
      inp reads0 hget hst, ascendingWalk_nil _ hnn⟩


/-- C13. The three callers that walk the blocks of a file
(`directory_findname`, `chksumfile_byinumber`,
`chksumfile_byinumber_error_checking`) pass to `file_getblock` only indices `i`
with `0 ≤ i` and `i * 512 < size`, in ascending order from 0, `size` being the
size of the inode they fetched; so none requests index `size / 512` when `size`
is a multiple of 512, and each makes at most `ceil(size / 512)` iterations and
returns, as long as the `file_getblock` calls for those indices return. -/
theorem callers_walk_blocks_in_range {σ : Type} (sha : ShaLib σ) (ILARG IALLOC : Nat)
    (fs : unixfilesystem) (name : List U8) (inumber : Int) (dirEnt : direntv6)
    (chksum : List U8) (error_param : Int) (inp0 : inode) (junk0 : Buffer)
    (junk : Nat → BlockJunk) (st : Int) (inp : inode) (reads0 : List Int)
    (hget : inode_iget fs inumber inp0 junk0 = some (st, inp, reads0)) :
    ((∀ res : FindnameResult,
        directory_findname ILARG fs name inumber dirEnt inp0 junk0 junk = some res →
        AscendingWalk (inode_getsize inp) res.blocks) ∧
      (∀ res : ChksumResult,
        chksumfile_byinumber sha ILARG IALLOC fs inumber chksum inp0 junk0 junk = some res →
        AscendingWalk (inode_getsize inp) res.blocks) ∧
      (∀ res : ChksumResult,
        chksumfile_byinumber_error_checking sha ILARG IALLOC fs inumber chksum error_param inp0
          junk0 junk = some res →
        AscendingWalk (inode_getsize inp) res.blocks)) ∧
    ((∀ k : Nat, (k : Int) * 512 < inode_getsize inp →
        getblock_call ILARG fs inumber junk (k : Int) ≠ none) →
      (∃ res : FindnameResult,
        directory_findname ILARG fs name inumber dirEnt inp0 junk0 junk = some res) ∧
      (∃ res : ChksumResult,
        chksumfile_byinumber sha ILARG IALLOC fs inumber chksum inp0 junk0 junk = some res) ∧
      (∃ res : ChksumResult,
        chksumfile_byinumber_error_checking sha ILARG IALLOC fs inumber chksum error_param inp0
          junk0 junk = some res)) := by
  have hd := directory_findname_walk ILARG fs name inumber dirEnt inp0 junk0 junk st inp reads0
    hget
  have hc := chksumfile_byinumber_walk sha ILARG IALLOC fs inumber chksum inp0 junk0 junk st inp
    reads0 hget
  have he := chksumfile_byinumber_error_checking_walk sha ILARG IALLOC fs inumber chksum
    error_param inp0 junk0 junk st inp reads0 hget
  refine ⟨⟨?_, ?_, ?_⟩, fun hdef => ⟨?_, ?_, ?_⟩⟩
  · intro res hres
    rcases hd with ⟨hnone, _⟩ | ⟨res1, hres1, hw⟩
    · rw [hnone] at hres; cases hres
    · rw [hres1] at hres
      rw [← Option.some.inj hres]
      exact hw
  · intro res hres
    rcases hc with ⟨hnone, _⟩ | ⟨res1, hres1, hw⟩
    · rw [hnone] at hres; cases hres
    · rw [hres1] at hres
      rw [← Option.some.inj hres]
      exact hw
  · intro res hres
    rcases he with ⟨hnone, _⟩ | ⟨res1, hres1, hw⟩
    · rw [hnone] at hres; cases hres
    · rw [hres1] at hres
      rw [← Option.some.inj hres]
      exact hw
  · rcases hd with ⟨_, k, hk, hkn⟩ | ⟨res1, hres1, _⟩
    · exact absurd hkn (hdef k hk)
    · exact ⟨res1, hres1⟩
  · rcases hc with ⟨_, k, hk, hkn⟩ | ⟨res1, hres1, _⟩
    · exact absurd hkn (hdef k hk)
    · exact ⟨res1, hres1⟩
  · rcases he with ⟨_, k, hk, hkn⟩ | ⟨res1, hres1, _⟩
    · exact absurd hkn (hdef k hk)
    · exact ⟨res1, hres1⟩

set_option maxRecDepth 1000000 in
/-- C13 at inode 5 of the demo image, a file of `1024 = 2 * 512` bytes: the
checksum walk requests blocks 0 and 1 and not block 2; on directory 1 (1000
bytes) the lookup of an absent name requests blocks 0 and 1. -/
theorem callers_walk_blocks_in_range_witness :
    (inode_iget demoFs 5 zeroInode zeroBuffer =
        some (0, inodeAt (diskimg_readsector demoFs.dfd 2 zeroBuffer).2 4, [2]) ∧
      inode_getsize (inodeAt (diskimg_readsector demoFs.dfd 2 zeroBuffer).2 4) = 1024 ∧
      (chksumfile_byinumber lengthSha 4096 32768 demoFs 5 [] zeroInode zeroBuffer zeroJunk).map
        (fun r => (r.ret, r.reads, r.blocks)) = some (20, [2, 2, 52, 2, 53], [0, 1]) ∧
      (chksumfile_byinumber_error_checking lengthSha 4096 32768 demoFs 5 [] 0 zeroInode
        zeroBuffer zeroJunk).map (fun r => (r.ret, r.reads, r.blocks)) =
          some (20, [2, 2, 52, 2, 53], [0, 1]) ∧
      directory_findname 4096 demoFs (cstr "absent") 1 zeroDirent zeroInode zeroBuffer
        zeroJunk = some ⟨-1, zeroDirent, [2, 2, 50, 2, 51], [0, 1]⟩) ∧
    ((∀ res : FindnameResult,
        directory_findname 4096 demoFs (cstr "absent") 5 zeroDirent zeroInode zeroBuffer
          zeroJunk = some res →
        AscendingWalk (inode_getsize (inodeAt (diskimg_readsector demoFs.dfd 2 zeroBuffer).2 4))
          res.blocks) ∧
      (∀ res : ChksumResult,
        chksumfile_byinumber lengthSha 4096 32768 demoFs 5 [] zeroInode zeroBuffer zeroJunk =
          some res →
        AscendingWalk (inode_getsize (inodeAt (diskimg_readsector demoFs.dfd 2 zeroBuffer).2 4))
          res.blocks) ∧
      (∀ res : ChksumResult,
        chksumfile_byinumber_error_checking lengthSha 4096 32768 demoFs 5 [] 0 zeroInode
          zeroBuffer zeroJunk = some res →
        AscendingWalk (inode_getsize (inodeAt (diskimg_readsector demoFs.dfd 2 zeroBuffer).2 4))
          res.blocks)) :=
  ⟨⟨rfl, by decide, by decide, by decide, by decide⟩,
   (callers_walk_blocks_in_range lengthSha 4096 32768 demoFs (cstr "absent") 5 zeroDirent [] 0
    zeroInode zeroBuffer zeroJunk 0 (inodeAt (diskimg_readsector demoFs.dfd 2 zeroBuffer).2 4)
    [2] rfl).1⟩


/-! ## Directory lookup: error propagation -/

/-- C21. `directory_findname` returns `-1` when `inode_iget` fails for the
directory. When the fetch succeeds and `file_getblock` returns `-1` for a block
`i` of the directory while no live entry of the blocks `0..i-1` matches (the
calls for these blocks being defined), it returns `-1` with `*dirEnt` untouched,
at the first block whose call fails and without requesting a block past it,
whatever the later blocks hold. And when a live entry in block `k` matches and
the calls for the blocks before `k` succeed, it returns 0 with the first
matching entry and requests no block past that entry's, so that a failure on a
later block has no effect. -/
theorem directory_findname_propagates_failure (ILARG : Nat) (fs : unixfilesystem)
    (name : List U8) (dirinumber : Int) (dirEnt : direntv6) (inp0 : inode) (junk0 : Buffer)
    (junk : Nat → BlockJunk) :
    (∀ (st : Int) (inp : inode) (reads0 : List Int),
      inode_iget fs dirinumber inp0 junk0 = some (st, inp, reads0) → st ≠ 0 →
      directory_findname ILARG fs name dirinumber dirEnt inp0 junk0 junk =
        some ⟨-1, dirEnt, reads0, []⟩) ∧
    (∀ (inp : inode) (reads0 : List Int) (i : Nat),
      inode_iget fs dirinumber inp0 junk0 = some (0, inp, reads0) →
      (i : Int) * 512 < inode_getsize inp →
      blockFails (getblock_call ILARG fs dirinumber junk) i →
      (∀ k1 : Nat, k1 < i → getblock_call ILARG fs dirinumber junk (k1 : Int) ≠ none) →
      (∀ k1 j1 : Nat, k1 < i → ¬ liveMatch (getblock_call ILARG fs dirinumber junk) name k1 j1) →
      ∃ res : FindnameResult,
        directory_findname ILARG fs name dirinumber dirEnt inp0 junk0 junk = some res ∧
        res.ret = -1 ∧ res.dirEnt = dirEnt ∧
        ∃ k : Nat, k ≤ i ∧ blockFails (getblock_call ILARG fs dirinumber junk) k ∧
          (∀ k1 : Nat, k1 < k → blockReadable (getblock_call ILARG fs dirinumber junk) k1) ∧
          res.blocks = blockIndices 0 (k + 1)) ∧
    (∀ (inp : inode) (reads0 : List Int) (k j : Nat),
      inode_iget fs dirinumber inp0 junk0 = some (0, inp, reads0) →
      (k : Int) * 512 < inode_getsize inp →
      liveMatch (getblock_call ILARG fs dirinumber junk) name k j →
      (∀ k1 : Nat, k1 < k → blockReadable (getblock_call ILARG fs dirinumber junk) k1) →
      ∃ res : FindnameResult,
        directory_findname ILARG fs name dirinumber dirEnt inp0 junk0 junk = some res ∧
        res.ret = 0 ∧
        ∃ k0 j0 : Nat, (k0 < k ∨ (k0 = k ∧ j0 ≤ j)) ∧
          liveEntry (getblock_call ILARG fs dirinumber junk) k0 j0 res.dirEnt ∧
          strncmp name res.dirEnt.d_name MAX_COMPONENT_LENGTH = 0 ∧
          (∀ k1 j1 : Nat, (k1 < k0 ∨ (k1 = k0 ∧ j1 < j0)) →
            ¬ liveMatch (getblock_call ILARG fs dirinumber junk) name k1 j1) ∧
          res.blocks = blockIndices 0 (k0 + 1)) := by
  refine ⟨fun st inp reads0 hget hst =>
    directory_findname_fetch_fails ILARG fs name dirinumber dirEnt inp0 junk0 junk st inp reads0
      hget hst, ?_, ?_⟩
  · intro inp reads0 i hget hi hfail hdef hno
    obtain ⟨fbuf, freads, hf⟩ := hfail
    have hnotread : ¬ blockReadable (getblock_call ILARG fs dirinumber junk) i := by
      rintro ⟨len, buf, reads, hg, hne⟩
      obtain ⟨hl, _, _⟩ := getblock_unique hf hg
      exact hne hl
    rcases directory_findname_spec ILARG fs name dirinumber dirEnt inp0 junk0 junk inp reads0 hget
      with ⟨_, k, _, hkn, hrd, _⟩ | ⟨res, hres, hspec, _⟩
    · exfalso
      rcases Nat.lt_trichotomy k i with h | h | h
      · exact hdef k h hkn
      · rw [h, hf] at hkn
        cases hkn
      · exact hnotread (hrd i h)
    · refine ⟨res, hres, ?_⟩
      rcases hspec with ⟨_, k, j, _, _, hle, hstr, hrd, _, _⟩ |
        ⟨h1, hd, k, _, _, hkf, hrd, _, hb⟩ | ⟨_, _, hrd, _, _⟩
      · exfalso
        by_cases hki : k < i
        · exact hno k j hki ⟨res.dirEnt, hle, hstr⟩
        · exact hnotread (hrd i (Nat.zero_le i) (by omega))
      · refine ⟨h1, hd, k, ?_, hkf, fun k1 h => hrd k1 (Nat.zero_le k1) h, ?_⟩
        · by_contra hki
          exact hnotread (hrd i (Nat.zero_le i) (by omega))
        · rw [hb]
          rfl
      · exact absurd (hrd i (Nat.zero_le i) hi) hnotread
  · intro inp reads0 k j hget hk hm hread
    have hkread : blockReadable (getblock_call ILARG fs dirinumber junk) k := by
      obtain ⟨e, ⟨len, buf, reads, hg, hne, _, _⟩, _⟩ := hm
      exact ⟨len, buf, reads, hg, hne⟩
    have hall : ∀ k1 : Nat, k1 ≤ k → blockReadable (getblock_call ILARG fs dirinumber junk) k1 := by
      intro k1 h
      rcases Nat.lt_or_ge k1 k with h1 | h1
      · exact hread k1 h1
      · have : k1 = k := by omega
        rw [this]
        exact hkread
    rcases directory_findname_spec ILARG fs name dirinumber dirEnt inp0 junk0 junk inp reads0 hget
      with ⟨_, k', _, hkn, _, hnm⟩ | ⟨res, hres, hspec, _⟩
    · exfalso
      by_cases hle : k' ≤ k
      · obtain ⟨len, buf, reads, hg, _⟩ := hall k' hle
        rw [hkn] at hg
        cases hg
      · exact hnm k j (by omega) hm
    · refine ⟨res, hres, ?_⟩
      rcases hspec with ⟨h0, k0, j0, _, _, hle, hstr, _, hnm, hb⟩ |
        ⟨_, _, k', _, _, ⟨fbuf, freads, hf⟩, _, hnm, _⟩ | ⟨_, _, _, hnm, _⟩
      · refine ⟨h0, k0, j0, ?_, hle, hstr, fun k1 j1 h => hnm k1 j1 (Nat.zero_le k1) h, ?_⟩
        · by_contra hlt
          exact hnm k j (Nat.zero_le k) (by omega) hm
        · rw [hb]
          rfl
      · exfalso
        by_cases hle : k' ≤ k
        · obtain ⟨len, buf, reads, hg, hne⟩ := hall k' hle
          obtain ⟨hl, _, _⟩ := getblock_unique hf hg
          exact hne hl
        · exact hnm k j (Nat.zero_le k) (by omega) hm
      · exact absurd hm (hnm k j (Nat.zero_le k) hk)

set_option maxRecDepth 1000000 in
/-- C21 on the demo image with a bad sector. With sector 2 bad the fetch of
inode 1 fails and the lookup of `docs` returns `-1`. With sector 50 bad, block 0
of directory 1 fails and the lookup of `tail`, a live entry of block 1, returns
`-1` after block 0. With sector 51 bad, block 1 fails and the lookup of `docs`,
which block 0 holds, returns 0 with inumber 6 after block 0. -/
theorem directory_findname_propagates_failure_witness :
    (inode_iget (brokenFs 2) 1 zeroInode zeroBuffer = some (-1, zeroInode, [2]) ∧
      directory_findname 4096 (brokenFs 2) (cstr "docs") 1 zeroDirent zeroInode zeroBuffer
        zeroJunk = some ⟨-1, zeroDirent, [2], []⟩) ∧
    (blockFails (getblock_call 4096 (brokenFs 50) 1 zeroJunk) 0 ∧
      liveMatch (getblock_call 4096 (brokenFs 50) 1 zeroJunk) (cstr "tail") 1 1 ∧
      (∃ res : FindnameResult,
        directory_findname 4096 (brokenFs 50) (cstr "tail") 1 zeroDirent zeroInode zeroBuffer
          zeroJunk = some res ∧
        res.ret = -1 ∧ res.dirEnt = zeroDirent ∧
        ∃ k : Nat, k ≤ 0 ∧ blockFails (getblock_call 4096 (brokenFs 50) 1 zeroJunk) k ∧
          (∀ k1 : Nat, k1 < k → blockReadable (getblock_call 4096 (brokenFs 50) 1 zeroJunk) k1) ∧
          res.blocks = blockIndices 0 (k + 1)) ∧
      directory_findname 4096 (brokenFs 50) (cstr "tail") 1 zeroDirent zeroInode zeroBuffer
        zeroJunk = some ⟨-1, zeroDirent, [2, 2, 50], [0]⟩) ∧
    (blockFails (getblock_call 4096 (brokenFs 51) 1 zeroJunk) 1 ∧
      liveMatch (getblock_call 4096 (brokenFs 51) 1 zeroJunk) (cstr "docs") 0 2 ∧
      (∃ res : FindnameResult,
        directory_findname 4096 (brokenFs 51) (cstr "docs") 1 zeroDirent zeroInode zeroBuffer
          zeroJunk = some res ∧
        res.ret = 0 ∧
        ∃ k0 j0 : Nat, (k0 < 0 ∨ (k0 = 0 ∧ j0 ≤ 2)) ∧
          liveEntry (getblock_call 4096 (brokenFs 51) 1 zeroJunk) k0 j0 res.dirEnt ∧
          strncmp (cstr "docs") res.dirEnt.d_name MAX_COMPONENT_LENGTH = 0 ∧
          (∀ k1 j1 : Nat, (k1 < k0 ∨ (k1 = k0 ∧ j1 < j0)) →
            ¬ liveMatch (getblock_call 4096 (brokenFs 51) 1 zeroJunk) (cstr "docs") k1 j1) ∧
          res.blocks = blockIndices 0 (k0 + 1)) ∧
      directory_findname 4096 (brokenFs 51) (cstr "docs") 1 zeroDirent zeroInode zeroBuffer
        zeroJunk = some ⟨0, ⟨6, cstr "docs" ++ List.replicate 10 0⟩, [2, 2, 50], [0]⟩) :=
  ⟨⟨rfl, (directory_findname_propagates_failure 4096 (brokenFs 2) (cstr "docs") 1 zeroDirent
      zeroInode zeroBuffer zeroJunk).1 (-1) zeroInode [2] rfl (by decide)⟩,
   ⟨⟨zeroBuffer, [2, 50], rfl⟩,
    ⟨⟨14, cstr "tail" ++ List.replicate 10 0⟩, ⟨488, _, [2, 51], rfl, by decide, by decide,
      by decide⟩, by decide⟩,
    (directory_findname_propagates_failure 4096 (brokenFs 50) (cstr "tail") 1 zeroDirent
      zeroInode zeroBuffer zeroJunk).2.1 _ [2] 0 rfl (by decide) ⟨zeroBuffer, [2, 50], rfl⟩
      (fun k1 h => absurd h (Nat.not_lt_zero k1))
      (fun k1 _ h => absurd h (Nat.not_lt_zero k1)),
    by decide⟩,
   ⟨⟨zeroBuffer, [2, 51], rfl⟩,
    ⟨⟨6, cstr "docs" ++ List.replicate 10 0⟩, ⟨512, _, [2, 50], rfl, by decide, by decide,
      by decide⟩, by decide⟩,
    (directory_findname_propagates_failure 4096 (brokenFs 51) (cstr "docs") 1 zeroDirent
      zeroInode zeroBuffer zeroJunk).2.2 _ [2] 0 2 rfl (by decide)
      ⟨⟨6, cstr "docs" ++ List.replicate 10 0⟩, ⟨512, _, [2, 50], rfl, by decide, by decide,
        by decide⟩, by decide⟩
      (fun k1 h => absurd h (Nat.not_lt_zero k1)),
    by decide⟩⟩

/-! ## Inode fetch: determinism -/

set_option maxRecDepth 1000000 in
/-- C26 fails as stated. On the demo device cut short to 100 bytes a read, the
read of sector 2 delivers the records of inumbers 1 to 3 only. Two fetches of
inumber 5 both return 0, and the record each leaves is what its local buffer
held before the read: size 0 over a buffer of zeros, size 16777215 over a buffer
of bytes 255. -/
theorem inode_iget_short_read_differs :
    (diskimg_readsector (shortFs 100).dfd 2 zeroBuffer).1 = 100 ∧
    (inode_iget (shortFs 100) 5 zeroInode zeroBuffer).map
      (fun r => (r.1, inode_getsize r.2.1, r.2.1.i_mode.val, r.2.2)) = some (0, 0, 0, [2]) ∧
    (inode_iget (shortFs 100) 5 zeroInode (fun _ => 255)).map
      (fun r => (r.1, inode_getsize r.2.1, r.2.1.i_mode.val, r.2.2)) =
      some (0, 16777215, 65535, [2]) :=
  ⟨by decide, by decide, by decide⟩

/-- C26, amended. Two fetches of the same inumber `id ≥ 1` with `inode_iget`,
whatever the caller's structure and the local buffer hold before each of them,
read the same sector `2 + (id - 1) / 16` and return the same status, 0 or `-1`;
on `-1` each leaves `*inp` as it was. When the read of that sector, if it does
not fail, delivers at least the `32 * ((id - 1) mod 16 + 1)` bytes that reach
the end of the record's slot, both fetches leave the same record in `*inp`, the
record of that slot of the sector, and a fetch into the fetched structure leaves
it unchanged. -/
theorem inode_iget_deterministic (fs : unixfilesystem) (id : Int) (inpA inpB : inode)
    (junkA junkB : Buffer) (h1 : 1 ≤ id) (hmax : id ≤ 2147483647) :
    ∃ (st : Int) (a b : inode),
      inode_iget fs id inpA junkA = some (st, a, [2 + (id - 1) / 16]) ∧
      inode_iget fs id inpB junkB = some (st, b, [2 + (id - 1) / 16]) ∧
      (st = 0 ∨ st = -1) ∧
      (st = -1 ↔ sectorReadFails fs.dfd (2 + (id - 1) / 16)) ∧
      (st = -1 → a = inpA ∧ b = inpB) ∧
      (deliversAtLeast fs.dfd (2 + (id - 1) / 16) (32 * (((id - 1) % 16).toNat + 1)) →
        st = 0 →
        a = b ∧ inode_iget fs id a junkB = some (0, a, [2 + (id - 1) / 16]) ∧
        ∃ bs : List U8,
          fs.dfd.read (wrapInt32 ((2 + (id - 1) / 16) * (DISKIMG_SECTOR_SIZE : Int))) = some bs ∧
          a = sectorInode (bs.take DISKIMG_SECTOR_SIZE) ((id - 1) % 16).toNat) := by
  by_cases hfail : sectorReadFails fs.dfd (2 + (id - 1) / 16)
  · have hf : ∀ junk : Buffer, (diskimg_readsector fs.dfd (2 + (id - 1) / 16) junk).1 = -1 :=
      fun junk => (readsector_fails_iff fs.dfd _ junk).2 hfail
    refine ⟨-1, inpA, inpB, ?_, ?_, Or.inr rfl, ⟨fun _ => hfail, fun _ => rfl⟩,
      fun _ => ⟨rfl, rfl⟩, fun _ h => absurd h (by decide)⟩
    · rw [inode_iget_eq fs id inpA junkA h1 hmax, if_pos (hf junkA)]
    · rw [inode_iget_eq fs id inpB junkB h1 hmax, if_pos (hf junkB)]
  · have hl : fs.dfd.lseek (wrapInt32 ((2 + (id - 1) / 16) * (DISKIMG_SECTOR_SIZE : Int))) ≠ -1 :=
      fun h => hfail (Or.inl h)
    obtain ⟨bs, hr⟩ : ∃ bs : List U8,
        fs.dfd.read (wrapInt32 ((2 + (id - 1) / 16) * (DISKIMG_SECTOR_SIZE : Int))) = some bs := by
      cases hread : fs.dfd.read (wrapInt32 ((2 + (id - 1) / 16) * (DISKIMG_SECTOR_SIZE : Int)))
        with
      | none => exact absurd (Or.inr hread) hfail
      | some bs => exact ⟨bs, rfl⟩
    have hget : ∀ (inp0 : inode) (junk : Buffer), inode_iget fs id inp0 junk =
        some (0, inodeAt (store (bs.take DISKIMG_SECTOR_SIZE) junk) ((id - 1) % 16).toNat,
          [2 + (id - 1) / 16]) := by
      intro inp0 junk
      have hne : ¬ (diskimg_readsector fs.dfd (2 + (id - 1) / 16) junk).1 = -1 :=
        fun h => hfail ((readsector_fails_iff fs.dfd _ junk).1 h)
      rw [inode_iget_eq fs id inp0 junk h1 hmax, if_neg hne,
        readsector_of_read fs.dfd _ junk bs hl hr]
    refine ⟨0, _, _, hget inpA junkA, hget inpB junkB, Or.inl rfl,
      ⟨fun h => absurd h (by decide), fun h => absurd h hfail⟩,
      fun h => absurd h (by decide), fun hslot _ => ?_⟩
    have hlen := deliversAtLeast_of_read fs.dfd _ _ bs hslot hl hr
    have htake : 32 * (((id - 1) % 16).toNat + 1) ≤ (bs.take DISKIMG_SECTOR_SIZE).length := by
      rw [List.length_take]
      have h512 : DISKIMG_SECTOR_SIZE = 512 := rfl
      rw [h512]
      omega
    have hA := inodeAt_store_prefix (bs.take DISKIMG_SECTOR_SIZE) junkA _ htake
    have hB := inodeAt_store_prefix (bs.take DISKIMG_SECTOR_SIZE) junkB _ htake
    refine ⟨by rw [hA, hB], ?_, bs, hr, hA⟩
    rw [hget _ junkB, hA, hB]

set_option maxRecDepth 1000000 in
/-- The amended C26 on the demo device cut short to 100 bytes a read, at inumber
3, whose slot ends at byte 96: a fetch into zeroed locals and a fetch into a
structure that holds inode 1, over a buffer of bytes 255, both return 0 with
the same record, of size 1536. -/
theorem inode_iget_deterministic_witness :
    ((1 : Int) ≤ 3 ∧ (3 : Int) ≤ 2147483647 ∧
      deliversAtLeast (shortFs 100).dfd (2 + (3 - 1) / 16) (32 * (((3 - 1) % 16 : Int).toNat + 1)) ∧
      ¬ deliversAtLeast (shortFs 100).dfd 2 512) ∧
    (∃ (st : Int) (a b : inode),
      inode_iget (shortFs 100) 3 zeroInode zeroBuffer = some (st, a, [2 + (3 - 1) / 16]) ∧
      inode_iget (shortFs 100) 3 demoSmall (fun _ => 255) = some (st, b, [2 + (3 - 1) / 16]) ∧
      (st = 0 ∨ st = -1) ∧
      (st = -1 ↔ sectorReadFails (shortFs 100).dfd (2 + (3 - 1) / 16)) ∧
      (st = -1 → a = zeroInode ∧ b = demoSmall) ∧
      (deliversAtLeast (shortFs 100).dfd (2 + (3 - 1) / 16)
          (32 * (((3 - 1) % 16 : Int).toNat + 1)) →
        st = 0 →
        a = b ∧
        inode_iget (shortFs 100) 3 a (fun _ => 255) = some (0, a, [2 + (3 - 1) / 16]) ∧
        ∃ bs : List U8,
          (shortFs 100).dfd.read (wrapInt32 ((2 + (3 - 1) / 16) * (DISKIMG_SECTOR_SIZE : Int))) =
            some bs ∧
          a = sectorInode (bs.take DISKIMG_SECTOR_SIZE) ((3 - 1) % 16 : Int).toNat)) ∧
    (inode_iget (shortFs 100) 3 zeroInode zeroBuffer).map
      (fun r => (r.1, inode_getsize r.2.1, r.2.2)) = some (0, 1536, [2]) ∧
    (inode_iget (shortFs 100) 3 demoSmall (fun _ => 255)).map
      (fun r => (r.1, inode_getsize r.2.1, r.2.2)) = some (0, 1536, [2]) :=
  ⟨⟨by decide, by decide, by decide, by decide⟩,
   inode_iget_deterministic (shortFs 100) 3 zeroInode demoSmall zeroBuffer (fun _ => 255)
    (by decide) (by decide),
   by decide, by decide⟩

/-! ## Block-address translation: bounds of the array indices -/

set_option maxRecDepth 1000000 in
/-- C27 fails as stated. Inode 11 of the demo image has the large-file bit clear
and size 65536; index 100 passes the bounds check of `inode_indexlookup`
(`0 ≤ 100` and `100 * 512 = 51200 ≤ 65536`) and is not below 8: the code goes on
to `inp->i_addr[100]`, outside the 8-entry table, and so does `file_getblock`
for block 100 of inumber 11. -/
theorem indexlookup_small_index_past_table :
    demoWide.i_mode.val &&& 4096 = 0 ∧ inode_getsize demoWide = 65536 ∧
    ((0 : Int) ≤ 100 ∧ (100 : Int) * 512 ≤ inode_getsize demoWide) ∧
    ¬ (wrapInt32 (100 * (DISKIMG_SECTOR_SIZE : Int)) > inode_getsize demoWide ∨ (100 : Int) < 0) ∧
    ¬ ((100 : Int) < 8) ∧
    i_addr_at demoWide 100 = none ∧
    inode_indexlookup 4096 demoFs demoWide 100 zeroBuffer = none ∧
    file_getblock 4096 demoFs 11 100 zeroBuffer zeroInode zeroBuffer zeroBuffer = none :=
  ⟨by decide, by decide, by decide, by decide, by decide, by decide, by decide, rfl⟩

/-- C27 as the code has it. `inode_indexlookup` does not cap a file in small
addressing mode. For an inode with the large-file bit clear whose size is below
4096 (8 * 512), every index that passes the bounds check (`0 ≤ i` and
`i * 512 ≤ size`) is a position of the address table, `i < 8`, and the call
returns `i_addr[i]`. For an inode with the large-file bit clear whose size is
above 4096, index 8 is inside the file (`8 * 512 < size`), passes the bounds
check, and the access `i_addr[8]` is outside the table. -/
theorem indexlookup_small_table_bounds (ILARG : Nat) (fs : unixfilesystem) (inp : inode)
    (junk : Buffer) (hsmall : inp.i_mode.val &&& ILARG = 0) :
    (inode_getsize inp < 4096 → ∀ i : Int, 0 ≤ i → i * 512 ≤ inode_getsize inp →
      ¬ (wrapInt32 (i * (DISKIMG_SECTOR_SIZE : Int)) > inode_getsize inp ∨ i < 0) ∧ i < 8 ∧
      ∃ a : U16, i_addr_at inp i = some a ∧
        inode_indexlookup ILARG fs inp i junk = some ((a.val : Int), [])) ∧
    (4096 < inode_getsize inp →
      (8 : Int) * 512 < inode_getsize inp ∧
      ¬ (wrapInt32 (8 * (DISKIMG_SECTOR_SIZE : Int)) > inode_getsize inp ∨ (8 : Int) < 0) ∧
      i_addr_at inp 8 = none ∧ inode_indexlookup ILARG fs inp 8 junk = none) := by
  constructor
  · intro hcap i h0 hsz
    have h8 : i < 8 := by omega
    refine ⟨lookup_bounds_pass inp i h0 hsz, h8, _, i_addr_at_eq inp i h0 h8, ?_⟩
    unfold inode_indexlookup
    simp only [if_neg (lookup_bounds_pass inp i h0 hsz), if_pos hsmall, i_addr_at_eq inp i h0 h8]
  · intro hbig
    have hpass := lookup_bounds_pass inp 8 (by decide) (by omega)
    have hnone : i_addr_at inp 8 = none := by
      unfold i_addr_at
      rw [dif_neg (by decide)]
    refine ⟨by omega, hpass, hnone, ?_⟩
    unfold inode_indexlookup
    simp only [if_neg hpass, if_pos hsmall, hnone]

set_option maxRecDepth 1000000 in
/-- The amended C27 at the demo image: inode 1 (small, 1000 bytes) with index 1,
which is `i_addr[1] = 51`, and inode 11 (large bit clear, 65536 bytes) with
index 8. -/
theorem indexlookup_small_table_bounds_witness :
    (demoSmall.i_mode.val &&& 4096 = 0 ∧ inode_getsize demoSmall < 4096 ∧ (0 : Int) ≤ 1 ∧
      (1 : Int) * 512 ≤ inode_getsize demoSmall) ∧
    (¬ (wrapInt32 (1 * (DISKIMG_SECTOR_SIZE : Int)) > inode_getsize demoSmall ∨ (1 : Int) < 0) ∧
      (1 : Int) < 8 ∧
      ∃ a : U16, i_addr_at demoSmall 1 = some a ∧
        inode_indexlookup 4096 demoFs demoSmall 1 zeroBuffer = some ((a.val : Int), [])) ∧
    inode_indexlookup 4096 demoFs demoSmall 1 zeroBuffer = some (51, []) ∧
    (demoWide.i_mode.val &&& 4096 = 0 ∧ 4096 < inode_getsize demoWide) ∧
    ((8 : Int) * 512 < inode_getsize demoWide ∧
      ¬ (wrapInt32 (8 * (DISKIMG_SECTOR_SIZE : Int)) > inode_getsize demoWide ∨ (8 : Int) < 0) ∧
      i_addr_at demoWide 8 = none ∧ inode_indexlookup 4096 demoFs demoWide 8 zeroBuffer = none) :=
  ⟨by decide,
   (indexlookup_small_table_bounds 4096 demoFs demoSmall zeroBuffer (by decide)).1 (by decide) 1
    (by decide) (by decide),
   by decide, by decide,
   (indexlookup_small_table_bounds 4096 demoFs demoWide zeroBuffer (by decide)).2 (by decide)⟩

/-- C29. Large addressing: for an inode with the large-file bit set and an index
`i` with `0 ≤ i` and `i * 512 ≤ size`, `i` is at most 32767, the address-table
index `inode_indexlookup` computes is in `[0, 7]`, the in-block index
`i % 256` is in `[0, 255]`, and when the doubly-indirect branch is taken the
first-level index `i / 256 - 7` is in `[0, 120]`; every array access of the
call is inside its array and the call returns a value. -/
theorem indexlookup_large_indices_in_bounds (ILARG : Nat) (fs : unixfilesystem) (inp : inode)
    (i : Int) (junk : Buffer) (hlarge : inp.i_mode.val &&& ILARG ≠ 0) (h0 : 0 ≤ i)
    (hsz : i * 512 ≤ inode_getsize inp) :
    inode_getsize inp < 16777216 ∧ i ≤ 32767 ∧
    (0 ≤ (if i.tdiv BLOCKNUMS_PER_BLOCK > NUM_SGL_INDIR_BLOCKS then NUM_SGL_INDIR_BLOCKS
        else i.tdiv BLOCKNUMS_PER_BLOCK) ∧
      (if i.tdiv BLOCKNUMS_PER_BLOCK > NUM_SGL_INDIR_BLOCKS then NUM_SGL_INDIR_BLOCKS
        else i.tdiv BLOCKNUMS_PER_BLOCK) ≤ 7) ∧
    (0 ≤ i.tmod BLOCKNUMS_PER_BLOCK ∧ i.tmod BLOCKNUMS_PER_BLOCK ≤ 255) ∧
    (¬ (inode_getsize inp ≤ SINGLY_INDIRECT_BYTES ∨
        i.tdiv BLOCKNUMS_PER_BLOCK < NUM_SGL_INDIR_BLOCKS) →
      0 ≤ wrapInt32 (i.tdiv BLOCKNUMS_PER_BLOCK - NUM_SGL_INDIR_BLOCKS) ∧
      wrapInt32 (i.tdiv BLOCKNUMS_PER_BLOCK - NUM_SGL_INDIR_BLOCKS) ≤ 120) ∧
    (∃ a : U16,
      i_addr_at inp (if i.tdiv BLOCKNUMS_PER_BLOCK > NUM_SGL_INDIR_BLOCKS
        then NUM_SGL_INDIR_BLOCKS else i.tdiv BLOCKNUMS_PER_BLOCK) = some a) ∧
    (∀ buf : Buffer, ∃ e : U16, blocknum_at buf (i.tmod BLOCKNUMS_PER_BLOCK) = some e) ∧
    (¬ (inode_getsize inp ≤ SINGLY_INDIRECT_BYTES ∨
        i.tdiv BLOCKNUMS_PER_BLOCK < NUM_SGL_INDIR_BLOCKS) →
      ∀ buf : Buffer, ∃ e : U16,
        blocknum_at buf (wrapInt32 (i.tdiv BLOCKNUMS_PER_BLOCK - NUM_SGL_INDIR_BLOCKS)) = some e) ∧
    ∃ r : Int × List Int, inode_indexlookup ILARG fs inp i junk = some r := by
  have hlt := inode_getsize_lt inp
  have hi : i ≤ 32767 := by omega
  have hd : i.tdiv BLOCKNUMS_PER_BLOCK = i / 256 := Int.tdiv_eq_ediv h0 (by decide)
  have hm : i.tmod BLOCKNUMS_PER_BLOCK = i % 256 := Int.tmod_eq_emod h0 (by decide)
  have hq0 : 0 ≤ i / 256 := by omega
  have hq1 : i / 256 ≤ 127 := by omega
  have hw : wrapInt32 (i / 256 - 7) = i / 256 - 7 := wrapInt32_eq_self (by omega) (by omega)
  have hidx : 0 ≤ (if i / 256 > 7 then 7 else i / 256) ∧
      (if i / 256 > 7 then 7 else i / 256) ≤ 7 := by
    split <;> omega
  have hmod : 0 ≤ i % 256 ∧ i % 256 ≤ 255 := by omega
  have haddr := i_addr_at_eq inp (if i / 256 > 7 then 7 else i / 256) hidx.1 (by omega)
  simp only [hd, hm, NUM_SGL_INDIR_BLOCKS, SINGLY_INDIRECT_BYTES, DISKIMG_SECTOR_SIZE, hw]
  refine ⟨hlt, hi, hidx, hmod, fun h => ?_, ⟨_, haddr⟩,
    fun buf => ⟨_, blocknum_at_eq buf _ hmod.1 (by omega)⟩, fun h buf => ?_, ?_⟩
  · have h7 : ¬ (i / 256 < 7) := fun hh => h (Or.inr hh)
    omega
  · have h7 : ¬ (i / 256 < 7) := fun hh => h (Or.inr hh)
    exact ⟨_, blocknum_at_eq buf _ (by omega) (by omega)⟩
  · rw [lookup_large_eq ILARG fs inp i junk hlarge h0 hsz]
    obtain ⟨a, ha⟩ : ∃ a : U16, i_addr_at inp (if i / 256 > 7 then 7 else i / 256) = some a :=
      ⟨_, haddr⟩
    rw [ha]
    simp only []
    by_cases hf : (diskimg_readsector fs.dfd (a.val : Int) junk).1 = -1
    · rw [if_pos hf]
      exact ⟨_, rfl⟩
    · rw [if_neg hf]
      by_cases hs : inode_getsize inp ≤ 917504 ∨ i / 256 < 7
      · rw [if_pos hs, blocknum_at_eq _ _ hmod.1 (by omega)]
        exact ⟨_, rfl⟩
      · have h7 : ¬ (i / 256 < 7) := fun hh => hs (Or.inr hh)
        rw [if_neg hs, blocknum_at_eq _ (i / 256 - 7) (by omega) (by omega)]
        simp only []
        by_cases hf2 : (diskimg_readsector fs.dfd
            ((u16At (diskimg_readsector fs.dfd (a.val : Int) junk).2
              (2 * (i / 256 - 7).toNat)).val : Int)
            (diskimg_readsector fs.dfd (a.val : Int) junk).2).1 = -1
        · rw [if_pos hf2]
          exact ⟨_, rfl⟩
        · rw [if_neg hf2, blocknum_at_eq _ _ hmod.1 (by omega)]
          exact ⟨_, rfl⟩

set_option maxRecDepth 1000000 in
/-- C29 at inode 2 of the demo image (large, 6553600 bytes) and index 12799: the
address-table index is 7, the first-level index `49 - 7 = 42` and the in-block
index 255; the call reads sectors 107 and 1363 and returns 5344. -/
theorem indexlookup_large_indices_in_bounds_witness :
    (demoLarge.i_mode.val &&& 4096 ≠ 0 ∧ (0 : Int) ≤ 12799 ∧
      (12799 : Int) * 512 ≤ inode_getsize demoLarge) ∧
    (inode_getsize demoLarge < 16777216 ∧ (12799 : Int) ≤ 32767 ∧
    (0 ≤ (if (12799 : Int).tdiv BLOCKNUMS_PER_BLOCK > NUM_SGL_INDIR_BLOCKS
        then NUM_SGL_INDIR_BLOCKS else (12799 : Int).tdiv BLOCKNUMS_PER_BLOCK) ∧
      (if (12799 : Int).tdiv BLOCKNUMS_PER_BLOCK > NUM_SGL_INDIR_BLOCKS then NUM_SGL_INDIR_BLOCKS
        else (12799 : Int).tdiv BLOCKNUMS_PER_BLOCK) ≤ 7) ∧
    (0 ≤ (12799 : Int).tmod BLOCKNUMS_PER_BLOCK ∧ (12799 : Int).tmod BLOCKNUMS_PER_BLOCK ≤ 255) ∧
    (¬ (inode_getsize demoLarge ≤ SINGLY_INDIRECT_BYTES ∨
        (12799 : Int).tdiv BLOCKNUMS_PER_BLOCK < NUM_SGL_INDIR_BLOCKS) →
      0 ≤ wrapInt32 ((12799 : Int).tdiv BLOCKNUMS_PER_BLOCK - NUM_SGL_INDIR_BLOCKS) ∧
      wrapInt32 ((12799 : Int).tdiv BLOCKNUMS_PER_BLOCK - NUM_SGL_INDIR_BLOCKS) ≤ 120) ∧
    (∃ a : U16,
      i_addr_at demoLarge (if (12799 : Int).tdiv BLOCKNUMS_PER_BLOCK > NUM_SGL_INDIR_BLOCKS
        then NUM_SGL_INDIR_BLOCKS else (12799 : Int).tdiv BLOCKNUMS_PER_BLOCK) = some a) ∧
    (∀ buf : Buffer, ∃ e : U16,
      blocknum_at buf ((12799 : Int).tmod BLOCKNUMS_PER_BLOCK) = some e) ∧
    (¬ (inode_getsize demoLarge ≤ SINGLY_INDIRECT_BYTES ∨
        (12799 : Int).tdiv BLOCKNUMS_PER_BLOCK < NUM_SGL_INDIR_BLOCKS) →
      ∀ buf : Buffer, ∃ e : U16,
        blocknum_at buf
          (wrapInt32 ((12799 : Int).tdiv BLOCKNUMS_PER_BLOCK - NUM_SGL_INDIR_BLOCKS)) = some e) ∧
    ∃ r : Int × List Int, inode_indexlookup 4096 demoFs demoLarge 12799 zeroBuffer = some r) ∧
    ¬ (inode_getsize demoLarge ≤ SINGLY_INDIRECT_BYTES ∨
        (12799 : Int).tdiv BLOCKNUMS_PER_BLOCK < NUM_SGL_INDIR_BLOCKS) ∧
    wrapInt32 ((12799 : Int).tdiv BLOCKNUMS_PER_BLOCK - NUM_SGL_INDIR_BLOCKS) = 42 ∧
    inode_indexlookup 4096 demoFs demoLarge 12799 zeroBuffer = some (5344, [107, 1363]) :=
  ⟨by decide,
   indexlookup_large_indices_in_bounds 4096 demoFs demoLarge 12799 zeroBuffer (by decide)
    (by decide) (by decide),
   by decide, by decide, by decide⟩

/-! ## Short reads -/

set_option maxRecDepth 1000000 in
/-- C28 fails as stated. On the demo device cut short to 100 bytes a read, the
read of sector 2 returns 100, fewer than 512, and `inode_iget` returns 0 for
inumber 1; the read of the data sector 50 returns 100 and `file_getblock`
returns 100 for block 0 of inumber 1, not `-1`. -/
theorem short_read_not_reported :
    ((diskimg_readsector (shortFs 100).dfd 2 zeroBuffer).1 = 100 ∧
      (inode_iget (shortFs 100) 1 zeroInode zeroBuffer).map (fun r => (r.1, r.2.2)) =
        some (0, [2])) ∧
    ((diskimg_readsector (shortFs 100).dfd 50 zeroBuffer).1 = 100 ∧
      (file_getblock 4096 (shortFs 100) 1 0 zeroBuffer zeroInode zeroBuffer zeroBuffer).map
        (fun r => (r.1, r.2.2)) = some (100, [2, 50])) :=
  ⟨⟨by decide, by decide⟩, by decide, by decide⟩

/-- C28 as the code has it. Only a read that returns `-1` is an error; a byte
count below 512 is not. For an inumber `id ≥ 1`, `inode_iget` returns 0 whenever
the read of the inode's sector returns a count other than `-1` (a count `n` with
`0 ≤ n ≤ 512`), with `*inp` the record in the slot of the buffer as the read
left it; and once the inode fetch and the block lookup have succeeded,
`file_getblock` returns, whenever the read of the data sector returns a count
`n` other than `-1`, that count `n`, or `size mod 512` for the block of index
`size / 512`, which is never `-1`. -/
theorem short_read_accepted (ILARG : Nat) (fs : unixfilesystem) (id i : Int) (buf : Buffer)
    (inp0 : inode) (junkI junkL : Buffer) (h1 : 1 ≤ id) (hmax : id ≤ 2147483647) :
    (∀ n : Int, (diskimg_readsector fs.dfd (2 + (id - 1) / 16) junkI).1 = n → n ≠ -1 →
      (0 ≤ n ∧ n ≤ 512) ∧
      inode_iget fs id inp0 junkI =
        some (0, inodeAt (diskimg_readsector fs.dfd (2 + (id - 1) / 16) junkI).2
          ((id - 1) % 16).toNat, [2 + (id - 1) / 16])) ∧
    (∀ (inp : inode) (reads1 : List Int) (blockNum : Int) (reads2 : List Int) (n : Int),
      inode_iget fs id inp0 junkI = some (0, inp, reads1) →
      inode_indexlookup ILARG fs inp i junkL = some (blockNum, reads2) → blockNum ≠ -1 →
      (diskimg_readsector fs.dfd blockNum buf).1 = n → n ≠ -1 →
      (0 ≤ n ∧ n ≤ 512) ∧
      ∃ ret : Int,
        file_getblock ILARG fs id i buf inp0 junkI junkL =
          some (ret, (diskimg_readsector fs.dfd blockNum buf).2,
            reads1 ++ reads2 ++ [blockNum]) ∧
        ret = (if (inode_getsize inp).tdiv 512 = i then (inode_getsize inp).tmod 512 else n) ∧
        0 ≤ ret ∧ ret ≠ -1) := by
  constructor
  · intro n hn hne
    have hr := readsector_ret_range fs.dfd (2 + (id - 1) / 16) junkI
    rw [hn] at hr
    refine ⟨⟨hr.2.2 hne, hr.2.1⟩, ?_⟩
    rw [inode_iget_eq fs id inp0 junkI h1 hmax, hn, if_neg hne]
  · intro inp reads1 blockNum reads2 n hget hlook hb hn hne
    have hr := readsector_ret_range fs.dfd blockNum buf
    rw [hn] at hr
    have hread : (diskimg_readsector fs.dfd blockNum buf).1 ≠ -1 := by
      rw [hn]
      exact hne
    have hsz := inode_getsize_nonneg inp
    refine ⟨⟨hr.2.2 hne, hr.2.1⟩, ?_⟩
    rw [file_getblock_eq ILARG fs id i buf inp0 junkI junkL inp reads1 blockNum reads2 hget hlook
      hb hread, hn]
    by_cases hlast : (inode_getsize inp).tdiv 512 = i
    · rw [if_pos hlast, if_pos hlast]
      have hm : (inode_getsize inp).tmod 512 = inode_getsize inp % 512 :=
        Int.tmod_eq_emod hsz (by decide)
      exact ⟨_, rfl, rfl, by omega, by omega⟩
    · rw [if_neg hlast, if_neg hlast]
      exact ⟨_, rfl, rfl, hr.2.2 hne, hne⟩

set_option maxRecDepth 1000000 in
/-- The amended C28 on the demo device cut short to 100 bytes a read: the fetch
of inode 1 returns 0 after a read of 100 bytes, and `file_getblock` returns 100
for block 0 of inumber 1. -/
theorem short_read_accepted_witness :
    ((1 : Int) ≤ 1 ∧ (1 : Int) ≤ 2147483647 ∧
      (diskimg_readsector (shortFs 100).dfd (2 + (1 - 1) / 16) zeroBuffer).1 = 100 ∧
      (100 : Int) ≠ -1 ∧ (100 : Int) < 512) ∧
    (((0 : Int) ≤ 100 ∧ (100 : Int) ≤ 512) ∧
      inode_iget (shortFs 100) 1 zeroInode zeroBuffer =
        some (0, inodeAt (diskimg_readsector (shortFs 100).dfd (2 + (1 - 1) / 16) zeroBuffer).2
          ((1 - 1) % 16 : Int).toNat, [2 + (1 - 1) / 16])) ∧
    (((0 : Int) ≤ 100 ∧ (100 : Int) ≤ 512) ∧
      ∃ ret : Int,
        file_getblock 4096 (shortFs 100) 1 0 zeroBuffer zeroInode zeroBuffer zeroBuffer =
          some (ret, (diskimg_readsector (shortFs 100).dfd 50 zeroBuffer).2,
            [2] ++ [] ++ [50]) ∧
        ret = (if (inode_getsize (inodeAt (diskimg_readsector (shortFs 100).dfd 2 zeroBuffer).2
            0)).tdiv 512 = 0
          then (inode_getsize (inodeAt (diskimg_readsector (shortFs 100).dfd 2 zeroBuffer).2
            0)).tmod 512 else 100) ∧
        0 ≤ ret ∧ ret ≠ -1) :=
  ⟨⟨by decide, by decide, by decide, by decide, by decide⟩,
   (short_read_accepted 4096 (shortFs 100) 1 0 zeroBuffer zeroInode zeroBuffer zeroBuffer
    (by decide) (by decide)).1 100 (by decide) (by decide),
   (short_read_accepted 4096 (shortFs 100) 1 0 zeroBuffer zeroInode zeroBuffer zeroBuffer
    (by decide) (by decide)).2 (inodeAt (diskimg_readsector (shortFs 100).dfd 2 zeroBuffer).2 0)
    [2] 50 [] 100 rfl rfl (by decide) (by decide) (by decide)⟩

/-! ## Block-address translation: the boundary of the singly-indirect range -/

/-- C30. For an inode with the large-file bit set whose size is exactly 917504
(`7 * 256 * 512`), index 1792 passes the bounds check of `inode_indexlookup` and
is resolved through a single level: the call reads the one sector `i_addr[7]`
and returns `-1` if that read returns `-1`, otherwise entry 0 of the block the
read delivered. And for every inode with the large-file bit set and every index
`i` with `0 ≤ i`, `i * 512 ≤ size` and `i / 256 ≥ 7`, the call takes the
single-level branch only if `size = 917504` and `i = 1792`: when the read of
`i_addr[7]` does not fail, the call reads exactly one sector if and only if
`size = 917504` and `i = 1792`, and two sectors otherwise. -/
theorem indexlookup_boundary_single_level (ILARG : Nat) (fs : unixfilesystem) (inp : inode)
    (junk : Buffer) (hlarge : inp.i_mode.val &&& ILARG ≠ 0)
    (hsize : inode_getsize inp = 917504) :
    ¬ (wrapInt32 (1792 * (DISKIMG_SECTOR_SIZE : Int)) > inode_getsize inp ∨ (1792 : Int) < 0) ∧
    (sectorReadFails fs.dfd ((inp.i_addr 7).val : Int) →
      inode_indexlookup ILARG fs inp 1792 junk = some (-1, [((inp.i_addr 7).val : Int)])) ∧
    (¬ sectorReadFails fs.dfd ((inp.i_addr 7).val : Int) →
      inode_indexlookup ILARG fs inp 1792 junk =
        some (((u16At (diskimg_readsector fs.dfd ((inp.i_addr 7).val : Int) junk).2 0).val : Int),
          [((inp.i_addr 7).val : Int)])) ∧
    (∀ bs : List U8, holdsSector fs.dfd ((inp.i_addr 7).val : Int) bs →
      inode_indexlookup ILARG fs inp 1792 junk =
        some (((blockEntry bs 0).val : Int), [((inp.i_addr 7).val : Int)])) ∧
    (∀ (inp1 : inode) (i : Int) (junk1 : Buffer), inp1.i_mode.val &&& ILARG ≠ 0 → 0 ≤ i →
      i * 512 ≤ inode_getsize inp1 → 7 ≤ i / 256 →
      ((inode_getsize inp1 ≤ SINGLY_INDIRECT_BYTES ∨
          i.tdiv BLOCKNUMS_PER_BLOCK < NUM_SGL_INDIR_BLOCKS) ↔
        (inode_getsize inp1 = 917504 ∧ i = 1792)) ∧
      (¬ sectorReadFails fs.dfd ((inp1.i_addr 7).val : Int) →
        ∃ (v : Int) (reads : List Int),
          inode_indexlookup ILARG fs inp1 i junk1 = some (v, reads) ∧
          (reads.length = 1 ↔ (inode_getsize inp1 = 917504 ∧ i = 1792)) ∧
          (reads.length = 1 ∨ reads.length = 2))) := by
  have hsz : (1792 : Int) * 512 ≤ inode_getsize inp := by rw [hsize]; decide
  have heq := lookup_large_eq ILARG fs inp 1792 junk hlarge (by decide) hsz
  have hidx : (if (1792 : Int) / 256 > 7 then (7 : Int) else 1792 / 256) = 7 := by decide
  rw [hidx, i_addr_at_seven] at heq
  simp only [] at heq
  have hsingle : inode_getsize inp ≤ 917504 ∨ (1792 : Int) / 256 < 7 := Or.inl (by omega)
  have hmod : (1792 : Int) % 256 = 0 := by decide
  refine ⟨lookup_bounds_pass inp 1792 (by decide) hsz, ?_, ?_, ?_, ?_⟩
  · intro hf
    rw [heq, if_pos ((readsector_fails_iff fs.dfd _ junk).2 hf)]
  · intro hf
    have hne : ¬ (diskimg_readsector fs.dfd ((inp.i_addr 7).val : Int) junk).1 = -1 :=
      fun h => hf ((readsector_fails_iff fs.dfd _ junk).1 h)
    rw [heq, if_neg hne, if_pos hsingle, hmod, blocknum_at_eq _ 0 (by decide) (by decide)]
    rfl
  · intro bs hb
    have hr := readsector_of_holds fs.dfd _ bs junk hb
    rw [heq, hr]
    simp only [show ¬ ((512 : Int) = -1) by decide, if_false]
    rw [if_pos hsingle, hmod, blocknum_at_store bs junk 0 hb.2.2 (by decide) (by decide)]
    rfl
  · intro inp1 i junk1 hl1 h0 hs1 h7
    have hlt := inode_getsize_lt inp1
    have hd : i.tdiv BLOCKNUMS_PER_BLOCK = i / 256 := Int.tdiv_eq_ediv h0 (by decide)
    have hbranch : (inode_getsize inp1 ≤ 917504 ∨ i / 256 < 7) ↔
        (inode_getsize inp1 = 917504 ∧ i = 1792) := by
      constructor
      · rintro (h | h)
        · omega
        · omega
      · rintro ⟨h, _⟩
        exact Or.inl (by omega)
    refine ⟨?_, fun hf => ?_⟩
    · rw [hd]
      exact hbranch
    · have hne : ¬ (diskimg_readsector fs.dfd ((inp1.i_addr 7).val : Int) junk1).1 = -1 :=
        fun h => hf ((readsector_fails_iff fs.dfd _ junk1).1 h)
      have hidx1 : (if i / 256 > 7 then (7 : Int) else i / 256) = 7 := by
        split <;> omega
      have hmod1 : 0 ≤ i % 256 ∧ i % 256 < 256 := by omega
      rw [lookup_large_eq ILARG fs inp1 i junk1 hl1 h0 hs1, hidx1, i_addr_at_seven]
      simp only []
      rw [if_neg hne]
      by_cases hs : inode_getsize inp1 ≤ 917504 ∨ i / 256 < 7
      · rw [if_pos hs, blocknum_at_eq _ _ hmod1.1 hmod1.2]
        exact ⟨_, _, rfl, ⟨fun _ => hbranch.1 hs, fun _ => rfl⟩, Or.inl rfl⟩
      · have hq : i / 256 ≤ 127 := by omega
        rw [if_neg hs, blocknum_at_eq _ (i / 256 - 7) (by omega) (by omega)]
        simp only []
        have hno : ¬ (inode_getsize inp1 = 917504 ∧ i = 1792) := fun h => hs (hbranch.2 h)
        split
        · exact ⟨_, _, rfl, ⟨fun h => by simp at h, fun h => absurd h hno⟩, Or.inr rfl⟩
        · rw [blocknum_at_eq _ _ hmod1.1 hmod1.2]
          exact ⟨_, _, rfl, ⟨fun h => by simp at h, fun h => absurd h hno⟩, Or.inr rfl⟩

set_option maxRecDepth 1000000 in
/-- C30 at inode 12 of the demo image (large, 917504 bytes): index 1792 reads
sector `i_addr[7] = 107` only and returns its entry 0, which is 1321; for inode
2 (6553600 bytes) the same index goes through two levels. -/
theorem indexlookup_boundary_single_level_witness :
    (demoExact.i_mode.val &&& 4096 ≠ 0 ∧ inode_getsize demoExact = 917504 ∧
      holdsSector demoFs.dfd ((demoExact.i_addr 7).val : Int) (demoSector 107)) ∧
    (¬ (wrapInt32 (1792 * (DISKIMG_SECTOR_SIZE : Int)) > inode_getsize demoExact ∨
        (1792 : Int) < 0) ∧
    (sectorReadFails demoFs.dfd ((demoExact.i_addr 7).val : Int) →
      inode_indexlookup 4096 demoFs demoExact 1792 zeroBuffer =
        some (-1, [((demoExact.i_addr 7).val : Int)])) ∧
    (¬ sectorReadFails demoFs.dfd ((demoExact.i_addr 7).val : Int) →
      inode_indexlookup 4096 demoFs demoExact 1792 zeroBuffer =
        some (((u16At (diskimg_readsector demoFs.dfd ((demoExact.i_addr 7).val : Int)
          zeroBuffer).2 0).val : Int), [((demoExact.i_addr 7).val : Int)])) ∧
    (∀ bs : List U8, holdsSector demoFs.dfd ((demoExact.i_addr 7).val : Int) bs →
      inode_indexlookup 4096 demoFs demoExact 1792 zeroBuffer =
        some (((blockEntry bs 0).val : Int), [((demoExact.i_addr 7).val : Int)])) ∧
    (∀ (inp1 : inode) (i : Int) (junk1 : Buffer), inp1.i_mode.val &&& 4096 ≠ 0 → 0 ≤ i →
      i * 512 ≤ inode_getsize inp1 → 7 ≤ i / 256 →
      ((inode_getsize inp1 ≤ SINGLY_INDIRECT_BYTES ∨
          i.tdiv BLOCKNUMS_PER_BLOCK < NUM_SGL_INDIR_BLOCKS) ↔
        (inode_getsize inp1 = 917504 ∧ i = 1792)) ∧
      (¬ sectorReadFails demoFs.dfd ((inp1.i_addr 7).val : Int) →
        ∃ (v : Int) (reads : List Int),
          inode_indexlookup 4096 demoFs inp1 i junk1 = some (v, reads) ∧
          (reads.length = 1 ↔ (inode_getsize inp1 = 917504 ∧ i = 1792)) ∧
          (reads.length = 1 ∨ reads.length = 2)))) ∧
    inode_indexlookup 4096 demoFs demoExact 1792 zeroBuffer = some (1321, [107]) ∧
    ((blockEntry (demoSector 107) 0).val : Int) = 1321 ∧
    inode_indexlookup 4096 demoFs demoLarge 1792 zeroBuffer = some (4963, [107, 1321]) :=
  ⟨⟨by decide, by decide, by decide⟩,
   indexlookup_boundary_single_level 4096 demoFs demoExact zeroBuffer (by decide) (by decide),
   by decide, by decide, by decide⟩


/-! ## Path splitting -/

theorem splitSlash_ne_nil (s : List U8) : splitSlash s ≠ [] := by
  cases s with
  | nil => simp [splitSlash]
  | cons c cs =>
    unfold splitSlash
    split <;> simp

theorem splitSlash_length (s : List U8) : (splitSlash s).length ≤ s.length + 1 := by
  induction s with
  | nil => simp [splitSlash]
  | cons c cs ih =>
    unfold splitSlash
    split
    · simp only [List.length_cons]
      omega
    · simp only [List.length_cons, List.length_tail]
      omega

theorem strsep_of_nil (s : List U8)
    (h : s.dropWhile (fun c => !([47] : List U8).contains c) = []) :
    strsep (some s) [47] = (some s, none) := by
  show (match s.dropWhile (fun c => !([47] : List U8).contains c) with
    | [] => (some s, none)
    | _ :: rest => (some (s.takeWhile fun c => !([47] : List U8).contains c), some rest)) = _
  rw [h]

theorem strsep_of_cons (s : List U8) (x : U8) (xs : List U8)
    (h : s.dropWhile (fun c => !([47] : List U8).contains c) = x :: xs) :
    strsep (some s) [47] =
      (some (s.takeWhile fun c => !([47] : List U8).contains c), some xs) := by
  show (match s.dropWhile (fun c => !([47] : List U8).contains c) with
    | [] => (some s, none)
    | _ :: rest => (some (s.takeWhile fun c => !([47] : List U8).contains c), some rest)) = _
  rw [h]

/-- What one `strsep(&filepath, "/")` call does to a non-NULL `filepath`: it
returns the first piece of the string, and leaves `filepath` at the rest of the
string after the first `/`, or `NULL` when the string holds no `/`. -/
theorem strsep_spec (s : List U8) :
    (strsep (some s) [47] = (some ((splitSlash s).headD []), none) ∧
      splitSlash s = [(splitSlash s).headD []]) ∨
    ∃ rest : List U8, strsep (some s) [47] = (some ((splitSlash s).headD []), some rest) ∧
      splitSlash s = (splitSlash s).headD [] :: splitSlash rest := by
  induction s with
  | nil =>
    left
    exact ⟨rfl, rfl⟩
  | cons c cs ih =>
    by_cases hc : c = 47
    · right
      subst hc
      exact ⟨cs, rfl, rfl⟩
    · have hp : (!([47] : List U8).contains c) = true := by
        simp [hc]
      have hsplit : splitSlash (c :: cs) =
          (c :: (splitSlash cs).headD []) :: (splitSlash cs).tail := by
        rw [splitSlash, if_neg hc]
      have hdrop : (c :: cs).dropWhile (fun c => !([47] : List U8).contains c) =
          cs.dropWhile (fun c => !([47] : List U8).contains c) :=
        List.dropWhile_cons_of_pos hp
      have htake : (c :: cs).takeWhile (fun c => !([47] : List U8).contains c) =
          c :: cs.takeWhile (fun c => !([47] : List U8).contains c) :=
        List.takeWhile_cons_of_pos hp
      rw [hsplit]
      simp only [List.headD_cons]
      cases hd : cs.dropWhile (fun c => !([47] : List U8).contains c) with
      | nil =>
        left
        rw [strsep_of_nil (c :: cs) (hdrop.trans hd)]
        rw [strsep_of_nil cs hd] at ih
        rcases ih with ⟨h1, h2⟩ | ⟨rest, h1, _⟩
        · simp only [Prod.mk.injEq, Option.some.injEq, and_true] at h1
          rw [← h1]
          refine ⟨rfl, ?_⟩
          rw [h2]
          rfl
        · simp at h1
      | cons x xs =>
        right
        rw [strsep_of_cons (c :: cs) x xs (hdrop.trans hd), htake]
        rw [strsep_of_cons cs x xs hd] at ih
        rcases ih with ⟨h1, _⟩ | ⟨rest, h1, h2⟩
        · simp at h1
        · simp only [Prod.mk.injEq, Option.some.injEq] at h1
          refine ⟨xs, by rw [h1.1], ?_⟩
          rw [h1.2]
          rw [h2]
          rfl

theorem strcmp_nil : strcmp [] [] = 0 := by
  decide

theorem strcmp_ne_zero (t : List U8) (h : t.headD 0 ≠ 0) : strcmp t [] ≠ 0 := by
  unfold strcmp
  rw [strncmp]
  have h2 : ([] : List U8).headD 0 = 0 := rfl
  rw [h2, if_pos h]
  have hv : (t.headD 0).val ≠ 0 := fun hv => h (Fin.ext hv)
  omega

/-- The loop of `pathname_lookup` is the walk over the pieces of the string left
in `filepath`, whenever it is allowed more iterations than there are pieces. -/
theorem pathname_loop_eq_walk (ILARG : Nat) (fs : unixfilesystem) (junk : Nat → FindJunk) :
    ∀ (fuel n : Nat) (s : List U8) (d : Int), (splitSlash s).length < fuel →
      pathname_loop ILARG fs junk fuel n (some s) d =
        walkTokens ILARG fs junk (splitSlash s) n d := by
  intro fuel
  induction fuel with
  | zero =>
    intro n s d h
    omega
  | succ fuel ih =>
    intro n s d h
    have hnone : ∀ (m : Nat) (d1 : Int), 0 < fuel →
        pathname_loop ILARG fs junk fuel m none d1 = some ⟨d1, [], []⟩ := by
      intro m d1 hpos
      cases fuel with
      | zero => omega
      | succ f => rfl
    rcases strsep_spec s with ⟨h1, h2⟩ | ⟨rest, h1, h2⟩
    · rw [h2]
      unfold pathname_loop walkTokens
      rw [h1]
      simp only []
      have hf : 0 < fuel := by
        have := splitSlash_ne_nil s
        cases hs : splitSlash s with
        | nil => exact absurd hs this
        | cons a l =>
          rw [hs] at h
          simp only [List.length_cons] at h
          omega
      simp only [hnone _ _ hf, walkTokens]
    · have hlen : (splitSlash rest).length < fuel := by
        rw [h2] at h
        simp only [List.length_cons] at h
        omega
      rw [h2]
      unfold pathname_loop
      rw [walkTokens, h1]
      simp only [ih _ rest _ hlen]

/-- `pathname_lookup` is the walk over the pieces of the path after the first
one, from the root directory: the loop never runs out of iterations. -/
theorem pathname_lookup_tokens (ILARG : Nat) (fs : unixfilesystem) (pathname : List U8)
    (junk : Nat → FindJunk) :
    pathname_lookup ILARG fs pathname junk =
      walkTokens ILARG fs junk (splitSlash (pathname.take (strlen pathname))).tail 0 1 := by
  unfold pathname_lookup
  have hlen := splitSlash_length (pathname.take (strlen pathname))
  rcases strsep_spec (pathname.take (strlen pathname)) with ⟨h1, h2⟩ | ⟨rest, h1, h2⟩
  · rw [h1, h2]
    rfl
  · rw [h1, h2]
    simp only [List.tail_cons]
    apply pathname_loop_eq_walk
    rw [h2] at hlen
    simp only [List.length_cons] at hlen
    omega

theorem take_strlen_of_no_nul (p : List U8) (h : (0 : U8) ∉ p) : p.take (strlen p) = p := by
  have htw : p.takeWhile (fun c => decide (c ≠ 0)) = p := by
    rw [List.takeWhile_eq_self_iff]
    intro x hx
    have : x ≠ 0 := fun h0 => h (h0 ▸ hx)
    simpa using this
  unfold strlen
  rw [htw, List.take_length]

theorem splitSlash_component (c : List U8) (hc : (47 : U8) ∉ c) : splitSlash c = [c] := by
  induction c with
  | nil => rfl
  | cons x xs ih =>
    have hx : x ≠ 47 := fun h => hc (h ▸ List.mem_cons_self _ _)
    have hxs : (47 : U8) ∉ xs := fun h => hc (List.mem_cons_of_mem _ h)
    rw [splitSlash, if_neg hx, ih hxs]
    rfl

theorem splitSlash_component_slash (c rest : List U8) (hc : (47 : U8) ∉ c) :
    splitSlash (c ++ 47 :: rest) = c :: splitSlash rest := by
  induction c with
  | nil =>
    show splitSlash (47 :: rest) = _
    rw [splitSlash, if_pos rfl]
  | cons x xs ih =>
    have hx : x ≠ 47 := fun h => hc (h ▸ List.mem_cons_self _ _)
    have hxs : (47 : U8) ∉ xs := fun h => hc (List.mem_cons_of_mem _ h)
    show splitSlash (x :: (xs ++ 47 :: rest)) = _
    rw [splitSlash, if_neg hx, ih hxs]
    rfl

theorem joinPath_cons (c : List U8) (cs : List (List U8)) :
    joinPath (c :: cs) = 47 :: (c ++ joinPath cs) := by
  unfold joinPath
  simp [List.flatMap_cons]

theorem joinPath_append (cs ds : List (List U8)) :
    joinPath (cs ++ ds) = joinPath cs ++ joinPath ds := by
  unfold joinPath
  simp [List.flatMap_append]

theorem joinPath_no_nul (cs : List (List U8)) (h : ∀ c ∈ cs, (0 : U8) ∉ c) :
    (0 : U8) ∉ joinPath cs := by
  induction cs with
  | nil => simp [joinPath]
  | cons c cs ih =>
    rw [joinPath_cons]
    intro hmem
    rcases List.mem_cons.1 hmem with h0 | h0
    · exact absurd h0 (by decide)
    · rcases List.mem_append.1 h0 with h1 | h1
      · exact h c (List.mem_cons_self _ _) h1
      · exact ih (fun c1 hc1 => h c1 (List.mem_cons_of_mem _ hc1)) h1

/-- The pieces of `/c1/.../cn` followed by `/` and a string `s` are the empty
piece before the first `/`, the components, and the pieces of `s`. -/
theorem splitSlash_joinPath_slash (cs : List (List U8)) (s : List U8)
    (h : ∀ c ∈ cs, (47 : U8) ∉ c) :
    splitSlash (joinPath cs ++ 47 :: s) = [] :: (cs ++ splitSlash s) := by
  induction cs with
  | nil =>
    show splitSlash (47 :: s) = _
    rw [splitSlash, if_pos rfl]
    rfl
  | cons c cs ih =>
    rw [joinPath_cons]
    show splitSlash (47 :: (c ++ joinPath cs ++ 47 :: s)) = _
    rw [splitSlash, if_pos rfl]
    have hcs : ∀ c1 ∈ cs, (47 : U8) ∉ c1 := fun c1 hc1 => h c1 (List.mem_cons_of_mem _ hc1)
    have hc := h c (List.mem_cons_self _ _)
    have ih1 := ih hcs
    cases cs with
    | nil =>
      show [] :: splitSlash (c ++ [] ++ 47 :: s) = _
      rw [List.append_nil, splitSlash_component_slash c s hc]
      rfl
    | cons c1 cs1 =>
      rw [joinPath_cons] at ih1 ⊢
      have hsp : splitSlash (c1 ++ joinPath cs1 ++ 47 :: s) = c1 :: cs1 ++ splitSlash s := by
        have h47 : splitSlash (47 :: (c1 ++ joinPath cs1) ++ 47 :: s) =
            [] :: splitSlash (c1 ++ joinPath cs1 ++ 47 :: s) := by
          show splitSlash (47 :: (c1 ++ joinPath cs1 ++ 47 :: s)) = _
          rw [splitSlash, if_pos rfl]
        rw [h47] at ih1
        exact List.tail_eq_of_cons_eq ih1
      have : c ++ 47 :: (c1 ++ joinPath cs1) ++ 47 :: s =
          c ++ 47 :: (c1 ++ joinPath cs1 ++ 47 :: s) := by simp
      rw [this, splitSlash_component_slash c _ hc, hsp]
      rfl

/-- The pieces of `/c1/.../cn` after the first are `c1, ..., cn`. -/
theorem splitSlash_joinPath (cs : List (List U8)) (h : ∀ c ∈ cs, (47 : U8) ∉ c) :
    (splitSlash (joinPath cs)).tail = cs := by
  rcases List.eq_nil_or_concat cs with hnil | ⟨init, last, hcs⟩
  · rw [hnil]
    rfl
  · rw [hcs, List.concat_eq_append, joinPath_append]
    have hl : joinPath [last] = 47 :: last := by
      rw [joinPath_cons]
      simp [joinPath]
    have hinit : ∀ c ∈ init, (47 : U8) ∉ c := fun c hc =>
      h c (by rw [hcs, List.concat_eq_append]; exact List.mem_append_left _ hc)
    have hlast : (47 : U8) ∉ last :=
      h last (by rw [hcs, List.concat_eq_append]; exact List.mem_append_right _ (List.mem_singleton_self _))
    rw [hl, splitSlash_joinPath_slash init last hinit, splitSlash_component last hlast]
    rfl

/-! ## Path resolution -/

theorem strcmp_component (c : List U8) (h : isComponent c) : strcmp c [] ≠ 0 := by
  apply strcmp_ne_zero
  obtain ⟨hne, _, h0⟩ := h
  cases c with
  | nil => exact absurd rfl hne
  | cons x xs =>
    intro hx
    exact h0 (by
      have : x = 0 := hx
      rw [this]
      exact List.mem_cons_self _ _)

/-- An empty piece at the end of the path adds nothing to the walk. -/
theorem walkTokens_append_empty (ILARG : Nat) (fs : unixfilesystem) (junk : Nat → FindJunk)
    (cs : List (List U8)) :
    ∀ (n : Nat) (d : Int),
      walkTokens ILARG fs junk (cs ++ [[]]) n d = walkTokens ILARG fs junk cs n d := by
  induction cs with
  | nil =>
    intro n d
    show walkTokens ILARG fs junk [[]] n d = walkTokens ILARG fs junk [] n d
    simp [walkTokens, strcmp_nil]
  | cons t ts ih =>
    intro n d
    show walkTokens ILARG fs junk (t :: (ts ++ [[]])) n d = _
    rw [walkTokens, walkTokens]
    simp only [ih]

/-- The walk over `pre ++ rest`, when every piece of `pre` is non-empty and the
walk over `pre` ends on an inumber: it goes on over `rest` from that inumber. -/
theorem walkTokens_append (ILARG : Nat) (fs : unixfilesystem) (junk : Nat → FindJunk)
    (rest : List (List U8)) (pre : List (List U8)) :
    ∀ (n : Nat) (d : Int) (q : PathResult), (∀ t ∈ pre, strcmp t [] ≠ 0) →
      walkTokens ILARG fs junk pre n d = some q → q.ret ≠ -1 →
      walkTokens ILARG fs junk (pre ++ rest) n d =
        (walkTokens ILARG fs junk rest (n + pre.length) q.ret).map
          (fun p => ⟨p.ret, q.reads ++ p.reads, q.lookups ++ p.lookups⟩) := by
  induction pre with
  | nil =>
    intro n d q _ hq _
    rw [walkTokens] at hq
    cases hq
    simp only [List.nil_append, List.length_nil, Nat.add_zero]
    cases walkTokens ILARG fs junk rest n d <;> rfl
  | cons t ts ih =>
    intro n d q hne hq hret
    have ht : strcmp t [] ≠ 0 := hne t (List.mem_cons_self _ _)
    have hts : ∀ t1 ∈ ts, strcmp t1 [] ≠ 0 := fun t1 h1 => hne t1 (List.mem_cons_of_mem _ h1)
    show walkTokens ILARG fs junk (t :: (ts ++ rest)) n d = _
    rw [walkTokens, if_neg ht] at hq ⊢
    cases hf : directory_findname ILARG fs t d (junk n).dirEnt (junk n).inp (junk n).igetBuf
        (junk n).blocks with
    | none =>
      rw [hf] at hq
      cases hq
    | some r =>
      rw [hf] at hq
      simp only [] at hq ⊢
      by_cases hr : r.ret = -1
      · rw [if_pos hr] at hq
        cases hq
        exact absurd rfl hret
      · rw [if_neg hr] at hq ⊢
        cases hw : walkTokens ILARG fs junk ts (n + 1) (r.dirEnt.d_inumber.val : Int) with
        | none =>
          rw [hw] at hq
          cases hq
        | some p1 =>
          rw [hw] at hq
          simp only [Option.some.injEq] at hq
          have hp1 : p1.ret = q.ret := by rw [← hq]
          rw [ih (n + 1) _ p1 hts hw (by rw [hp1]; exact hret), hp1]
          have hn : n + 1 + ts.length = n + (t :: ts).length := by
            simp only [List.length_cons]
            omega
          rw [hn, ← hq]
          cases walkTokens ILARG fs junk rest (n + (t :: ts).length) p1.ret with
          | none => rfl
          | some p2 =>
            simp only [Option.map_some', List.append_assoc, List.cons_append]

/-- The walk ends on `-1` or on an inumber that is not negative. -/
theorem walkTokens_ret (ILARG : Nat) (fs : unixfilesystem) (junk : Nat → FindJunk)
    (cs : List (List U8)) :
    ∀ (n : Nat) (d : Int) (q : PathResult), 0 ≤ d →
      walkTokens ILARG fs junk cs n d = some q → q.ret = -1 ∨ 0 ≤ q.ret := by
  induction cs with
  | nil =>
    intro n d q hd hq
    rw [walkTokens] at hq
    cases hq
    exact Or.inr hd
  | cons t ts ih =>
    intro n d q hd hq
    rw [walkTokens] at hq
    by_cases ht : strcmp t [] = 0
    · rw [if_pos ht] at hq
      cases hq
      exact Or.inr hd
    · rw [if_neg ht] at hq
      cases hf : directory_findname ILARG fs t d (junk n).dirEnt (junk n).inp (junk n).igetBuf
          (junk n).blocks with
      | none =>
        rw [hf] at hq
        cases hq
      | some r =>
        rw [hf] at hq
        simp only [] at hq
        by_cases hr : r.ret = -1
        · rw [if_pos hr] at hq
          cases hq
          exact Or.inl rfl
        · rw [if_neg hr] at hq
          cases hw : walkTokens ILARG fs junk ts (n + 1) (r.dirEnt.d_inumber.val : Int) with
          | none =>
            rw [hw] at hq
            cases hq
          | some p1 =>
            rw [hw] at hq
            cases hq
            exact ih (n + 1) _ p1 (Int.ofNat_nonneg _) hw

/-- The walk over a single non-empty piece is the one directory lookup. -/
theorem walkTokens_single (ILARG : Nat) (fs : unixfilesystem) (junk : Nat → FindJunk)
    (t : List U8) (n : Nat) (d : Int) (r : FindnameResult) (ht : strcmp t [] ≠ 0)
    (hr : directory_findname ILARG fs t d (junk n).dirEnt (junk n).inp (junk n).igetBuf
      (junk n).blocks = some r) :
    walkTokens ILARG fs junk [t] n d =
      some ⟨if r.ret = -1 then -1 else (r.dirEnt.d_inumber.val : Int), r.reads, [(t, d)]⟩ := by
  rw [walkTokens, if_neg ht, hr]
  simp only []
  by_cases h : r.ret = -1
  · rw [if_pos h, if_pos h]
  · rw [if_neg h, if_neg h, walkTokens]
    simp

/-- A walk that has ended on `-1` is not resumed by the pieces that follow. -/
theorem walkTokens_fails (ILARG : Nat) (fs : unixfilesystem) (junk : Nat → FindJunk)
    (rest : List (List U8)) (pre : List (List U8)) :
    ∀ (n : Nat) (d : Int) (q : PathResult), (∀ t ∈ pre, strcmp t [] ≠ 0) → d ≠ -1 →
      walkTokens ILARG fs junk pre n d = some q → q.ret = -1 →
      walkTokens ILARG fs junk (pre ++ rest) n d = some q := by
  induction pre with
  | nil =>
    intro n d q _ hd hq hret
    rw [walkTokens] at hq
    cases hq
    exact absurd hret hd
  | cons t ts ih =>
    intro n d q hne hd hq hret
    have ht : strcmp t [] ≠ 0 := hne t (List.mem_cons_self _ _)
    have hts : ∀ t1 ∈ ts, strcmp t1 [] ≠ 0 := fun t1 h1 => hne t1 (List.mem_cons_of_mem _ h1)
    show walkTokens ILARG fs junk (t :: (ts ++ rest)) n d = _
    rw [walkTokens, if_neg ht] at hq ⊢
    cases hf : directory_findname ILARG fs t d (junk n).dirEnt (junk n).inp (junk n).igetBuf
        (junk n).blocks with
    | none =>
      rw [hf] at hq
      cases hq
    | some r =>
      rw [hf] at hq
      simp only [] at hq ⊢
      by_cases hr : r.ret = -1
      · rw [if_pos hr] at hq ⊢
        exact hq
      · rw [if_neg hr] at hq ⊢
        cases hw : walkTokens ILARG fs junk ts (n + 1) (r.dirEnt.d_inumber.val : Int) with
        | none =>
          rw [hw] at hq
          cases hq
        | some p1 =>
          rw [hw] at hq
          simp only [Option.some.injEq] at hq
          have hp1 : p1.ret = -1 := by rw [← hret, ← hq]
          have hd1 : ((r.dirEnt.d_inumber.val : Nat) : Int) ≠ -1 := by omega
          rw [ih (n + 1) _ p1 hts hd1 hw hp1]
          simp only [Option.some.injEq]
          exact hq

/-- The pieces after the first of `/c1/.../cn` followed by `suffix`, which is
empty or begins with `/`. -/
theorem splitSlash_joinPath_suffix (cs : List (List U8)) (suffix : List U8)
    (h : ∀ c ∈ cs, (47 : U8) ∉ c) (hs : suffix = [] ∨ ∃ s : List U8, suffix = 47 :: s) :
    (splitSlash (joinPath cs ++ suffix)).tail = cs ++ (splitSlash suffix).tail := by
  rcases hs with hs | ⟨s, hs⟩
  · rw [hs, List.append_nil, splitSlash_joinPath cs h]
    simp [splitSlash]
  · rw [hs, splitSlash_joinPath_slash cs s h]
    rw [splitSlash, if_pos rfl]
    rfl

/-- `pathname_lookup` of the path `/c1/.../cn` followed by `suffix` is the walk
over the components and then the pieces of `suffix`. -/
theorem pathname_lookup_join (ILARG : Nat) (fs : unixfilesystem) (junk : Nat → FindJunk)
    (cs : List (List U8)) (suffix : List U8) (h : ∀ c ∈ cs, isComponent c)
    (hs : suffix = [] ∨ ∃ s : List U8, suffix = 47 :: s) (h0 : (0 : U8) ∉ suffix) :
    pathname_lookup ILARG fs (joinPath cs ++ suffix) junk =
      walkTokens ILARG fs junk (cs ++ (splitSlash suffix).tail) 0 1 := by
  have hnul : (0 : U8) ∉ joinPath cs ++ suffix := by
    intro hm
    rcases List.mem_append.1 hm with h1 | h1
    · exact joinPath_no_nul cs (fun c hc => (h c hc).2.2) h1
    · exact h0 h1
  rw [pathname_lookup_tokens, take_strlen_of_no_nul _ hnul,
    splitSlash_joinPath_suffix cs suffix (fun c hc => (h c hc).2.1) hs]

/-- A walk makes at most one directory lookup for each piece. -/
theorem walkTokens_lookups_length (ILARG : Nat) (fs : unixfilesystem) (junk : Nat → FindJunk)
    (cs : List (List U8)) :
    ∀ (n : Nat) (d : Int) (q : PathResult),
      walkTokens ILARG fs junk cs n d = some q → q.lookups.length ≤ cs.length := by
  induction cs with
  | nil =>
    intro n d q hq
    rw [walkTokens] at hq
    cases hq
    exact Nat.le_refl _
  | cons t ts ih =>
    intro n d q hq
    rw [walkTokens] at hq
    by_cases ht : strcmp t [] = 0
    · rw [if_pos ht] at hq
      cases hq
      exact Nat.zero_le _
    · rw [if_neg ht] at hq
      cases hf : directory_findname ILARG fs t d (junk n).dirEnt (junk n).inp (junk n).igetBuf
          (junk n).blocks with
      | none =>
        rw [hf] at hq
        cases hq
      | some r =>
        rw [hf] at hq
        simp only [] at hq
        by_cases hr : r.ret = -1
        · rw [if_pos hr] at hq
          cases hq
          simp
        · rw [if_neg hr] at hq
          cases hw : walkTokens ILARG fs junk ts (n + 1) (r.dirEnt.d_inumber.val : Int) with
          | none =>
            rw [hw] at hq
            cases hq
          | some p1 =>
            rw [hw] at hq
            cases hq
            have := ih (n + 1) _ p1 hw
            simp only [List.length_cons]
            omega

/-- A directory lookup returns `-1` when the fetch of the directory's inode
succeeds, the calls for the blocks of the directory are defined and no live
entry of these blocks matches the name. -/
theorem directory_findname_absent (ILARG : Nat) (fs : unixfilesystem) (name : List U8)
    (dirinumber : Int) (dirEnt : direntv6) (inp0 : inode) (junk0 : Buffer)
    (junk : Nat → BlockJunk) (inp : inode) (reads0 : List Int)
    (hget : inode_iget fs dirinumber inp0 junk0 = some (0, inp, reads0))
    (hdef : ∀ k : Nat, (k : Int) * 512 < inode_getsize inp →
      getblock_call ILARG fs dirinumber junk (k : Int) ≠ none)
    (hno : ∀ k j : Nat, (k : Int) * 512 < inode_getsize inp →
      ¬ liveMatch (getblock_call ILARG fs dirinumber junk) name k j) :
    ∃ res : FindnameResult,
      directory_findname ILARG fs name dirinumber dirEnt inp0 junk0 junk = some res ∧
      res.ret = -1 := by
  rcases directory_findname_spec ILARG fs name dirinumber dirEnt inp0 junk0 junk inp reads0 hget
    with ⟨_, k, hk, hkn, _, _⟩ | ⟨res, hres, hspec, _⟩
  · exact absurd hkn (hdef k hk)
  · refine ⟨res, hres, ?_⟩
    rcases hspec with ⟨_, k, j, _, hks, hle, hstr, _, _, _⟩ | ⟨h1, _⟩ | ⟨h1, _⟩
    · exact absurd ⟨res.dirEnt, hle, hstr⟩ (hno k j hks)
    · exact h1
    · exact h1

/-- C22. For every file system, `pathname_lookup("/")` returns the root inumber
1; it makes no call of `directory_findname` and reads no sector. The bytes that
follow the terminating NUL of the argument play no part. -/
theorem pathname_lookup_root (ILARG : Nat) (fs : unixfilesystem) (junk : Nat → FindJunk)
    (after : List U8) :
    pathname_lookup ILARG fs (cstr "/") junk = some ⟨ROOT_DIR_INUMBER, [], []⟩ ∧
    ROOT_DIR_INUMBER = 1 ∧
    pathname_lookup ILARG fs (cstr "/" ++ 0 :: after) junk = some ⟨1, [], []⟩ :=
  ⟨rfl, rfl, rfl⟩

/-- C23. For every path `P = /c1/.../cn` whose components are non-empty and hold
neither `/` nor NUL, `pathname_lookup` of `P` followed by `/` gives what
`pathname_lookup(P)` gives: the same return value, `-1` included, after the
same directory lookups and the same sector reads, which are the lookups of the
walk over `c1, ..., cn` and at most `n` in number. -/
theorem pathname_lookup_trailing_slash (ILARG : Nat) (fs : unixfilesystem)
    (junk : Nat → FindJunk) (cs : List (List U8)) (h : ∀ c ∈ cs, isComponent c) :
    pathname_lookup ILARG fs (joinPath cs ++ [47]) junk =
      pathname_lookup ILARG fs (joinPath cs) junk ∧
    pathname_lookup ILARG fs (joinPath cs) junk = walkTokens ILARG fs junk cs 0 1 ∧
    (∀ p : PathResult, pathname_lookup ILARG fs (joinPath cs ++ [47]) junk = some p →
      p.lookups.length ≤ cs.length) := by
  have h1 : pathname_lookup ILARG fs (joinPath cs ++ [47]) junk =
      walkTokens ILARG fs junk cs 0 1 := by
    rw [pathname_lookup_join ILARG fs junk cs [47] h (Or.inr ⟨[], rfl⟩) (by decide)]
    exact walkTokens_append_empty ILARG fs junk cs 0 1
  have h2 : pathname_lookup ILARG fs (joinPath cs) junk = walkTokens ILARG fs junk cs 0 1 := by
    have := pathname_lookup_join ILARG fs junk cs [] h (Or.inl rfl) (by decide)
    rw [List.append_nil] at this
    rw [this]
    simp [splitSlash]
  refine ⟨by rw [h1, h2], h2, fun p hp => ?_⟩
  rw [h1] at hp
  exact walkTokens_lookups_length ILARG fs junk cs 0 1 p hp

set_option maxRecDepth 1000000 in
/-- C23 on the demo image: `/docs/readme/` resolves to inumber 9 as
`/docs/readme` does, after the same two lookups, and `/totallybogus/` gives `-1`
as `/totallybogus` does. -/
theorem pathname_lookup_trailing_slash_witness :
    ((∀ c ∈ [cstr "docs", cstr "readme"], isComponent c) ∧
      joinPath [cstr "docs", cstr "readme"] = cstr "/docs/readme" ∧
      joinPath [cstr "docs", cstr "readme"] ++ [47] = cstr "/docs/readme/") ∧
    (pathname_lookup 4096 demoFs (joinPath [cstr "docs", cstr "readme"] ++ [47]) zeroFindJunk =
      pathname_lookup 4096 demoFs (joinPath [cstr "docs", cstr "readme"]) zeroFindJunk ∧
    pathname_lookup 4096 demoFs (joinPath [cstr "docs", cstr "readme"]) zeroFindJunk =
      walkTokens 4096 demoFs zeroFindJunk [cstr "docs", cstr "readme"] 0 1 ∧
    (∀ p : PathResult,
      pathname_lookup 4096 demoFs (joinPath [cstr "docs", cstr "readme"] ++ [47]) zeroFindJunk =
        some p → p.lookups.length ≤ [cstr "docs", cstr "readme"].length)) ∧
    pathname_lookup 4096 demoFs (cstr "/docs/readme/") zeroFindJunk =
      some ⟨9, [2, 2, 50, 2, 2, 56], [(cstr "docs", 1), (cstr "readme", 6)]⟩ ∧
    pathname_lookup 4096 demoFs (cstr "/totallybogus/") zeroFindJunk =
      some ⟨-1, [2, 2, 50, 2, 51], [(cstr "totallybogus", 1)]⟩ ∧
    pathname_lookup 4096 demoFs (cstr "/totallybogus") zeroFindJunk =
      some ⟨-1, [2, 2, 50, 2, 51], [(cstr "totallybogus", 1)]⟩ :=
  ⟨⟨by decide, by decide, by decide⟩,
   pathname_lookup_trailing_slash 4096 demoFs zeroFindJunk [cstr "docs", cstr "readme"]
    (by decide),
   by decide, by decide, by decide⟩

/-- C24. `pathname_lookup` returns `-1` as soon as a directory lookup fails, not
the inumber reached so far. When the path `/c1/.../ck` resolves to an inumber
`d` and `directory_findname(t, d)` returns `-1`, every path that goes on with
the component `t` (and then ends, or continues after a `/`) gives `-1`, with no
lookup and no sector read after the failing one; and a path that gives `-1`
gives `-1` however it is continued. In particular, for a component `x` that
matches no live entry of the root directory (the calls for its blocks being
defined when the fetch of inode 1 succeeds), `pathname_lookup` of `/` followed
by `x` returns `-1` after the one lookup of `x` in directory 1. -/
theorem pathname_lookup_fails_at_component (ILARG : Nat) (fs : unixfilesystem)
    (junk : Nat → FindJunk) :
    (∀ (pre : List (List U8)) (t suffix : List U8) (q : PathResult) (r : FindnameResult),
      (∀ c ∈ pre, isComponent c) → isComponent t →
      (suffix = [] ∨ ∃ s : List U8, suffix = 47 :: s) → (0 : U8) ∉ suffix →
      pathname_lookup ILARG fs (joinPath pre) junk = some q → q.ret ≠ -1 →
      directory_findname ILARG fs t q.ret (junk pre.length).dirEnt (junk pre.length).inp
        (junk pre.length).igetBuf (junk pre.length).blocks = some r → r.ret = -1 →
      pathname_lookup ILARG fs (joinPath (pre ++ [t]) ++ suffix) junk =
        some ⟨-1, q.reads ++ r.reads, q.lookups ++ [(t, q.ret)]⟩) ∧
    (∀ (cs : List (List U8)) (suffix : List U8) (q : PathResult),
      (∀ c ∈ cs, isComponent c) →
      (suffix = [] ∨ ∃ s : List U8, suffix = 47 :: s) → (0 : U8) ∉ suffix →
      pathname_lookup ILARG fs (joinPath cs) junk = some q → q.ret = -1 →
      pathname_lookup ILARG fs (joinPath cs ++ suffix) junk = some q) ∧
    (∀ x : List U8, isComponent x →
      (∀ (inp : inode) (reads0 : List Int),
        inode_iget fs 1 (junk 0).inp (junk 0).igetBuf = some (0, inp, reads0) →
        (∀ k : Nat, (k : Int) * 512 < inode_getsize inp →
          getblock_call ILARG fs 1 (junk 0).blocks (k : Int) ≠ none) ∧
        (∀ k j : Nat, (k : Int) * 512 < inode_getsize inp →
          ¬ liveMatch (getblock_call ILARG fs 1 (junk 0).blocks) x k j)) →
      ∃ p : PathResult, pathname_lookup ILARG fs (47 :: x) junk = some p ∧ p.ret = -1 ∧
        p.lookups = [(x, 1)]) := by
  have hjoin : ∀ cs : List (List U8), (∀ c ∈ cs, isComponent c) →
      pathname_lookup ILARG fs (joinPath cs) junk = walkTokens ILARG fs junk cs 0 1 := by
    intro cs h
    have := pathname_lookup_join ILARG fs junk cs [] h (Or.inl rfl) (by decide)
    rw [List.append_nil] at this
    rw [this]
    simp [splitSlash]
  have hcmp : ∀ cs : List (List U8), (∀ c ∈ cs, isComponent c) →
      ∀ t ∈ cs, strcmp t [] ≠ 0 := fun cs h t ht => strcmp_component t (h t ht)
  refine ⟨?_, ?_, ?_⟩
  · intro pre t suffix q r hpre ht hs h0 hq hne hr hret
    have hall : ∀ c ∈ pre ++ [t], isComponent c := by
      intro c hc
      rcases List.mem_append.1 hc with h1 | h1
      · exact hpre c h1
      · rw [List.mem_singleton.1 h1]
        exact ht
    rw [hjoin pre hpre] at hq
    rw [pathname_lookup_join ILARG fs junk (pre ++ [t]) suffix hall hs h0, List.append_assoc,
      walkTokens_append ILARG fs junk _ pre 0 1 q (hcmp pre hpre) hq hne]
    simp only [Nat.zero_add, List.singleton_append]
    rw [walkTokens, if_neg (strcmp_component t ht), hr]
    simp only [if_pos hret, Option.map_some']
  · intro cs suffix q hcs hs h0 hq hret
    rw [hjoin cs hcs] at hq
    rw [pathname_lookup_join ILARG fs junk cs suffix hcs hs h0]
    exact walkTokens_fails ILARG fs junk _ cs 0 1 q (hcmp cs hcs) (by decide) hq hret
  · intro x hx hroot
    obtain ⟨res, hres, hret⟩ : ∃ res : FindnameResult,
        directory_findname ILARG fs x 1 (junk 0).dirEnt (junk 0).inp (junk 0).igetBuf
          (junk 0).blocks = some res ∧ res.ret = -1 := by
      have hget := inode_iget_eq fs 1 (junk 0).inp (junk 0).igetBuf (by decide) (by decide)
      by_cases hf : (diskimg_readsector fs.dfd (2 + (1 - 1) / 16) (junk 0).igetBuf).1 = -1
      · rw [if_pos hf] at hget
        exact ⟨_, directory_findname_fetch_fails ILARG fs x 1 (junk 0).dirEnt (junk 0).inp
          (junk 0).igetBuf (junk 0).blocks (-1) _ _ hget (by decide), rfl⟩
      · rw [if_neg hf] at hget
        obtain ⟨hdef, hno⟩ := hroot _ _ hget
        exact directory_findname_absent ILARG fs x 1 (junk 0).dirEnt (junk 0).inp
          (junk 0).igetBuf (junk 0).blocks _ _ hget hdef hno
    have hp : (47 : U8) :: x = joinPath [x] := by
      rw [joinPath_cons]
      simp [joinPath]
    have hall : ∀ c ∈ [x], isComponent c := by
      intro c hc
      rw [List.mem_singleton.1 hc]
      exact hx
    rw [hp, hjoin [x] hall,
      walkTokens_single ILARG fs junk x 0 1 res (strcmp_component x hx) hres, if_pos hret]
    exact ⟨_, rfl, rfl, rfl⟩

/-- C25. Path resolution composes directory lookups from left to right, starting
at inumber 1: the empty path resolves to 1, and when the path `P`, empty or of
the form `/c1/.../cn` with non-empty components free of `/`, resolves to
`d ≥ 0`, the path `P` followed by `/` and a component `c` resolves to the
`d_inumber` of the entry `directory_findname(c, d)` returns, or to `-1` when
that lookup returns `-1`; its lookups and sector reads are those of `P` followed
by those of that one call. -/
theorem pathname_lookup_composes (ILARG : Nat) (fs : unixfilesystem) (junk : Nat → FindJunk)
    (cs : List (List U8)) (c : List U8) (q : PathResult) (r : FindnameResult)
    (hcs : ∀ c1 ∈ cs, isComponent c1) (hc : isComponent c)
    (hq : pathname_lookup ILARG fs (joinPath cs) junk = some q) (hd : 0 ≤ q.ret)
    (hr : directory_findname ILARG fs c q.ret (junk cs.length).dirEnt (junk cs.length).inp
      (junk cs.length).igetBuf (junk cs.length).blocks = some r) :
    pathname_lookup ILARG fs [] junk = some ⟨1, [], []⟩ ∧
    pathname_lookup ILARG fs (joinPath cs ++ 47 :: c) junk =
      some ⟨if r.ret = -1 then -1 else (r.dirEnt.d_inumber.val : Int), q.reads ++ r.reads,
        q.lookups ++ [(c, q.ret)]⟩ := by
  refine ⟨rfl, ?_⟩
  have hjoin : pathname_lookup ILARG fs (joinPath cs) junk = walkTokens ILARG fs junk cs 0 1 := by
    have := pathname_lookup_join ILARG fs junk cs [] hcs (Or.inl rfl) (by decide)
    rw [List.append_nil] at this
    rw [this]
    simp [splitSlash]
  rw [hjoin] at hq
  have hall : ∀ c1 ∈ cs ++ [c], isComponent c1 := by
    intro c1 h1
    rcases List.mem_append.1 h1 with h2 | h2
    · exact hcs c1 h2
    · rw [List.mem_singleton.1 h2]
      exact hc
  have hp : joinPath cs ++ 47 :: c = joinPath (cs ++ [c]) ++ [] := by
    rw [joinPath_append, List.append_nil, joinPath_cons]
    simp [joinPath]
  have hlook := pathname_lookup_join ILARG fs junk (cs ++ [c]) [] hall (Or.inl rfl) (by decide)
  rw [hp, hlook]
  have htail : (splitSlash ([] : List U8)).tail = [] := rfl
  rw [htail, List.append_nil,
    walkTokens_append ILARG fs junk [c] cs 0 1 q (fun t ht => strcmp_component t (hcs t ht)) hq
      (by omega)]
  simp only [Nat.zero_add]
  rw [walkTokens_single ILARG fs junk c cs.length q.ret r (strcmp_component c hc) hr]
  rfl


set_option maxRecDepth 1000000 in
theorem demoRoot_no_bogus (k j : Nat)
    (hk : (k : Int) * 512 < inode_getsize demoRootFetched) :
    ¬ liveMatch (getblock_call 4096 demoFs 1 zeroJunk) (cstr "totallybogus") k j := by
  rintro ⟨e, ⟨len, buf, reads, hg, _, hj, he⟩, hstr⟩
  rw [demoRoot_fetch.2] at hk
  have hcases : k = 0 ∨ k = 1 := by omega
  have h0 : ∀ j0 : Nat, j0 < 32 →
      strncmp (cstr "totallybogus")
        (direntAt (diskimg_readsector demoFs.dfd 50 zeroBuffer).2 j0).d_name
        MAX_COMPONENT_LENGTH ≠ 0 := by
    decide
  have h1 : ∀ j0 : Nat, j0 < 30 →
      strncmp (cstr "totallybogus")
        (direntAt (diskimg_readsector demoFs.dfd 51 zeroBuffer).2 j0).d_name
        MAX_COMPONENT_LENGTH ≠ 0 := by
    decide
  rcases hcases with h | h
  · rw [h] at hg
    obtain ⟨hl, hb, _⟩ := getblock_unique demoRoot_block0 hg
    rw [hl] at hj
    rw [he, hb] at hstr
    exact h0 j (by omega) hstr
  · rw [h] at hg
    obtain ⟨hl, hb, _⟩ := getblock_unique demoRoot_block1 hg
    rw [hl] at hj
    rw [he, hb] at hstr
    exact h1 j (by omega) hstr

set_option maxRecDepth 1000000 in
/-- C24 on the demo image: `/docs` resolves to 6 and directory 6 holds no
`nothere`, so `/docs/nothere/readme` gives `-1` after the two lookups and not
6, although directory 6 holds `readme`; and `totallybogus` matches no live entry
of the root directory, so `/totallybogus` gives `-1`. -/
theorem pathname_lookup_fails_at_component_witness :
    (((∀ c ∈ [cstr "docs"], isComponent c) ∧ isComponent (cstr "nothere") ∧
        (0 : U8) ∉ cstr "/readme" ∧
        pathname_lookup 4096 demoFs (joinPath [cstr "docs"]) zeroFindJunk =
          some ⟨6, [2, 2, 50], [(cstr "docs", 1)]⟩ ∧
        directory_findname 4096 demoFs (cstr "nothere") 6 zeroDirent zeroInode zeroBuffer
          zeroJunk = some ⟨-1, zeroDirent, [2, 2, 56], [0]⟩) ∧
      joinPath ([cstr "docs"] ++ [cstr "nothere"]) ++ cstr "/readme" =
        cstr "/docs/nothere/readme" ∧
      pathname_lookup 4096 demoFs (joinPath ([cstr "docs"] ++ [cstr "nothere"]) ++ cstr "/readme")
        zeroFindJunk =
        some ⟨-1, [2, 2, 50] ++ [2, 2, 56], [(cstr "docs", 1)] ++ [(cstr "nothere", 6)]⟩) ∧
    ((isComponent (cstr "totallybogus") ∧
        inode_iget demoFs 1 zeroInode zeroBuffer = some (0, demoRootFetched, [2])) ∧
      (∃ p : PathResult,
        pathname_lookup 4096 demoFs (47 :: cstr "totallybogus") zeroFindJunk = some p ∧
        p.ret = -1 ∧ p.lookups = [(cstr "totallybogus", 1)]) ∧
      (47 : U8) :: cstr "totallybogus" = cstr "/totallybogus") :=
  ⟨⟨⟨by decide, by decide, by decide, by decide, by decide⟩, by decide,
    (pathname_lookup_fails_at_component 4096 demoFs zeroFindJunk).1 [cstr "docs"]
      (cstr "nothere") (cstr "/readme") ⟨6, [2, 2, 50], [(cstr "docs", 1)]⟩
      ⟨-1, zeroDirent, [2, 2, 56], [0]⟩ (by decide) (by decide)
      (Or.inr ⟨cstr "readme", by decide⟩) (by decide) (by decide) (by decide) (by decide) rfl⟩,
   ⟨by decide, demoRoot_fetch.1⟩,
   (pathname_lookup_fails_at_component 4096 demoFs zeroFindJunk).2.2 (cstr "totallybogus")
      (by decide)
      (fun inp reads0 hget => by
        have hroot : inode_iget demoFs 1 zeroInode zeroBuffer = some (0, inp, reads0) := hget
        rw [demoRoot_fetch.1] at hroot
        simp only [Option.some.injEq, Prod.mk.injEq, true_and] at hroot
        rw [← hroot.1]
        refine ⟨fun k hk h => ?_, demoRoot_no_bogus⟩
        obtain ⟨len, buf, reads, hg, _⟩ := demoRoot_readable k hk
        have hn : getblock_call 4096 demoFs 1 zeroJunk (k : Int) = none := h
        rw [hn] at hg
        cases hg),
   by decide⟩

set_option maxRecDepth 1000000 in
/-- C25 on the demo image: the root directory holds `docs` with inumber 6 and
directory 6 holds `readme` with inumber 9; `/docs` resolves to 6 and
`/docs/readme` to 9. -/
theorem pathname_lookup_composes_witness :
    ((∀ c1 ∈ [cstr "docs"], isComponent c1) ∧ isComponent (cstr "readme") ∧
      pathname_lookup 4096 demoFs (joinPath [cstr "docs"]) zeroFindJunk =
        some ⟨6, [2, 2, 50], [(cstr "docs", 1)]⟩ ∧
      directory_findname 4096 demoFs (cstr "readme") 6 zeroDirent zeroInode zeroBuffer
        zeroJunk = some ⟨0, ⟨9, cstr "readme" ++ List.replicate 8 0⟩, [2, 2, 56], [0]⟩ ∧
      joinPath [cstr "docs"] ++ 47 :: cstr "readme" = cstr "/docs/readme") ∧
    (pathname_lookup 4096 demoFs [] zeroFindJunk = some ⟨1, [], []⟩ ∧
      pathname_lookup 4096 demoFs (joinPath [cstr "docs"] ++ 47 :: cstr "readme") zeroFindJunk =
        some ⟨if (0 : Int) = -1 then -1 else (((9 : U16).val : Nat) : Int),
          [2, 2, 50] ++ [2, 2, 56], [(cstr "docs", 1)] ++ [(cstr "readme", 6)]⟩) ∧
    (if (0 : Int) = -1 then (-1 : Int) else (((9 : U16).val : Nat) : Int)) = 9 :=
  ⟨⟨by decide, by decide, by decide, by decide, by decide⟩,
   pathname_lookup_composes 4096 demoFs zeroFindJunk [cstr "docs"] (cstr "readme")
    ⟨6, [2, 2, 50], [(cstr "docs", 1)]⟩
    ⟨0, ⟨9, cstr "readme" ++ List.replicate 8 0⟩, [2, 2, 56], [0]⟩ (by decide) (by decide)
    (by decide) (by decide) (by decide),
   by decide⟩


/-! ## The byte count of a file -/

theorem sum_map_range_const (f : Nat → Int) (c : Int) :
    ∀ n : Nat, (∀ k : Nat, k < n → f k = c) → ((List.range n).map f).sum = c * (n : Int) := by
  intro n
  induction n with
  | zero =>
    intro _
    simp
  | succ n ih =>
    intro h
    rw [List.range_succ, List.map_append, List.sum_append, ih (fun k hk => h k (by omega)),
      List.map_singleton, List.sum_singleton, h n (by omega)]
    push_cast
    ring

/-- The block lengths of the specification add up to the size of the file. -/
theorem blockLength_sum (size : Int) (h0 : 0 ≤ size) :
    ((List.range (blockCount size)).map (blockLength size)).sum = size := by
  cases hm : blockCount size with
  | zero =>
    unfold blockCount at hm
    simp only [List.range_zero, List.map_nil, List.sum_nil]
    omega
  | succ n =>
    have hfirst : ∀ k : Nat, k < n → blockLength size k = 512 := by
      intro k hk
      unfold blockLength
      rw [hm, if_pos (by omega)]
    have hlast : blockLength size n = if size % 512 = 0 then 512 else size % 512 := by
      unfold blockLength
      rw [hm, if_neg (by omega)]
    rw [List.range_succ, List.map_append, List.sum_append, sum_map_range_const _ 512 n hfirst,
      List.map_singleton, List.sum_singleton, hlast]
    unfold blockCount at hm
    split <;> omega

/-- The value of one `file_getblock` call on a block of the file that resolves
and whose sector read returns 512 bytes. -/
theorem getblock_call_value (ILARG : Nat) (fs : unixfilesystem) (inumber : Int)
    (junk : Nat → BlockJunk) (inp : inode) (reads1 : List Int) (k : Nat) (b : Int)
    (reads2 : List Int) (hk : k < blockCount (inode_getsize inp))
    (hget : inode_iget fs inumber (junk k).inp (junk k).igetBuf = some (0, inp, reads1))
    (hlook : inode_indexlookup ILARG fs inp (k : Int) (junk k).lookupBuf = some (b, reads2))
    (hb : b ≠ -1) (hread : (diskimg_readsector fs.dfd b (junk k).buf).1 = 512) :
    getblock_call ILARG fs inumber junk (k : Int) =
      some (blockLength (inode_getsize inp) k, (diskimg_readsector fs.dfd b (junk k).buf).2,
        reads1 ++ reads2 ++ [b]) := by
  have hsz := inode_getsize_nonneg inp
  have hne : (diskimg_readsector fs.dfd b (junk k).buf).1 ≠ -1 := by
    rw [hread]
    decide
  have hd : (inode_getsize inp).tdiv 512 = inode_getsize inp / 512 :=
    Int.tdiv_eq_ediv hsz (by decide)
  have hm : (inode_getsize inp).tmod 512 = inode_getsize inp % 512 :=
    Int.tmod_eq_emod hsz (by decide)
  unfold getblock_call
  simp only [Int.toNat_ofNat]
  rw [file_getblock_eq ILARG fs inumber (k : Int) (junk k).buf (junk k).inp (junk k).igetBuf
    (junk k).lookupBuf inp reads1 b reads2 hget hlook hb hne, hd, hm, hread]
  unfold blockLength
  unfold blockCount at hk ⊢
  by_cases hlast : inode_getsize inp / 512 = (k : Int)
  · rw [if_pos hlast, if_neg (by omega), if_neg (by omega)]
  · rw [if_neg hlast]
    by_cases hk1 : k + 1 < ((inode_getsize inp + 511) / 512).toNat
    · rw [if_pos hk1]
    · rw [if_neg hk1, if_pos (by omega)]

/-- The loop over the blocks of the checksum functions, when every call for a
block of the file returns a count that is not negative and every `SHA1_Update`
succeeds: it runs to the end of the file and the context it ends with is the
fold of `SHA1_Update` over the byte runs of the blocks, in order. -/
theorem chksum_blocks_all {σ : Type} (getblock : Int → Option (Int × Buffer × List Int))
    (sha : ShaLib σ) (size : Int) (hsize : size ≤ 16777215)
    (hall : ∀ k : Nat, k < blockCount size →
      ∃ (len : Int) (buf : Buffer) (reads : List Int),
        getblock (k : Int) = some (len, buf, reads) ∧ 0 ≤ len)
    (hup : ∀ (ctx : σ) (bytes : List U8), (sha.update ctx bytes).1 ≠ 0) :
    ∀ (n i fuel : Nat) (ctx : σ), i + n = blockCount size → n < fuel →
      ∃ l : ChksumLoop σ,
        chksum_blocks getblock sha size fuel ((i : Int) * 512) ctx = some l ∧
        l.exit = ChksumExit.finished
          (shaFold sha ctx ((List.range' i n).map (hashedRun getblock))) ∧
        l.blocks = blockIndices i n := by
  have h512 : ((DISKIMG_SECTOR_SIZE : Nat) : Int) = 512 := rfl
  intro n
  induction n with
  | zero =>
    intro i fuel ctx him hfuel
    obtain ⟨f, rfl⟩ : ∃ f, fuel = f + 1 := ⟨fuel - 1, by omega⟩
    have hcond : ¬ ((i : Int) * 512 < size) := by
      unfold blockCount at him
      omega
    refine ⟨⟨ChksumExit.finished ctx, [], []⟩, ?_, rfl, rfl⟩
    simp only [chksum_blocks, if_neg hcond]
  | succ n ih =>
    intro i fuel ctx him hfuel
    obtain ⟨f, rfl⟩ : ∃ f, fuel = f + 1 := ⟨fuel - 1, by omega⟩
    have hi : i < blockCount size := by omega
    have hcond : (i : Int) * 512 < size := by
      unfold blockCount at hi
      omega
    have hbno : ((i : Int) * 512).tdiv 512 = (i : Int) := by
      rw [Int.tdiv_eq_ediv (by omega) (by decide)]
      omega
    have hnext : wrapInt32 ((i : Int) * 512 + 512) = ((i + 1 : Nat) : Int) * 512 := by
      push_cast
      rw [wrapInt32_eq_self (by omega) (by omega)]
      ring
    obtain ⟨len, buf, reads, hg, hlen⟩ := hall i hi
    have hneg : ¬ (len < 0) := by omega
    have hrun : hashedRun getblock i = (List.range len.toNat).map buf := by
      unfold hashedRun
      rw [hg]
    obtain ⟨l, hl, hexit, hblocks⟩ := ih (i + 1) f
      (sha.update ctx ((List.range len.toNat).map buf)).2 (by omega) (by omega)
    refine ⟨⟨l.exit, reads ++ l.reads, (i : Int) :: l.blocks⟩, ?_, ?_, ?_⟩
    · simp only [chksum_blocks, if_pos hcond, h512, hbno, hg, if_neg hneg, if_neg (hup _ _),
        hnext, hl]
    · show l.exit = _
      rw [hexit, List.range'_succ, List.map_cons, hrun]
      rfl
    · show (i : Int) :: l.blocks = blockIndices i (n + 1)
      rw [hblocks, blockIndices_cons]

/-- C31. For a file whose inode fetch succeeds with the record `inp` of size `s`
and whose blocks `0, ..., ceil(s / 512) - 1` all resolve to a sector the read
of which returns 512 bytes, `file_getblock` returns for block `k` the length
the specification gives it: 512 for every block but the last, and for the last
`s mod 512`, or 512 when `s` is a multiple of 512; these values add up to `s`.
They are the lengths of the byte runs `chksumfile_byinumber` passes to
`SHA1_Update`: when the SHA calls succeed on an allocated inode, it returns
`SHA_DIGEST_LENGTH` with the digest of the fold of `SHA1_Update` over these
runs, `s` bytes in all. -/
theorem file_getblock_values_sum {σ : Type} (sha : ShaLib σ) (ILARG : Nat)
    (fs : unixfilesystem) (inumber : Int) (junk : Nat → BlockJunk) (inp : inode)
    (reads1 : List Int)
    (hget : ∀ k : Nat, k < blockCount (inode_getsize inp) →
      inode_iget fs inumber (junk k).inp (junk k).igetBuf = some (0, inp, reads1))
    (hres : ∀ k : Nat, k < blockCount (inode_getsize inp) →
      ∃ (b : Int) (reads2 : List Int),
        inode_indexlookup ILARG fs inp (k : Int) (junk k).lookupBuf = some (b, reads2) ∧
        b ≠ -1 ∧ (diskimg_readsector fs.dfd b (junk k).buf).1 = 512) :
    ((blockCount (inode_getsize inp) : Nat) : Int) = (inode_getsize inp + 511) / 512 ∧
    (∀ k : Nat, k < blockCount (inode_getsize inp) →
      ∃ (buf : Buffer) (reads : List Int),
        getblock_call ILARG fs inumber junk (k : Int) =
          some (blockLength (inode_getsize inp) k, buf, reads)) ∧
    ((List.range (blockCount (inode_getsize inp))).map (blockLength (inode_getsize inp))).sum =
      inode_getsize inp ∧
    (∀ k : Nat, k + 1 < blockCount (inode_getsize inp) →
      blockLength (inode_getsize inp) k = 512) ∧
    (∀ k : Nat, k + 1 = blockCount (inode_getsize inp) →
      blockLength (inode_getsize inp) k =
        if inode_getsize inp % 512 = 0 then 512 else inode_getsize inp % 512) ∧
    (∀ k : Nat, k < blockCount (inode_getsize inp) →
      ((hashedRun (getblock_call ILARG fs inumber junk) k).length : Int) =
        blockLength (inode_getsize inp) k) ∧
    ((List.range (blockCount (inode_getsize inp))).map
      (fun k => ((hashedRun (getblock_call ILARG fs inumber junk) k).length : Int))).sum =
      inode_getsize inp ∧
    (∀ (IALLOC : Nat) (chksum : List U8) (inp0 : inode) (junk0 : Buffer),
      inode_iget fs inumber inp0 junk0 = some (0, inp, reads1) →
      inp.i_mode.val &&& IALLOC ≠ 0 → sha.init.1 ≠ 0 →
      (∀ (ctx : σ) (bytes : List U8), (sha.update ctx bytes).1 ≠ 0) →
      (∀ (ctx : σ) (md : List U8), (sha.final ctx md).1 ≠ 0) →
      ∃ res : ChksumResult,
        chksumfile_byinumber sha ILARG IALLOC fs inumber chksum inp0 junk0 junk = some res ∧
        res.ret = SHA_DIGEST_LENGTH ∧
        res.chksum = (sha.final (shaFold sha sha.init.2
          ((List.range (blockCount (inode_getsize inp))).map
            (hashedRun (getblock_call ILARG fs inumber junk)))) chksum).2 ∧
        res.blocks = blockIndices 0 (blockCount (inode_getsize inp))) := by
  have hsz := inode_getsize_nonneg inp
  have hlt := inode_getsize_lt inp
  have hval : ∀ k : Nat, k < blockCount (inode_getsize inp) →
      ∃ (buf : Buffer) (reads : List Int),
        getblock_call ILARG fs inumber junk (k : Int) =
          some (blockLength (inode_getsize inp) k, buf, reads) := by
    intro k hk
    obtain ⟨b, reads2, hlook, hb, hread⟩ := hres k hk
    exact ⟨_, _, getblock_call_value ILARG fs inumber junk inp reads1 k b reads2 hk (hget k hk)
      hlook hb hread⟩
  have hpos : ∀ k : Nat, 0 ≤ blockLength (inode_getsize inp) k := by
    intro k
    unfold blockLength
    split
    · decide
    · split <;> omega
  have hrun : ∀ k : Nat, k < blockCount (inode_getsize inp) →
      ((hashedRun (getblock_call ILARG fs inumber junk) k).length : Int) =
        blockLength (inode_getsize inp) k := by
    intro k hk
    obtain ⟨buf, reads, hg⟩ := hval k hk
    unfold hashedRun
    rw [hg]
    simp only [List.length_map, List.length_range]
    exact Int.toNat_of_nonneg (hpos k)
  have hsum := blockLength_sum (inode_getsize inp) hsz
  refine ⟨?_, hval, hsum, ?_, ?_, hrun, ?_, ?_⟩
  · unfold blockCount
    omega
  · intro k hk
    unfold blockLength
    rw [if_pos hk]
  · intro k hk
    unfold blockLength
    rw [if_neg (by omega)]
  · have hmap : (List.range (blockCount (inode_getsize inp))).map
        (fun k => ((hashedRun (getblock_call ILARG fs inumber junk) k).length : Int)) =
        (List.range (blockCount (inode_getsize inp))).map (blockLength (inode_getsize inp)) :=
      List.map_congr_left (fun k hk => hrun k (List.mem_range.1 hk))
    rw [hmap]
    exact hsum
  · intro IALLOC chksum inp0 junk0 hget0 halloc hinit hup hfin
    have hall : ∀ k : Nat, k < blockCount (inode_getsize inp) →
        ∃ (len : Int) (buf : Buffer) (reads : List Int),
          getblock_call ILARG fs inumber junk (k : Int) = some (len, buf, reads) ∧ 0 ≤ len := by
      intro k hk
      obtain ⟨buf, reads, hg⟩ := hval k hk
      exact ⟨_, buf, reads, hg, hpos k⟩
    have hfuel : blockCount (inode_getsize inp) <
        (inode_getsize inp).toNat / DISKIMG_SECTOR_SIZE + 2 := by
      unfold blockCount
      have h512 : DISKIMG_SECTOR_SIZE = 512 := rfl
      rw [h512]
      omega
    obtain ⟨l, hl, hexit, hblocks⟩ := chksum_blocks_all (getblock_call ILARG fs inumber junk) sha
      (inode_getsize inp) (by omega) hall hup (blockCount (inode_getsize inp)) 0
      ((inode_getsize inp).toNat / DISKIMG_SECTOR_SIZE + 2) sha.init.2 (by omega) hfuel
    have hz : ((0 : Nat) : Int) * 512 = 0 := rfl
    rw [hz] at hl
    rw [← List.range_eq_range'] at hexit
    unfold chksumfile_byinumber
    rw [if_neg hinit]
    simp only [hget0]
    rw [if_neg (by decide), if_neg halloc]
    simp only [hl, hexit, if_neg (hfin _ _)]
    exact ⟨_, rfl, rfl, rfl, hblocks⟩

set_option maxRecDepth 1000000 in
/-- C31 at inode 1 of the demo image, a file of 1000 bytes in blocks 50 and 51:
`file_getblock` returns 512 for block 0 and 488 for block 1, which add up to
1000, and the checksum hashes runs of 512 and 488 bytes. For a file of 1024
bytes the two blocks count 512 each. -/
theorem file_getblock_values_sum_witness :
    (blockCount (inode_getsize demoRootFetched) = 2 ∧ inode_getsize demoRootFetched = 1000 ∧
      inode_iget demoFs 1 zeroInode zeroBuffer = some (0, demoRootFetched, [2]) ∧
      inode_indexlookup 4096 demoFs demoRootFetched 0 zeroBuffer = some (50, []) ∧
      inode_indexlookup 4096 demoFs demoRootFetched 1 zeroBuffer = some (51, []) ∧
      (diskimg_readsector demoFs.dfd 50 zeroBuffer).1 = 512 ∧
      (diskimg_readsector demoFs.dfd 51 zeroBuffer).1 = 512) ∧
    (((blockCount (inode_getsize demoRootFetched) : Nat) : Int) =
      (inode_getsize demoRootFetched + 511) / 512 ∧
    (∀ k : Nat, k < blockCount (inode_getsize demoRootFetched) →
      ∃ (buf : Buffer) (reads : List Int),
        getblock_call 4096 demoFs 1 zeroJunk (k : Int) =
          some (blockLength (inode_getsize demoRootFetched) k, buf, reads)) ∧
    ((List.range (blockCount (inode_getsize demoRootFetched))).map
      (blockLength (inode_getsize demoRootFetched))).sum = inode_getsize demoRootFetched ∧
    (∀ k : Nat, k + 1 < blockCount (inode_getsize demoRootFetched) →
      blockLength (inode_getsize demoRootFetched) k = 512) ∧
    (∀ k : Nat, k + 1 = blockCount (inode_getsize demoRootFetched) →
      blockLength (inode_getsize demoRootFetched) k =
        if inode_getsize demoRootFetched % 512 = 0 then 512
        else inode_getsize demoRootFetched % 512) ∧
    (∀ k : Nat, k < blockCount (inode_getsize demoRootFetched) →
      ((hashedRun (getblock_call 4096 demoFs 1 zeroJunk) k).length : Int) =
        blockLength (inode_getsize demoRootFetched) k) ∧
    ((List.range (blockCount (inode_getsize demoRootFetched))).map
      (fun k => ((hashedRun (getblock_call 4096 demoFs 1 zeroJunk) k).length : Int))).sum =
      inode_getsize demoRootFetched ∧
    (∀ (IALLOC : Nat) (chksum : List U8) (inp0 : inode) (junk0 : Buffer),
      inode_iget demoFs 1 inp0 junk0 = some (0, demoRootFetched, [2]) →
      demoRootFetched.i_mode.val &&& IALLOC ≠ 0 → lengthSha.init.1 ≠ 0 →
      (∀ (ctx : List Nat) (bytes : List U8), (lengthSha.update ctx bytes).1 ≠ 0) →
      (∀ (ctx : List Nat) (md : List U8), (lengthSha.final ctx md).1 ≠ 0) →
      ∃ res : ChksumResult,
        chksumfile_byinumber lengthSha 4096 IALLOC demoFs 1 chksum inp0 junk0 zeroJunk =
          some res ∧
        res.ret = SHA_DIGEST_LENGTH ∧
        res.chksum = (lengthSha.final (shaFold lengthSha lengthSha.init.2
          ((List.range (blockCount (inode_getsize demoRootFetched))).map
            (hashedRun (getblock_call 4096 demoFs 1 zeroJunk)))) chksum).2 ∧
        res.blocks = blockIndices 0 (blockCount (inode_getsize demoRootFetched)))) ∧
    ((List.range 2).map (blockLength 1000) = [512, 488] ∧
      (List.range 2).map (blockLength 1024) = [512, 512] ∧ blockCount 1024 = 2 ∧
      blockCount 0 = 0 ∧
      shaFold lengthSha lengthSha.init.2
        ((List.range 2).map (hashedRun (getblock_call 4096 demoFs 1 zeroJunk))) = [512, 488]) :=
  ⟨⟨by decide, by decide, demoRoot_fetch.1, by decide, by decide, by decide, by decide⟩,
   file_getblock_values_sum lengthSha 4096 demoFs 1 zeroJunk demoRootFetched [2]
    (fun _ _ => demoRoot_fetch.1)
    (fun k hk => by
      have h2 : blockCount (inode_getsize demoRootFetched) = 2 := by decide
      rw [h2] at hk
      have hcases : k = 0 ∨ k = 1 := by omega
      rcases hcases with h | h
      · rw [h]
        exact ⟨50, [], by decide, by decide, by decide⟩
      · rw [h]
        exact ⟨51, [], by decide, by decide, by decide⟩),
   ⟨by decide, by decide, by decide, by decide, by decide⟩⟩

/-! ## Block-address translation: the range of the result -/

/-- The branches of `inode_indexlookup`: the bounds check fails and `-1` is
returned with no read; or the last sector read failed and `-1` is returned; or
no error branch is taken, every read succeeded and the value returned is a
16-bit block number. -/
theorem indexlookup_branches (ILARG : Nat) (fs : unixfilesystem) (inp : inode) (i : Int)
    (junk : Buffer) (v : Int) (reads : List Int)
    (h : inode_indexlookup ILARG fs inp i junk = some (v, reads)) :
    (v = -1 ∧ reads = [] ∧
      (wrapInt32 (i * (DISKIMG_SECTOR_SIZE : Int)) > inode_getsize inp ∨ i < 0)) ∨
    (v = -1 ∧ ¬ (wrapInt32 (i * (DISKIMG_SECTOR_SIZE : Int)) > inode_getsize inp ∨ i < 0) ∧
      ∃ s ∈ reads, sectorReadFails fs.dfd s) ∨
    (∃ e : U16, v = (e.val : Int) ∧
      ¬ (wrapInt32 (i * (DISKIMG_SECTOR_SIZE : Int)) > inode_getsize inp ∨ i < 0) ∧
      ∀ s ∈ reads, ¬ sectorReadFails fs.dfd s) := by
  unfold inode_indexlookup at h
  simp only [] at h
  by_cases hb : wrapInt32 (i * (DISKIMG_SECTOR_SIZE : Int)) > inode_getsize inp ∨ i < 0
  · rw [if_pos hb] at h
    simp only [Option.some.injEq, Prod.mk.injEq] at h
    exact Or.inl ⟨h.1.symm, h.2.symm, hb⟩
  · rw [if_neg hb] at h
    right
    by_cases hs : inp.i_mode.val &&& ILARG = 0
    · rw [if_pos hs] at h
      cases ha : i_addr_at inp i with
      | none =>
        rw [ha] at h
        cases h
      | some a =>
        rw [ha] at h
        simp only [Option.some.injEq, Prod.mk.injEq] at h
        right
        refine ⟨a, h.1.symm, hb, ?_⟩
        rw [← h.2]
        intro s hs1
        cases hs1
    · rw [if_neg hs] at h
      cases ha : i_addr_at inp
          (if i.tdiv BLOCKNUMS_PER_BLOCK > NUM_SGL_INDIR_BLOCKS then NUM_SGL_INDIR_BLOCKS
            else i.tdiv BLOCKNUMS_PER_BLOCK) with
      | none =>
        rw [ha] at h
        cases h
      | some a =>
        rw [ha] at h
        simp only [] at h
        by_cases hf : (diskimg_readsector fs.dfd (a.val : Int) junk).1 = -1
        · rw [if_pos hf] at h
          simp only [Option.some.injEq, Prod.mk.injEq] at h
          left
          refine ⟨h.1.symm, hb, (a.val : Int), ?_, (readsector_fails_iff fs.dfd _ junk).1 hf⟩
          rw [← h.2]
          exact List.mem_singleton_self _
        · rw [if_neg hf] at h
          have hok : ¬ sectorReadFails fs.dfd (a.val : Int) :=
            fun hx => hf ((readsector_fails_iff fs.dfd _ junk).2 hx)
          by_cases hsg : inode_getsize inp ≤ SINGLY_INDIRECT_BYTES ∨
              i.tdiv BLOCKNUMS_PER_BLOCK < NUM_SGL_INDIR_BLOCKS
          · rw [if_pos hsg] at h
            cases he : blocknum_at (diskimg_readsector fs.dfd (a.val : Int) junk).2
                (i.tmod BLOCKNUMS_PER_BLOCK) with
            | none =>
              rw [he] at h
              cases h
            | some e =>
              rw [he] at h
              simp only [Option.some.injEq, Prod.mk.injEq] at h
              right
              refine ⟨e, h.1.symm, hb, ?_⟩
              rw [← h.2]
              intro s hs1
              rw [List.mem_singleton.1 hs1]
              exact hok
          · rw [if_neg hsg] at h
            cases he : blocknum_at (diskimg_readsector fs.dfd (a.val : Int) junk).2
                (wrapInt32 (i.tdiv BLOCKNUMS_PER_BLOCK - NUM_SGL_INDIR_BLOCKS)) with
            | none =>
              rw [he] at h
              cases h
            | some second =>
              rw [he] at h
              simp only [] at h
              by_cases hf2 : (diskimg_readsector fs.dfd (second.val : Int)
                  (diskimg_readsector fs.dfd (a.val : Int) junk).2).1 = -1
              · rw [if_pos hf2] at h
                simp only [Option.some.injEq, Prod.mk.injEq] at h
                left
                refine ⟨h.1.symm, hb, (second.val : Int), ?_,
                  (readsector_fails_iff fs.dfd _ _).1 hf2⟩
                rw [← h.2]
                simp
              · rw [if_neg hf2] at h
                have hok2 : ¬ sectorReadFails fs.dfd (second.val : Int) :=
                  fun hx => hf2 ((readsector_fails_iff fs.dfd _ _).2 hx)
                cases he2 : blocknum_at (diskimg_readsector fs.dfd (second.val : Int)
                    (diskimg_readsector fs.dfd (a.val : Int) junk).2).2
                    (i.tmod BLOCKNUMS_PER_BLOCK) with
                | none =>
                  rw [he2] at h
                  cases h
                | some e =>
                  rw [he2] at h
                  simp only [Option.some.injEq, Prod.mk.injEq] at h
                  right
                  refine ⟨e, h.1.symm, hb, ?_⟩
                  rw [← h.2]
                  intro s hs1
                  rcases List.mem_cons.1 hs1 with h1 | h1
                  · rw [h1]
                    exact hok
                  · rw [List.mem_singleton.1 h1]
                    exact hok2

/-- C32. Whenever `inode_indexlookup` returns without taking an error branch,
the value is a 16-bit block number in `[0, 65535]`. The value `-1` is returned
exactly when the bounds check rejects the index or a sector read of the call
failed; and once the inode fetch has succeeded, `file_getblock` goes on to read
the data sector `blockNum` exactly when the lookup took no error branch, and
stops after the lookup with `-1` otherwise. -/
theorem indexlookup_result_range (ILARG : Nat) (fs : unixfilesystem) (inp : inode) (i : Int)
    (junk : Buffer) (v : Int) (reads : List Int)
    (h : inode_indexlookup ILARG fs inp i junk = some (v, reads)) :
    (-1 ≤ v ∧ v ≤ 65535) ∧
    (v = -1 ↔
      ((wrapInt32 (i * (DISKIMG_SECTOR_SIZE : Int)) > inode_getsize inp ∨ i < 0) ∨
        ∃ s ∈ reads, sectorReadFails fs.dfd s)) ∧
    (v ≠ -1 → 0 ≤ v ∧ v ≤ 65535) ∧
    (∀ (inumber : Int) (buf : Buffer) (inp0 : inode) (junkI : Buffer) (reads1 : List Int),
      inode_iget fs inumber inp0 junkI = some (0, inp, reads1) →
      (v = -1 →
        file_getblock ILARG fs inumber i buf inp0 junkI junk = some (-1, buf, reads1 ++ reads)) ∧
      (v ≠ -1 → ∃ ret : Int,
        file_getblock ILARG fs inumber i buf inp0 junkI junk =
          some (ret, (diskimg_readsector fs.dfd v buf).2, reads1 ++ reads ++ [v]) ∧
        (ret = -1 ↔ sectorReadFails fs.dfd v))) := by
  have hbr := indexlookup_branches ILARG fs inp i junk v reads h
  refine ⟨?_, ?_, ?_, ?_⟩
  · rcases hbr with ⟨hv, _⟩ | ⟨hv, _⟩ | ⟨e, hv, _⟩
    · omega
    · omega
    · have := e.isLt
      omega
  · constructor
    · intro hv
      rcases hbr with ⟨_, _, hb⟩ | ⟨_, _, hs⟩ | ⟨e, he, _⟩
      · exact Or.inl hb
      · exact Or.inr hs
      · have := e.isLt
        omega
    · rintro (hb | ⟨s, hs, hfail⟩)
      · rcases hbr with ⟨hv, _⟩ | ⟨_, hnb, _⟩ | ⟨_, _, hnb, _⟩
        · exact hv
        · exact absurd hb hnb
        · exact absurd hb hnb
      · rcases hbr with ⟨hv, _⟩ | ⟨hv, _⟩ | ⟨_, _, _, hok⟩
        · exact hv
        · exact hv
        · exact absurd hfail (hok s hs)
  · intro hv
    rcases hbr with ⟨h1, _⟩ | ⟨h1, _⟩ | ⟨e, he, _⟩
    · exact absurd h1 hv
    · exact absurd h1 hv
    · have := e.isLt
      omega
  · intro inumber buf inp0 junkI reads1 hget
    have hc := (file_getblock_cases ILARG fs inumber i buf inp0 junkI junk 0 inp reads1 hget).2 rfl
      v reads h
    refine ⟨hc.1, fun hv => ?_⟩
    by_cases hf : (diskimg_readsector fs.dfd v buf).1 = -1
    · exact ⟨-1, hc.2.1 hv hf, fun _ => (readsector_fails_iff fs.dfd v buf).1 hf, fun _ => rfl⟩
    · obtain ⟨ret, h0, _, hr⟩ := hc.2.2 hv hf
      refine ⟨ret, hr, fun h1 => ?_, fun hx => ?_⟩
      · omega
      · exact absurd ((readsector_fails_iff fs.dfd v buf).2 hx) hf

set_option maxRecDepth 1000000 in
/-- C32 on the demo image: index 1 of inode 1 is block 51 and `file_getblock`
goes on to read sector 51; index 3 of inode 1 is past the end of the file, the
lookup returns `-1` without a read and `file_getblock` stops there. -/
theorem indexlookup_result_range_witness :
    (inode_indexlookup 4096 demoFs demoRootFetched 1 zeroBuffer = some (51, []) ∧
      inode_indexlookup 4096 demoFs demoRootFetched 3 zeroBuffer = some (-1, [])) ∧
    (((-1 : Int) ≤ 51 ∧ (51 : Int) ≤ 65535) ∧
    ((51 : Int) = -1 ↔
      ((wrapInt32 (1 * (DISKIMG_SECTOR_SIZE : Int)) > inode_getsize demoRootFetched ∨
          (1 : Int) < 0) ∨
        ∃ s ∈ ([] : List Int), sectorReadFails demoFs.dfd s)) ∧
    ((51 : Int) ≠ -1 → (0 : Int) ≤ 51 ∧ (51 : Int) ≤ 65535) ∧
    (∀ (inumber : Int) (buf : Buffer) (inp0 : inode) (junkI : Buffer) (reads1 : List Int),
      inode_iget demoFs inumber inp0 junkI = some (0, demoRootFetched, reads1) →
      ((51 : Int) = -1 →
        file_getblock 4096 demoFs inumber 1 buf inp0 junkI zeroBuffer =
          some (-1, buf, reads1 ++ [])) ∧
      ((51 : Int) ≠ -1 → ∃ ret : Int,
        file_getblock 4096 demoFs inumber 1 buf inp0 junkI zeroBuffer =
          some (ret, (diskimg_readsector demoFs.dfd 51 buf).2, reads1 ++ [] ++ [51]) ∧
        (ret = -1 ↔ sectorReadFails demoFs.dfd 51)))) ∧
    (file_getblock 4096 demoFs 1 3 zeroBuffer zeroInode zeroBuffer zeroBuffer).map
      (fun r => (r.1, r.2.2)) = some (-1, [2]) :=
  ⟨⟨by decide, by decide⟩,
   indexlookup_result_range 4096 demoFs demoRootFetched 1 zeroBuffer 51 [] (by decide),
   by decide⟩

/-! ## Path resolution: empty components and the text before the first separator -/

theorem take_length_takeWhile (p : U8 → Bool) (s : List U8) :
    s.take (s.takeWhile p).length = s.takeWhile p := by
  induction s with
  | nil => rfl
  | cons x xs ih =>
    by_cases hx : p x = true
    · rw [List.takeWhile_cons_of_pos hx]
      simp only [List.length_cons, List.take_succ_cons]
      rw [ih]
    · rw [List.takeWhile_cons_of_neg hx]
      rfl

theorem take_strlen_eq_takeWhile (s : List U8) :
    s.take (strlen s) = s.takeWhile (fun c => decide (c ≠ 0)) :=
  take_length_takeWhile _ s

theorem takeWhile_append_of_all (p : U8 → Bool) (a b : List U8) (h : ∀ x ∈ a, p x = true) :
    (a ++ b).takeWhile p = a ++ b.takeWhile p := by
  induction a with
  | nil => rfl
  | cons x xs ih =>
    have hx : p x = true := h x (List.mem_cons_self _ _)
    show (x :: (xs ++ b)).takeWhile p = _
    rw [List.takeWhile_cons_of_pos hx, ih (fun y hy => h y (List.mem_cons_of_mem _ hy))]
    rfl

/-- The copy `pathname_lookup` makes of a string that begins with the NUL-free
bytes `a`: these bytes, then the copy of the rest. -/
theorem take_strlen_append (a b : List U8) (h : (0 : U8) ∉ a) :
    (a ++ b).take (strlen (a ++ b)) = a ++ b.take (strlen b) := by
  rw [take_strlen_eq_takeWhile, take_strlen_eq_takeWhile, takeWhile_append_of_all]
  intro x hx
  have : x ≠ 0 := fun h0 => h (h0 ▸ hx)
  simpa using this

theorem mem_of_mem_takeWhile (p : U8 → Bool) (x : U8) (l : List U8)
    (h : x ∈ l.takeWhile p) : x ∈ l := by
  induction l with
  | nil => exact h
  | cons y ys ih =>
    by_cases hy : p y = true
    · rw [List.takeWhile_cons_of_pos hy] at h
      rcases List.mem_cons.1 h with h1 | h1
      · rw [h1]
        exact List.mem_cons_self _ _
      · exact List.mem_cons_of_mem _ (ih h1)
    · rw [List.takeWhile_cons_of_neg hy] at h
      cases h

/-- The walk stops at an empty piece: the pieces after it are not looked at. -/
theorem walkTokens_append_stop (ILARG : Nat) (fs : unixfilesystem) (junk : Nat → FindJunk)
    (rest : List (List U8)) (cs : List (List U8)) :
    ∀ (n : Nat) (d : Int),
      walkTokens ILARG fs junk (cs ++ [] :: rest) n d = walkTokens ILARG fs junk cs n d := by
  induction cs with
  | nil =>
    intro n d
    show walkTokens ILARG fs junk ([] :: rest) n d = walkTokens ILARG fs junk [] n d
    simp [walkTokens, strcmp_nil]
  | cons t ts ih =>
    intro n d
    show walkTokens ILARG fs junk (t :: (ts ++ [] :: rest)) n d = _
    rw [walkTokens, walkTokens]
    simp only [ih]

/-- C33. `pathname_lookup` stops at the first empty component: for every path
`P = /c1/.../cn` (or `P` empty) whose components are non-empty and hold neither
`/` nor NUL, and every string `R`, `pathname_lookup` of `P` followed by `//` and
`R` gives what `pathname_lookup(P)` gives, the same value after the same
lookups and sector reads, which are those of the walk over `c1, ..., cn`; in
particular `//` followed by `R` resolves to 1 with no lookup. -/
theorem pathname_lookup_stops_at_empty_component (ILARG : Nat) (fs : unixfilesystem)
    (junk : Nat → FindJunk) (cs : List (List U8)) (R : List U8)
    (h : ∀ c ∈ cs, isComponent c) :
    pathname_lookup ILARG fs (joinPath cs ++ 47 :: 47 :: R) junk =
      pathname_lookup ILARG fs (joinPath cs) junk ∧
    pathname_lookup ILARG fs (joinPath cs) junk = walkTokens ILARG fs junk cs 0 1 ∧
    (∀ p : PathResult, pathname_lookup ILARG fs (joinPath cs ++ 47 :: 47 :: R) junk = some p →
      p.lookups.length ≤ cs.length) ∧
    pathname_lookup ILARG fs (47 :: 47 :: R) junk = some ⟨1, [], []⟩ := by
  have hgen : ∀ cs1 : List (List U8), (∀ c ∈ cs1, isComponent c) →
      pathname_lookup ILARG fs (joinPath cs1 ++ 47 :: 47 :: R) junk =
        walkTokens ILARG fs junk cs1 0 1 := by
    intro cs1 h1
    have hnul : (0 : U8) ∉ joinPath cs1 ++ [47, 47] := by
      intro hm
      rcases List.mem_append.1 hm with h2 | h2
      · exact joinPath_no_nul cs1 (fun c hc => (h1 c hc).2.2) h2
      · revert h2
        decide
    have hsplit : joinPath cs1 ++ 47 :: 47 :: R = (joinPath cs1 ++ [47, 47]) ++ R := by simp
    have hback : (joinPath cs1 ++ [47, 47]) ++ R.take (strlen R) =
        joinPath cs1 ++ 47 :: (47 :: R.take (strlen R)) := by simp
    rw [pathname_lookup_tokens, hsplit, take_strlen_append _ R hnul, hback,
      splitSlash_joinPath_slash cs1 _ (fun c hc => (h1 c hc).2.1)]
    have h47 : splitSlash (47 :: R.take (strlen R)) = [] :: splitSlash (R.take (strlen R)) := by
      rw [splitSlash, if_pos rfl]
    rw [h47, List.tail_cons]
    exact walkTokens_append_stop ILARG fs junk _ cs1 0 1
  have hjoin : pathname_lookup ILARG fs (joinPath cs) junk = walkTokens ILARG fs junk cs 0 1 := by
    have := pathname_lookup_join ILARG fs junk cs [] h (Or.inl rfl) (by decide)
    rw [List.append_nil] at this
    rw [this]
    simp [splitSlash]
  refine ⟨by rw [hgen cs h, hjoin], hjoin, fun p hp => ?_, ?_⟩
  · rw [hgen cs h] at hp
    exact walkTokens_lookups_length ILARG fs junk cs 0 1 p hp
  · have := hgen [] (fun c hc => absurd hc (List.not_mem_nil c))
    exact this

set_option maxRecDepth 1000000 in
/-- C33 on the demo image: `/docs//readme` resolves to 6, the inumber of
`/docs`, after the one lookup of `docs`, and `//docs` resolves to 1. -/
theorem pathname_lookup_stops_at_empty_component_witness :
    ((∀ c ∈ [cstr "docs"], isComponent c) ∧
      joinPath [cstr "docs"] ++ 47 :: 47 :: cstr "readme" = cstr "/docs//readme" ∧
      joinPath [cstr "docs"] = cstr "/docs") ∧
    (pathname_lookup 4096 demoFs (joinPath [cstr "docs"] ++ 47 :: 47 :: cstr "readme")
        zeroFindJunk = pathname_lookup 4096 demoFs (joinPath [cstr "docs"]) zeroFindJunk ∧
    pathname_lookup 4096 demoFs (joinPath [cstr "docs"]) zeroFindJunk =
      walkTokens 4096 demoFs zeroFindJunk [cstr "docs"] 0 1 ∧
    (∀ p : PathResult,
      pathname_lookup 4096 demoFs (joinPath [cstr "docs"] ++ 47 :: 47 :: cstr "readme")
        zeroFindJunk = some p → p.lookups.length ≤ [cstr "docs"].length) ∧
    pathname_lookup 4096 demoFs (47 :: 47 :: cstr "readme") zeroFindJunk = some ⟨1, [], []⟩) ∧
    pathname_lookup 4096 demoFs (cstr "/docs//readme") zeroFindJunk =
      some ⟨6, [2, 2, 50], [(cstr "docs", 1)]⟩ ∧
    pathname_lookup 4096 demoFs (cstr "//docs") zeroFindJunk = some ⟨1, [], []⟩ :=
  ⟨⟨by decide, by decide, by decide⟩,
   pathname_lookup_stops_at_empty_component 4096 demoFs zeroFindJunk [cstr "docs"]
    (cstr "readme") (by decide),
   by decide, by decide⟩

/-- C34. `pathname_lookup` discards what precedes the first `/` without looking
at it: for every string `u` that holds neither `/` nor NUL and every string
`R`, `pathname_lookup` of `u` followed by `/` and `R` gives what
`pathname_lookup` of `/` followed by `R` gives; and for a string that holds no
`/` at all, the empty string included, it returns 1 with no lookup and no sector
read. No path is reported as an error for not beginning with `/`. -/
theorem pathname_lookup_discards_prefix (ILARG : Nat) (fs : unixfilesystem)
    (junk : Nat → FindJunk) (u R : List U8) (hu : (47 : U8) ∉ u) (h0 : (0 : U8) ∉ u) :
    pathname_lookup ILARG fs (u ++ 47 :: R) junk = pathname_lookup ILARG fs (47 :: R) junk ∧
    (∀ s : List U8, (47 : U8) ∉ s → pathname_lookup ILARG fs s junk = some ⟨1, [], []⟩) ∧
    pathname_lookup ILARG fs [] junk = some ⟨1, [], []⟩ := by
  refine ⟨?_, ?_, rfl⟩
  · have h1 : (47 : U8) :: R = [47] ++ R := rfl
    have h2 : u ++ 47 :: R = (u ++ [47]) ++ R := by simp
    have hn1 : (0 : U8) ∉ ([47] : List U8) := by decide
    have hn2 : (0 : U8) ∉ u ++ [47] := by
      intro hm
      rcases List.mem_append.1 hm with h3 | h3
      · exact h0 h3
      · exact hn1 h3
    have hb : (u ++ [47]) ++ R.take (strlen R) = u ++ 47 :: R.take (strlen R) := by simp
    rw [pathname_lookup_tokens, pathname_lookup_tokens, h2, take_strlen_append _ R hn2, hb,
      splitSlash_component_slash u _ hu, h1, take_strlen_append _ R hn1]
    show _ = walkTokens ILARG fs junk (splitSlash (47 :: R.take (strlen R))).tail 0 1
    rw [splitSlash, if_pos rfl]
    rfl
  · intro s hs
    have hcopy : (47 : U8) ∉ s.take (strlen s) := by
      rw [take_strlen_eq_takeWhile]
      exact fun hm => hs (mem_of_mem_takeWhile _ _ _ hm)
    rw [pathname_lookup_tokens, splitSlash_component _ hcopy]
    rfl

set_option maxRecDepth 1000000 in
/-- C34 on the demo image: `x/docs/readme` resolves to 9 as `/docs/readme`
does, and `docs`, which holds no `/`, resolves to 1. -/
theorem pathname_lookup_discards_prefix_witness :
    ((47 : U8) ∉ cstr "x" ∧ (0 : U8) ∉ cstr "x" ∧
      cstr "x" ++ 47 :: cstr "docs/readme" = cstr "x/docs/readme" ∧
      (47 : U8) :: cstr "docs/readme" = cstr "/docs/readme" ∧ (47 : U8) ∉ cstr "docs") ∧
    (pathname_lookup 4096 demoFs (cstr "x" ++ 47 :: cstr "docs/readme") zeroFindJunk =
        pathname_lookup 4096 demoFs (47 :: cstr "docs/readme") zeroFindJunk ∧
      (∀ s : List U8, (47 : U8) ∉ s →
        pathname_lookup 4096 demoFs s zeroFindJunk = some ⟨1, [], []⟩) ∧
      pathname_lookup 4096 demoFs [] zeroFindJunk = some ⟨1, [], []⟩) ∧
    pathname_lookup 4096 demoFs (cstr "x/docs/readme") zeroFindJunk =
      some ⟨9, [2, 2, 50, 2, 2, 56], [(cstr "docs", 1), (cstr "readme", 6)]⟩ ∧
    pathname_lookup 4096 demoFs (cstr "docs") zeroFindJunk = some ⟨1, [], []⟩ :=
  ⟨⟨by decide, by decide, by decide, by decide, by decide⟩,
   pathname_lookup_discards_prefix 4096 demoFs zeroFindJunk (cstr "x") (cstr "docs/readme")
    (by decide) (by decide),
   by decide, by decide⟩

/-! ## Directory lookup: frame of the output parameter -/

/-- C35. `directory_findname` writes `*dirEnt` only when it returns 0: the call
returns 0 or `-1`, and whenever it returns `-1`, because the inode fetch failed,
because a block could not be read, or because no live entry matched, `*dirEnt`
is exactly what it was before the call. -/
theorem directory_findname_dirent_frame (ILARG : Nat) (fs : unixfilesystem) (name : List U8)
    (dirinumber : Int) (dirEnt : direntv6) (inp0 : inode) (junk0 : Buffer)
    (junk : Nat → BlockJunk) (res : FindnameResult)
    (hres : directory_findname ILARG fs name dirinumber dirEnt inp0 junk0 junk = some res) :
    (res.ret = 0 ∨ res.ret = -1) ∧ (res.ret = -1 → res.dirEnt = dirEnt) ∧
    (res.dirEnt ≠ dirEnt → res.ret = 0) := by
  have hmain : (res.ret = 0 ∨ res.ret = -1) ∧ (res.ret = -1 → res.dirEnt = dirEnt) := by
    rcases directory_findname_some ILARG fs name dirinumber dirEnt inp0 junk0 junk res hres with
      ⟨st, inp, reads0, _, _, hr⟩ | ⟨inp, reads0, _, hspec, _⟩
    · rw [hr]
      exact ⟨Or.inr rfl, fun _ => rfl⟩
    · rcases hspec with ⟨h0, _⟩ | ⟨h1, hd, _⟩ | ⟨h1, hd, _⟩
      · refine ⟨Or.inl h0, fun h => ?_⟩
        rw [h0] at h
        exact absurd h (by decide)
      · exact ⟨Or.inr h1, fun _ => hd⟩
      · exact ⟨Or.inr h1, fun _ => hd⟩
  refine ⟨hmain.1, hmain.2, fun hne => ?_⟩
  rcases hmain.1 with h | h
  · exact h
  · exact absurd (hmain.2 h) hne

set_option maxRecDepth 1000000 in
/-- C35 on the demo image, the caller's entry holding inumber 77 and the name
`previous` before each call: the lookup of `totallybogus` in directory 1 finds
nothing, the lookup of `tail` on the device with sector 50 unreadable fails at
block 0, and the lookup of `docs` on the device with sector 2 unreadable fails
at the inode fetch; each returns `-1` and leaves the entry as it was. -/
theorem directory_findname_dirent_frame_witness :
    (directory_findname 4096 demoFs (cstr "totallybogus") 1 ⟨77, cstr "previous"⟩ zeroInode
        zeroBuffer zeroJunk = some ⟨-1, ⟨77, cstr "previous"⟩, [2, 2, 50, 2, 51], [0, 1]⟩ ∧
      directory_findname 4096 (brokenFs 50) (cstr "tail") 1 ⟨77, cstr "previous"⟩ zeroInode
        zeroBuffer zeroJunk = some ⟨-1, ⟨77, cstr "previous"⟩, [2, 2, 50], [0]⟩ ∧
      directory_findname 4096 (brokenFs 2) (cstr "docs") 1 ⟨77, cstr "previous"⟩ zeroInode
        zeroBuffer zeroJunk = some ⟨-1, ⟨77, cstr "previous"⟩, [2], []⟩) ∧
    (((-1 : Int) = 0 ∨ (-1 : Int) = -1) ∧
      ((-1 : Int) = -1 → (⟨77, cstr "previous"⟩ : direntv6) = ⟨77, cstr "previous"⟩) ∧
      ((⟨77, cstr "previous"⟩ : direntv6) ≠ ⟨77, cstr "previous"⟩ → (-1 : Int) = 0)) :=
  ⟨⟨by decide, by decide, by decide⟩,
   directory_findname_dirent_frame 4096 demoFs (cstr "totallybogus") 1 ⟨77, cstr "previous"⟩
    zeroInode zeroBuffer zeroJunk ⟨-1, ⟨77, cstr "previous"⟩, [2, 2, 50, 2, 51], [0, 1]⟩
    (by decide)⟩

/-! ## Inode fetch: the mapping from inumbers to slots -/

/-- C36. For every inumber `id ≥ 1`, the sector number
`s = INODE_BLOCK + (id - 1) / INODES_PER_BLOCK` and the slot
`k = (id - 1) % INODES_PER_BLOCK` that `inode_iget` computes satisfy `s ≥ 2`,
`0 ≤ k < 16` and `16 * (s - 2) + k + 1 = id`; `inode_iget` reads sector `s` and,
when the read does not fail, returns the record in slot `k` of the buffer; and
two inumbers `≥ 1` with the same sector and slot are equal. -/
theorem inode_iget_slot_injective (fs : unixfilesystem) (id : Int) (inp0 : inode)
    (junk : Buffer) (h1 : 1 ≤ id) (hmax : id ≤ 2147483647) :
    2 ≤ wrapInt32 (INODE_BLOCK + (wrapInt32 (id - 1)).tdiv INODES_PER_BLOCK) ∧
    (0 ≤ (wrapInt32 (id - 1)).tmod INODES_PER_BLOCK ∧
      (wrapInt32 (id - 1)).tmod INODES_PER_BLOCK < 16) ∧
    16 * (wrapInt32 (INODE_BLOCK + (wrapInt32 (id - 1)).tdiv INODES_PER_BLOCK) - 2) +
      (wrapInt32 (id - 1)).tmod INODES_PER_BLOCK + 1 = id ∧
    (∃ (st : Int) (inp : inode),
      inode_iget fs id inp0 junk =
        some (st, inp, [wrapInt32 (INODE_BLOCK + (wrapInt32 (id - 1)).tdiv INODES_PER_BLOCK)]) ∧
      (st = 0 ∨ st = -1) ∧
      (st = 0 → inp = inodeAt (diskimg_readsector fs.dfd
          (wrapInt32 (INODE_BLOCK + (wrapInt32 (id - 1)).tdiv INODES_PER_BLOCK)) junk).2
        ((wrapInt32 (id - 1)).tmod INODES_PER_BLOCK).toNat)) ∧
    (∀ id1 : Int, 1 ≤ id1 → id1 ≤ 2147483647 →
      wrapInt32 (INODE_BLOCK + (wrapInt32 (id1 - 1)).tdiv INODES_PER_BLOCK) =
        wrapInt32 (INODE_BLOCK + (wrapInt32 (id - 1)).tdiv INODES_PER_BLOCK) →
      (wrapInt32 (id1 - 1)).tmod INODES_PER_BLOCK = (wrapInt32 (id - 1)).tmod INODES_PER_BLOCK →
      id1 = id) := by
  have hmap : ∀ x : Int, 1 ≤ x → x ≤ 2147483647 →
      wrapInt32 (INODE_BLOCK + (wrapInt32 (x - 1)).tdiv INODES_PER_BLOCK) = 2 + (x - 1) / 16 ∧
      (wrapInt32 (x - 1)).tmod INODES_PER_BLOCK = (x - 1) % 16 := by
    intro x hx1 hx2
    have hw : wrapInt32 (x - 1) = x - 1 := wrapInt32_eq_self (by omega) (by omega)
    have hd : (x - 1).tdiv INODES_PER_BLOCK = (x - 1) / 16 :=
      Int.tdiv_eq_ediv (by omega) (by decide)
    have hm : (x - 1).tmod INODES_PER_BLOCK = (x - 1) % 16 :=
      Int.tmod_eq_emod (by omega) (by decide)
    rw [hw, hd, hm]
    refine ⟨?_, rfl⟩
    show wrapInt32 (2 + (x - 1) / 16) = _
    exact wrapInt32_eq_self (by omega) (by omega)
  obtain ⟨hs, hk⟩ := hmap id h1 hmax
  rw [hs, hk]
  refine ⟨by omega, by omega, by omega, ?_, ?_⟩
  · rw [inode_iget_eq fs id inp0 junk h1 hmax]
    by_cases hf : (diskimg_readsector fs.dfd (2 + (id - 1) / 16) junk).1 = -1
    · rw [if_pos hf]
      exact ⟨-1, inp0, rfl, Or.inr rfl, fun h => absurd h (by decide)⟩
    · rw [if_neg hf]
      exact ⟨0, _, rfl, Or.inl rfl, fun _ => rfl⟩
  · intro id1 h11 h1max hs1 hk1
    obtain ⟨hs', hk'⟩ := hmap id1 h11 h1max
    rw [hs'] at hs1
    rw [hk'] at hk1
    omega

set_option maxRecDepth 1000000 in
/-- C36 at inumber 40: sector `2 + 39 / 16 = 4`, slot `39 % 16 = 7`, and
`16 * (4 - 2) + 7 + 1 = 40`. -/
theorem inode_iget_slot_injective_witness :
    ((1 : Int) ≤ 40 ∧ (40 : Int) ≤ 2147483647) ∧
    (wrapInt32 (INODE_BLOCK + (wrapInt32 (40 - 1)).tdiv INODES_PER_BLOCK) = 4 ∧
      (wrapInt32 (40 - 1)).tmod INODES_PER_BLOCK = 7) ∧
    (2 ≤ wrapInt32 (INODE_BLOCK + (wrapInt32 (40 - 1)).tdiv INODES_PER_BLOCK) ∧
    (0 ≤ (wrapInt32 (40 - 1)).tmod INODES_PER_BLOCK ∧
      (wrapInt32 (40 - 1)).tmod INODES_PER_BLOCK < 16) ∧
    16 * (wrapInt32 (INODE_BLOCK + (wrapInt32 (40 - 1)).tdiv INODES_PER_BLOCK) - 2) +
      (wrapInt32 (40 - 1)).tmod INODES_PER_BLOCK + 1 = 40 ∧
    (∃ (st : Int) (inp : inode),
      inode_iget demoFs 40 zeroInode zeroBuffer =
        some (st, inp, [wrapInt32 (INODE_BLOCK + (wrapInt32 (40 - 1)).tdiv INODES_PER_BLOCK)]) ∧
      (st = 0 ∨ st = -1) ∧
      (st = 0 → inp = inodeAt (diskimg_readsector demoFs.dfd
          (wrapInt32 (INODE_BLOCK + (wrapInt32 (40 - 1)).tdiv INODES_PER_BLOCK)) zeroBuffer).2
        ((wrapInt32 (40 - 1)).tmod INODES_PER_BLOCK).toNat)) ∧
    (∀ id1 : Int, 1 ≤ id1 → id1 ≤ 2147483647 →
      wrapInt32 (INODE_BLOCK + (wrapInt32 (id1 - 1)).tdiv INODES_PER_BLOCK) =
        wrapInt32 (INODE_BLOCK + (wrapInt32 (40 - 1)).tdiv INODES_PER_BLOCK) →
      (wrapInt32 (id1 - 1)).tmod INODES_PER_BLOCK = (wrapInt32 (40 - 1)).tmod INODES_PER_BLOCK →
      id1 = 40)) :=
  ⟨by decide, by decide,
   inode_iget_slot_injective demoFs 40 zeroInode zeroBuffer (by decide) (by decide)⟩


end UnixV6
